import Mathlib

/-!
Shallow embedding of the hashi solver (src/hashi.c) and proofs about it.

Modelling conventions:
- Pointers to islands and connections become indices into the board lists.
  The sentinel out_island / out_connection of the C code is represented by
  the reference value none; the mutable fields of the sentinels
  (out_island.pendbridges, out_connection.bridges, out_connection.firstcross)
  are stored in the board itself so that the C aliasing is preserved exactly.
- The C char fields (bridges, pendbridges, row, col, expectbridges) become
  Int, with all updates written exactly as in the source; the guards of the
  source keep them in range, which is proved rather than assumed.
- The C loops that are bounded only through the data (while loops in
  fill_bridges, del_bridge undo loops, the recursive visit_islands and
  find_solutions_from_island) are written with an explicit fuel argument,
  together with theorems that the chosen fuel is always sufficient where the
  claims need it.
-/

namespace Hashi

/-- Direction indices of the C enum: UP = 0, LEFT = 1, RIGHT = 2, DOWN = 3. -/
abbrev UP : Nat := 0
abbrev LEFT : Nat := 1
abbrev RIGHT : Nat := 2
abbrev DOWN : Nat := 3

/-- Number of directions (DIRECTIONS in the C source). -/
abbrev DIRECTIONS : Nat := 4

/-- MAX_CONNECTION_BRIDGES of the C source. -/
abbrev MAX_CONNECTION_BRIDGES : Int := 2

/-- MAX_EXPECTED_BRIDGES of the C source (2 * 4). -/
abbrev MAX_EXPECTED_BRIDGES : Int := 8

/-- CHAR_MAX bound used by add_island for row and column values. -/
abbrev CHAR_MAX : Int := 127

/-- Reference to a connection: none stands for the out_connection sentinel. -/
abbrev ConnRef := Option Nat

/-- Reference to an island: none stands for the out_island sentinel. -/
abbrev IslandRef := Option Nat

/-- Island record (struct st_hisland).  The four-element pointer arrays
islands[] and connections[] become four IslandRef / ConnRef fields. -/
structure HIsland where
  pendbridges : Int
  expectbridges : Int
  row : Int
  col : Int
  upIsland : IslandRef
  leftIsland : IslandRef
  rightIsland : IslandRef
  downIsland : IslandRef
  upConn : ConnRef
  leftConn : ConnRef
  rightConn : ConnRef
  downConn : ConnRef
deriving Repr, DecidableEq

/-- Connection record (struct st_hconnection).  The linked list of
crosselems becomes a list of ConnRef (each crosselem stores a pointer to the
bridges field of some connection); ppendbridges1 and ppendbridges2 become
the indices of the islands whose pendbridges fields they address. -/
structure HConnection where
  bridges : Int
  firstcross : List ConnRef
  pendIsland1 : Nat
  pendIsland2 : Nat
deriving Repr, DecidableEq

/-- Board record (struct st_hboard).  The arenas become growable lists, so
num_islands is islands.length; the mutable fields of the two sentinels are
inlined (outPendbridges, outBridges, outFirstcross). -/
structure HBoard where
  islands : List HIsland
  connections : List HConnection
  rows : Int
  cols : Int
  outPendbridges : Int
  outBridges : Int
  outFirstcross : List ConnRef
  visitedmatrix : List Bool
  visitedlimit : Int
deriving Repr, DecidableEq

/-- Default island used for out-of-range reads (never reached from valid
boards); its fields mirror init_out_island. -/
def emptyIsland : HIsland :=
  { pendbridges := 0, expectbridges := 0, row := -1, col := -1,
    upIsland := none, leftIsland := none, rightIsland := none,
    downIsland := none, upConn := none, leftConn := none,
    rightConn := none, downConn := none }

/-- Default connection used for out-of-range reads (never reached from
valid boards). -/
def emptyConn : HConnection :=
  { bridges := 0, firstcross := [], pendIsland1 := 0, pendIsland2 := 0 }

/-- Reading an island of the board by index. -/
def getIsland (b : HBoard) (i : Nat) : HIsland := b.islands.getD i emptyIsland

/-- Reading a connection of the board by index. -/
def getConn (b : HBoard) (j : Nat) : HConnection := b.connections.getD j emptyConn

/-- Dereference the bridges field of a connection reference. -/
def refBridges (b : HBoard) (c : ConnRef) : Int :=
  match c with
  | none => b.outBridges
  | some j => (getConn b j).bridges

/-- Dereference the firstcross list of a connection reference. -/
def refCross (b : HBoard) (c : ConnRef) : List ConnRef :=
  match c with
  | none => b.outFirstcross
  | some j => (getConn b j).firstcross

/-- Dereference the pendbridges field of an island reference. -/
def refPend (b : HBoard) (r : IslandRef) : Int :=
  match r with
  | none => b.outPendbridges
  | some i => (getIsland b i).pendbridges

/-- The island whose pendbridges field is ppendbridges1 of the connection. -/
def connEnd1 (b : HBoard) (c : ConnRef) : IslandRef :=
  match c with
  | none => none
  | some j => some (getConn b j).pendIsland1

/-- The island whose pendbridges field is ppendbridges2 of the connection. -/
def connEnd2 (b : HBoard) (c : ConnRef) : IslandRef :=
  match c with
  | none => none
  | some j => some (getConn b j).pendIsland2

/-- Write the bridges field of a connection reference. -/
def setRefBridges (b : HBoard) (c : ConnRef) (v : Int) : HBoard :=
  match c with
  | none => { b with outBridges := v }
  | some j =>
      { b with connections := b.connections.set j { getConn b j with bridges := v } }

/-- Write the pendbridges field of an island reference. -/
def setRefPend (b : HBoard) (r : IslandRef) (v : Int) : HBoard :=
  match r with
  | none => { b with outPendbridges := v }
  | some i =>
      { b with islands := b.islands.set i { getIsland b i with pendbridges := v } }

/-- Decrement of a pendbridges field through a pointer, as in add_bridge. -/
def decPend (b : HBoard) (r : IslandRef) : HBoard := setRefPend b r (refPend b r - 1)

/-- Increment of a pendbridges field through a pointer, as in del_bridge. -/
def incPend (b : HBoard) (r : IslandRef) : HBoard := setRefPend b r (refPend b r + 1)

/-- Translation of add_bridge: adds a bridge to the given connection or
returns false (leaving the board unchanged) if it cannot be done. -/
def add_bridge (b : HBoard) (c : ConnRef) : Bool × HBoard :=
  if refBridges b c ≥ MAX_CONNECTION_BRIDGES then (false, b)
  else if refPend b (connEnd1 b c) ≠ 0 ∧ refPend b (connEnd2 b c) ≠ 0 then
    if (refCross b c).any (fun r => refBridges b r ≠ 0) then (false, b)
    else
      (true, decPend (decPend (setRefBridges b c (refBridges b c + 1))
              (connEnd1 b c)) (connEnd2 b c))
  else (false, b)

/-- Translation of del_bridge: deletes a bridge from the given connection or
returns false if there is none. -/
def del_bridge (b : HBoard) (c : ConnRef) : Bool × HBoard :=
  if refBridges b c ≠ 0 then
    (true, incPend (incPend (setRefBridges b c (refBridges b c - 1))
            (connEnd1 b c)) (connEnd2 b c))
  else (false, b)

/-- Update one island of the board in place. -/
def modifyIsland (b : HBoard) (i : Nat) (f : HIsland → HIsland) : HBoard :=
  { b with islands := b.islands.set i (f (getIsland b i)) }

/-- The connections array of an island, indexed by direction. -/
def HIsland.connAt (s : HIsland) (dir : Nat) : ConnRef :=
  match dir with
  | 0 => s.upConn
  | 1 => s.leftConn
  | 2 => s.rightConn
  | _ => s.downConn

/-- The islands array of an island, indexed by direction. -/
def HIsland.islandAt (s : HIsland) (dir : Nat) : IslandRef :=
  match dir with
  | 0 => s.upIsland
  | 1 => s.leftIsland
  | 2 => s.rightIsland
  | _ => s.downIsland

/-- Connection of island i of the board in the given direction. -/
def islandConn (b : HBoard) (i dir : Nat) : ConnRef := (getIsland b i).connAt dir

/-- Neighboring island of island i of the board in the given direction. -/
def islandNb (b : HBoard) (i dir : Nat) : IslandRef := (getIsland b i).islandAt dir

/-- Translation of the LEFT case of find_from_island: the island just before
index is its left neighbor when it lies in the same row, since islands are
added in row-major order; the loop of the source returns on its first
iteration unless the previous island has a smaller row. -/
def find_from_island_LEFT (b : HBoard) (index : Nat) : IslandRef :=
  if index ≥ b.islands.length then none
  else if index = 0 then none
  else if (getIsland b (index - 1)).row < (getIsland b index).row then none
  else some (index - 1)

/-- Backward scan of the UP case of find_from_island: the nearest island
before the scan start whose column equals c. -/
def find_up_scan (b : HBoard) (c : Int) : Nat → IslandRef
  | 0 => none
  | k+1 => if (getIsland b k).col = c then some k else find_up_scan b c k

/-- Translation of the UP case of find_from_island. -/
def find_from_island_UP (b : HBoard) (index : Nat) : IslandRef :=
  if index ≥ b.islands.length then none
  else find_up_scan b (getIsland b index).col index

/-- Translation of insert_crosselem: prepends a cross element (a pointer to
the bridges field of some connection) to the cross list of a connection. -/
def insert_crosselem (b : HBoard) (c : ConnRef) (entry : ConnRef) : HBoard :=
  match c with
  | none => { b with outFirstcross := entry :: b.outFirstcross }
  | some j =>
      { b with connections := b.connections.set j ({ getConn b j with firstcross := entry :: (getConn b j).firstcross }) }

/-- One iteration of the fill_crosses loop, for the island at index k lying
strictly between the two endpoints of the new vertical connection. -/
def cross_step (upRow downRow col : Int) (conn_vert : ConnRef)
    (b : HBoard) (k : Nat) : HBoard :=
  let isl := getIsland b k
  if isl.row > upRow ∧ isl.row < downRow ∧ isl.col < col then
    match isl.rightIsland with
    | none => b
    | some r =>
        if (getIsland b r).col > col then
          insert_crosselem (insert_crosselem b isl.rightConn conn_vert)
            conn_vert isl.rightConn
        else b
  else b

/-- Translation of fill_crosses: finds the horizontal connections crossing
the new vertical connection between the islands at upIdx and downIdx, and
records each crossing pair symmetrically (capacity checks of the cross
element arena are dropped because the model arena is unbounded). -/
def fill_crosses (b : HBoard) (upIdx downIdx : Nat) : HBoard :=
  let up := getIsland b upIdx
  let down := getIsland b downIdx
  let conn_vert := up.downConn
  (List.range' (upIdx + 1) (downIdx - (upIdx + 1))).foldl
    (fun bcur k => cross_step up.row down.row up.col conn_vert bcur k) b

/-- Translation of fill_connections: wires the connections of the island
just appended (capacity checks of the connection arena are dropped because
the model arena is unbounded, so no failure case remains). -/
def fill_connections (b : HBoard) : HBoard :=
  let index := b.islands.length - 1
  let left := find_from_island_LEFT b index
  let up := find_from_island_UP b index
  let b1 := modifyIsland b index (fun isl =>
    { isl with rightIsland := none, downIsland := none,
               leftIsland := left, upIsland := up,
               upConn := none, leftConn := none,
               rightConn := none, downConn := none })
  let b2 :=
    match left with
    | none => b1
    | some li =>
        let j := b1.connections.length
        let bA := { b1 with connections := b1.connections ++
          [({ bridges := 0, firstcross := [], pendIsland1 := li, pendIsland2 := index } : HConnection)] }
        let bB := modifyIsland bA index (fun isl => { isl with leftConn := some j })
        modifyIsland bB li (fun isl =>
          { isl with rightConn := some j, rightIsland := some index })
  match up with
  | none => b2
  | some ui =>
      let j := b2.connections.length
      let bA := { b2 with connections := b2.connections ++
        [({ bridges := 0, firstcross := [], pendIsland1 := ui, pendIsland2 := index } : HConnection)] }
      let bB := modifyIsland bA index (fun isl => { isl with upConn := some j })
      let bC := modifyIsland bB ui (fun isl =>
        { isl with downConn := some j, downIsland := some index })
      fill_crosses bC ui index

/-- Translation of add_island: validation checks in source order, then the
island is appended and its connections are wired (the island arena capacity
check is dropped because the model arena is unbounded; the max_bridges
field of the C board is never read by the program and is not modelled). -/
def add_island (b : HBoard) (row col expectbridges : Int) : Bool × HBoard :=
  if row < 0 ∨ col < 0 then (false, b)
  else if row ≥ CHAR_MAX then (false, b)
  else if col ≥ CHAR_MAX then (false, b)
  else if 0 < b.islands.length ∧
      (row < (getIsland b (b.islands.length - 1)).row ∨
       (row = (getIsland b (b.islands.length - 1)).row ∧
        col ≤ (getIsland b (b.islands.length - 1)).col)) then (false, b)
  else if expectbridges < 1 ∨ expectbridges > MAX_EXPECTED_BRIDGES then (false, b)
  else
    let isl : HIsland :=
      { pendbridges := expectbridges, expectbridges := expectbridges,
        row := row, col := col,
        upIsland := none, leftIsland := none, rightIsland := none,
        downIsland := none, upConn := none, leftConn := none,
        rightConn := none, downConn := none }
    let b1 := { b with islands := b.islands ++ [isl] }
    let b2 := { b1 with
      rows := if b1.rows ≤ row then row + 1 else b1.rows,
      cols := if b1.cols ≤ col then col + 1 else b1.cols }
    (true, fill_connections b2)

/-- Translation of init_board for the model: empty arenas, zeroed sentinels
and a zeroed visited matrix of the given size (the C board leaves
visitedlimit uninitialized but writes it before every read, so starting it
at zero is observationally equal). -/
def init_board (max_visited_size : Nat) : HBoard :=
  { islands := [], connections := [], rows := 0, cols := 0,
    outPendbridges := 0, outBridges := 0, outFirstcross := [],
    visitedmatrix := List.replicate max_visited_size false,
    visitedlimit := 0 }

/-- Fueled translation of a del_bridge undo loop (while del_bridge). -/
def del_loop : Nat → HBoard → ConnRef → HBoard
  | 0, b, _ => b
  | fuel+1, b, c =>
    match del_bridge b c with
    | (true, b1) => del_loop fuel b1 c
    | (false, _) => b

/-- A del_bridge undo loop with fuel that is provably always sufficient:
each successful deletion decreases the bridges count of the connection. -/
def del_all (b : HBoard) (c : ConnRef) : HBoard :=
  del_loop ((refBridges b c).toNat + 1) b c

/-- Fueled translation of the while loop of fill_bridges: adds bridges on
connection dir of island i while the island has pending bridges, moving to
the next direction on failure and stopping after direction DOWN. -/
def fill_loop : Nat → HBoard → Nat → Nat → HBoard
  | 0, b, _, _ => b
  | fuel+1, b, i, dir =>
    if (getIsland b i).pendbridges ≠ 0 then
      match add_bridge b (islandConn b i dir) with
      | (true, b1) => fill_loop fuel b1 i dir
      | (false, _) =>
          if dir + 1 = DIRECTIONS then b else fill_loop fuel b i (dir + 1)
    else b

/-- Fuel sufficient for fill_loop: a success leaves dir alone and increases
the bridges of the connection of dir (which add_bridge caps at 2), and a
failure increments dir, so the loop runs at most this many iterations. -/
def fillFuel (b : HBoard) (i : Nat) : Nat :=
  (MAX_CONNECTION_BRIDGES - refBridges b (islandConn b i RIGHT)).toNat +
  (MAX_CONNECTION_BRIDGES - refBridges b (islandConn b i DOWN)).toNat + 3

/-- Translation of fill_bridges: greedy fill of the pending bridges of
island i over its RIGHT then DOWN connections; on failure every bridge
added on the two forward connections is deleted again. -/
def fill_bridges (b : HBoard) (i : Nat) : Bool × HBoard :=
  let b1 := fill_loop (fillFuel b i) b i RIGHT
  if (getIsland b1 i).pendbridges ≠ 0 then
    let b2 := del_all b1 (islandConn b1 i RIGHT)
    let b3 := del_all b2 (islandConn b2 i DOWN)
    (false, b3)
  else (true, b1)

/-- Translation of reorder_bridges: moves one bridge of island i from the
RIGHT connection to the DOWN connection, or deletes all bridges of both
forward connections and reports exhaustion. -/
def reorder_bridges (b : HBoard) (i : Nat) : Bool × HBoard :=
  match del_bridge b (islandConn b i RIGHT) with
  | (true, b1) =>
    match add_bridge b1 (islandConn b1 i DOWN) with
    | (true, b2) => (true, b2)
    | (false, _) =>
        let b3 := del_all b1 (islandConn b1 i RIGHT)
        (false, del_all b3 (islandConn b3 i DOWN))
  | (false, _) => (false, del_all b (islandConn b i DOWN))

/-- Fueled translation of visit_islands: marks the position of the island
in the visited matrix, updates the high-water mark visitedlimit, and visits
the four neighbors over connections carrying at least one bridge, returning
the number of newly visited islands and the updated board. -/
def visit_loop : Nat → HBoard → IslandRef → Nat × HBoard
  | 0, b, _ => (0, b)
  | fuel+1, b, r =>
    match r with
    | none => (0, b)
    | some i =>
      let isl := getIsland b i
      let pos := (isl.row * b.cols + isl.col).toNat
      if b.visitedmatrix.getD pos false = false then
        let b1 := { b with
          visitedmatrix := b.visitedmatrix.set pos true,
          visitedlimit := if (pos : Int) + 1 > b.visitedlimit then (pos : Int) + 1
                          else b.visitedlimit }
        (List.range DIRECTIONS).foldl
          (fun acc dir =>
            if refBridges acc.2 (islandConn acc.2 i dir) ≠ 0 then
              let td := visit_loop fuel acc.2 (islandNb acc.2 i dir)
              (acc.1 + td.1, td.2)
            else acc)
          (1, b1)
      else (0, b)

/-- Fuel sufficient for visit_loop on valid boards: every recursive call is
made after marking a previously unmarked cell of the visited matrix. -/
def visitFuel (b : HBoard) : Nat := (b.visitedmatrix.countP (fun x => !x)) + 1

/-- Clearing of the first n cells of the visited matrix (memset of the
touched prefix in check_connected_solution). -/
def clearPrefix : Nat → List Bool → List Bool
  | 0, l => l
  | _+1, [] => []
  | n+1, _ :: xs => false :: clearPrefix n xs

/-- Translation of check_connected_solution (the compile-time option
CHECK_CONNECTED_SOLUTION is defined in the source, so the body is active):
counts the islands reachable from the first island over connections with
bridges, clears the touched prefix of the visited matrix, and accepts iff
the count equals the number of islands. -/
def check_connected_solution (b : HBoard) : Bool × HBoard :=
  let b0 := { b with visitedlimit := 0 }
  let tb := visit_loop (visitFuel b0) b0 (some 0)
  let b2 :=
    if tb.2.visitedlimit ≠ 0 then
      { tb.2 with visitedmatrix := clearPrefix tb.2.visitedlimit.toNat tb.2.visitedmatrix,
                  visitedlimit := 0 }
    else tb.2
  (tb.1 == b.islands.length, b2)

/-- The bridge-count assignment of a board: the bridges of every connection
in arena order.  This is the observable content of one emitted solution
(print_board renders exactly these counts together with the static island
data). -/
def solutionOf (b : HBoard) : List Int := b.connections.map (fun c => c.bridges)

mutual

/-- Fueled translation of find_solutions_from_island: emitted solutions are
collected in a list instead of printed.  The fuel only bounds the recursion
depth of the model; sufficiency on valid boards is proved separately. -/
def find_solutions : Nat → HBoard → Nat → Option (List (List Int) × HBoard)
  | 0, _, _ => none
  | fuel+1, b, idx =>
    if idx ≥ b.islands.length then
      let cb := check_connected_solution b
      some (if cb.1 then [solutionOf cb.2] else [], cb.2)
    else
      match fill_bridges b idx with
      | (false, b1) => some ([], b1)
      | (true, b1) =>
        match find_solutions fuel b1 (idx+1) with
        | none => none
        | some sb => reorder_loop fuel sb.2 idx sb.1

/-- Fueled translation of the while loop over reorder_bridges inside
find_solutions_from_island. -/
def reorder_loop : Nat → HBoard → Nat → List (List Int) →
    Option (List (List Int) × HBoard)
  | 0, _, _, _ => none
  | fuel+1, b, idx, acc =>
    match reorder_bridges b idx with
    | (false, b1) => some (acc, b1)
    | (true, b1) =>
      match find_solutions fuel b1 (idx+1) with
      | none => none
      | some sb => reorder_loop fuel sb.2 idx (acc ++ sb.1)

end

/-- Validity of an island reference: the sentinel is always valid, a real
reference must be inside the island arena. -/
def validIslandRef (b : HBoard) : IslandRef → Prop
  | none => True
  | some i => i < b.islands.length

/-- Validity of a connection reference. -/
def validConnRef (b : HBoard) : ConnRef → Prop
  | none => True
  | some j => j < b.connections.length

instance (b : HBoard) (r : IslandRef) : Decidable (validIslandRef b r) := by
  cases r with
  | none => exact isTrue trivial
  | some i => exact inferInstanceAs (Decidable (i < b.islands.length))

instance (b : HBoard) (c : ConnRef) : Decidable (validConnRef b c) := by
  cases c with
  | none => exact isTrue trivial
  | some j => exact inferInstanceAs (Decidable (j < b.connections.length))

/-- Guard of add_bridge: the connection is below its cap, both endpoint
islands still expect bridges and no crossing connection carries one. -/
def can_add (b : HBoard) (c : ConnRef) : Prop :=
  ¬ refBridges b c ≥ MAX_CONNECTION_BRIDGES ∧
  refPend b (connEnd1 b c) ≠ 0 ∧ refPend b (connEnd2 b c) ≠ 0 ∧
  (refCross b c).any (fun r => refBridges b r ≠ 0) = false

instance (b : HBoard) (c : ConnRef) : Decidable (can_add b c) :=
  inferInstanceAs (Decidable (_ ∧ _ ∧ _ ∧ _))

/-- Sample board of Scenario A of the spec: two islands in row 0 at columns
0 and 1, each expecting one bridge; one connection exists between them. -/
def sampleA : HBoard := (add_island ((add_island (init_board 4) 0 0 1).2) 0 1 1).2

/-- Sample board of Scenario B of the spec: four islands at the corners of a
square, each expecting two bridges. -/
def sampleB : HBoard :=
  (add_island ((add_island ((add_island ((add_island (init_board 9) 0 0 2).2)
    0 2 2).2) 2 0 2).2) 2 2 2).2

/-- Sample board of Scenario E of the spec: a vertical pair and a horizontal
pair whose connections cross. -/
def sampleE : HBoard :=
  (add_island ((add_island ((add_island ((add_island (init_board 9) 0 1 1).2)
    1 0 1).2) 1 2 1).2) 2 1 1).2

/-- Expected bridges of island i (constant after creation). -/
def islandExpect (b : HBoard) (i : Nat) : Int := (getIsland b i).expectbridges

/-- Sum of the bridge counts of the connections incident to island i,
counting a connection twice if both its endpoint references are i. -/
def islandDegree (b : HBoard) (i : Nat) : Int :=
  ∑ j ∈ Finset.range b.connections.length,
    ((if connEnd1 b (some j) = some i then refBridges b (some j) else 0) +
     (if connEnd2 b (some j) = some i then refBridges b (some j) else 0))

/-- Sentinel invariant: the out island has no pending bridges, the out
connection carries no bridge and crosses nothing. -/
def wfSentinels (b : HBoard) : Prop :=
  refPend b none = 0 ∧ refBridges b none = 0 ∧ refCross b none = []

/-- Every connection carries between 0 and 2 bridges. -/
def wfBridgeRange (b : HBoard) : Prop :=
  ∀ j < b.connections.length, 0 ≤ refBridges b (some j) ∧ refBridges b (some j) ≤ 2

/-- No island has a negative pending count. -/
def wfPendNonneg (b : HBoard) : Prop :=
  ∀ i < b.islands.length, 0 ≤ refPend b (some i)

/-- The pending count of every island equals its expected count minus the
bridges of its incident connections. -/
def wfPendSum (b : HBoard) : Prop :=
  ∀ i < b.islands.length,
    refPend b (some i) + islandDegree b i = islandExpect b i

/-- No two crossing connections carry bridges at the same time. -/
def wfCrossExcl (b : HBoard) : Prop :=
  ∀ j < b.connections.length, ∀ r ∈ refCross b (some j),
    refBridges b (some j) = 0 ∨ refBridges b r = 0

/-- Every connection has two distinct endpoint islands inside the arena. -/
def wfEnds (b : HBoard) : Prop :=
  ∀ j < b.connections.length,
    connEnd1 b (some j) ≠ connEnd2 b (some j) ∧
    validIslandRef b (connEnd1 b (some j)) ∧ validIslandRef b (connEnd2 b (some j))

/-- Cross lists mention only other real connections, symmetrically. -/
def wfCrossSym (b : HBoard) : Prop :=
  ∀ j < b.connections.length, ∀ r ∈ refCross b (some j),
    ∃ k, r = some k ∧ k < b.connections.length ∧ k ≠ j ∧
      some j ∈ refCross b (some k)

/-- Invariant of every reachable board state during search. -/
def WF (b : HBoard) : Prop :=
  wfSentinels b ∧ wfBridgeRange b ∧ wfPendNonneg b ∧ wfPendSum b ∧
  wfCrossExcl b ∧ wfEnds b ∧ wfCrossSym b

/-- Row coordinate of island i. -/
def rowOf (b : HBoard) (i : Nat) : Int := (getIsland b i).row

/-- Column coordinate of island i. -/
def colOf (b : HBoard) (i : Nat) : Int := (getIsland b i).col

/-- First endpoint island index of connection j (ppendbridges1 target). -/
def connE1 (b : HBoard) (j : Nat) : Nat := (getConn b j).pendIsland1

/-- Second endpoint island index of connection j (ppendbridges2 target). -/
def connE2 (b : HBoard) (j : Nat) : Nat := (getConn b j).pendIsland2

/-- Connection j is horizontal: it joins its first endpoint island to the
island on its right, in the same row, and both islands point back at it. -/
def connHorz (b : HBoard) (j : Nat) : Prop :=
  rowOf b (connE1 b j) = rowOf b (connE2 b j) ∧
  colOf b (connE1 b j) < colOf b (connE2 b j) ∧
  islandNb b (connE1 b j) RIGHT = some (connE2 b j) ∧
  islandConn b (connE1 b j) RIGHT = some j ∧
  islandNb b (connE2 b j) LEFT = some (connE1 b j) ∧
  islandConn b (connE2 b j) LEFT = some j

/-- Connection j is vertical: it joins its first endpoint island to the
island below it, in the same column, and both islands point back at it. -/
def connVert (b : HBoard) (j : Nat) : Prop :=
  colOf b (connE1 b j) = colOf b (connE2 b j) ∧
  rowOf b (connE1 b j) < rowOf b (connE2 b j) ∧
  islandNb b (connE1 b j) DOWN = some (connE2 b j) ∧
  islandConn b (connE1 b j) DOWN = some j ∧
  islandNb b (connE2 b j) UP = some (connE1 b j) ∧
  islandConn b (connE2 b j) UP = some j

/-- Geometric crossing of the vertical connection v by the horizontal
connection h: the row of h lies strictly between the rows of the endpoints
of v and the column of v lies strictly between the columns of the endpoints
of h. -/
def geomCross (b : HBoard) (v h : Nat) : Prop :=
  rowOf b (connE1 b v) < rowOf b (connE1 b h) ∧
  rowOf b (connE1 b h) < rowOf b (connE2 b v) ∧
  colOf b (connE1 b h) < colOf b (connE1 b v) ∧
  colOf b (connE1 b v) < colOf b (connE2 b h)

instance (b : HBoard) (j : Nat) : Decidable (connHorz b j) := by
  unfold connHorz
  infer_instance

instance (b : HBoard) (j : Nat) : Decidable (connVert b j) := by
  unfold connVert
  infer_instance

instance (b : HBoard) (v h : Nat) : Decidable (geomCross b v h) := by
  unfold geomCross
  infer_instance

/-- Condition under which the fill_crosses loop registers a crossing at the
island of index k: its row lies strictly between the rows of the endpoints
of the vertical connection, its column is left of the column of the
vertical connection, and its right neighbor lies right of that column. -/
def crossTrigger (b : HBoard) (uR dR col : Int) (k : Nat) : Prop :=
  (getIsland b k).row > uR ∧ (getIsland b k).row < dR ∧ (getIsland b k).col < col ∧
  ∃ r, (getIsland b k).rightIsland = some r ∧ (getIsland b r).col > col

/-- Structural invariant of boards produced by graph construction. -/
structure SInv (b : HBoard) : Prop where
  sorted : ∀ i1 i2, i1 < i2 → i2 < b.islands.length →
    rowOf b i1 < rowOf b i2 ∨ (rowOf b i1 = rowOf b i2 ∧ colOf b i1 < colOf b i2)
  posOK : ∀ i < b.islands.length,
    0 ≤ rowOf b i ∧ rowOf b i < b.rows ∧ 0 ≤ colOf b i ∧ colOf b i < b.cols
  expectOK : ∀ i < b.islands.length, 1 ≤ islandExpect b i ∧ islandExpect b i ≤ 8
  conn : ∀ j < b.connections.length,
    connE1 b j < b.islands.length ∧ connE2 b j < b.islands.length ∧
    (connHorz b j ∨ connVert b j)
  slotR : ∀ i < b.islands.length,
    (islandConn b i RIGHT = none ∧ islandNb b i RIGHT = none) ∨
    (∃ j, islandConn b i RIGHT = some j ∧ j < b.connections.length ∧
      connE1 b j = i ∧ connHorz b j ∧ islandNb b i RIGHT = some (connE2 b j))
  slotL : ∀ i < b.islands.length,
    (islandConn b i LEFT = none ∧ islandNb b i LEFT = none) ∨
    (∃ j, islandConn b i LEFT = some j ∧ j < b.connections.length ∧
      connE2 b j = i ∧ connHorz b j ∧ islandNb b i LEFT = some (connE1 b j))
  slotD : ∀ i < b.islands.length,
    (islandConn b i DOWN = none ∧ islandNb b i DOWN = none) ∨
    (∃ j, islandConn b i DOWN = some j ∧ j < b.connections.length ∧
      connE1 b j = i ∧ connVert b j ∧ islandNb b i DOWN = some (connE2 b j))
  slotU : ∀ i < b.islands.length,
    (islandConn b i UP = none ∧ islandNb b i UP = none) ∨
    (∃ j, islandConn b i UP = some j ∧ j < b.connections.length ∧
      connE2 b j = i ∧ connVert b j ∧ islandNb b i UP = some (connE1 b j))
  crossSound : ∀ j < b.connections.length, ∀ r ∈ refCross b (some j),
    ∃ k, r = some k ∧ k < b.connections.length ∧ some j ∈ refCross b (some k) ∧
      ((connVert b j ∧ connHorz b k ∧ geomCross b j k) ∨
       (connHorz b j ∧ connVert b k ∧ geomCross b k j))
  crossComplete : ∀ v h, v < b.connections.length → h < b.connections.length →
    connVert b v → connHorz b h → geomCross b v h →
    some h ∈ refCross b (some v) ∧ some v ∈ refCross b (some h)
  outCross : refCross b none = []

/-- Facts available about the left neighbor candidate of the newly added
island of index nOld on the intermediate board: when present, it is the
directly preceding island, in the same row, with a smaller column and a
still-unwired RIGHT slot. -/
def leftFacts (b : HBoard) (nOld : Nat) (L : IslandRef) : Prop :=
  L = none ∨
  (L = some (nOld - 1) ∧ 0 < nOld ∧ rowOf b (nOld - 1) = rowOf b nOld ∧
    colOf b (nOld - 1) < colOf b nOld ∧
    islandConn b (nOld - 1) RIGHT = none ∧ islandNb b (nOld - 1) RIGHT = none)

/-- Facts available about the upward neighbor candidate of the newly added
island of index nOld: when present, it is an earlier island in the same
column, in a strictly smaller row, with no other island of that column
between it and the new island, and with a still-unwired DOWN slot. -/
def upFacts (b : HBoard) (nOld : Nat) (U : IslandRef) : Prop :=
  U = none ∨
  (∃ ui, U = some ui ∧ ui < nOld ∧ colOf b ui = colOf b nOld ∧
    rowOf b ui < rowOf b nOld ∧
    (∀ k, ui < k → k < nOld → colOf b k ≠ colOf b nOld) ∧
    islandConn b ui DOWN = none ∧ islandNb b ui DOWN = none)

/-- Invariant of the intermediate board of fill_connections after the up
connection is the only wiring left to do: everything of SInv holds except
that the UP slot of the new island nOld holds the neighbor U without a
connection yet. -/
structure PreUp (b : HBoard) (nOld : Nat) (U : IslandRef) : Prop where
  len : b.islands.length = nOld + 1
  sorted : ∀ i1 i2, i1 < i2 → i2 < b.islands.length →
    rowOf b i1 < rowOf b i2 ∨ (rowOf b i1 = rowOf b i2 ∧ colOf b i1 < colOf b i2)
  posOK : ∀ i < b.islands.length,
    0 ≤ rowOf b i ∧ rowOf b i < b.rows ∧ 0 ≤ colOf b i ∧ colOf b i < b.cols
  expectOK : ∀ i < b.islands.length, 1 ≤ islandExpect b i ∧ islandExpect b i ≤ 8
  rowMax : ∀ i < b.islands.length, rowOf b i ≤ rowOf b nOld
  conn : ∀ j < b.connections.length,
    connE1 b j < b.islands.length ∧ connE2 b j < b.islands.length ∧
    (connHorz b j ∨ connVert b j)
  slotR : ∀ i < b.islands.length,
    (islandConn b i RIGHT = none ∧ islandNb b i RIGHT = none) ∨
    (∃ j, islandConn b i RIGHT = some j ∧ j < b.connections.length ∧
      connE1 b j = i ∧ connHorz b j ∧ islandNb b i RIGHT = some (connE2 b j))
  slotL : ∀ i < b.islands.length,
    (islandConn b i LEFT = none ∧ islandNb b i LEFT = none) ∨
    (∃ j, islandConn b i LEFT = some j ∧ j < b.connections.length ∧
      connE2 b j = i ∧ connHorz b j ∧ islandNb b i LEFT = some (connE1 b j))
  slotD : ∀ i < b.islands.length,
    (islandConn b i DOWN = none ∧ islandNb b i DOWN = none) ∨
    (∃ j, islandConn b i DOWN = some j ∧ j < b.connections.length ∧
      connE1 b j = i ∧ connVert b j ∧ islandNb b i DOWN = some (connE2 b j))
  slotU : ∀ i < b.islands.length, i ≠ nOld →
    (islandConn b i UP = none ∧ islandNb b i UP = none) ∨
    (∃ j, islandConn b i UP = some j ∧ j < b.connections.length ∧
      connE2 b j = i ∧ connVert b j ∧ islandNb b i UP = some (connE1 b j))
  topU : islandConn b nOld UP = none
  topUI : islandNb b nOld UP = U
  crossSound : ∀ j < b.connections.length, ∀ r ∈ refCross b (some j),
    ∃ k, r = some k ∧ k < b.connections.length ∧ some j ∈ refCross b (some k) ∧
      ((connVert b j ∧ connHorz b k ∧ geomCross b j k) ∨
       (connHorz b j ∧ connVert b k ∧ geomCross b k j))
  crossComplete : ∀ v h, v < b.connections.length → h < b.connections.length →
    connVert b v → connHorz b h → geomCross b v h →
    some h ∈ refCross b (some v) ∧ some v ∈ refCross b (some h)
  outCross : refCross b none = []
  freshB : ∀ j < b.connections.length, refBridges b (some j) = 0
  freshP : ∀ i < b.islands.length, refPend b (some i) = islandExpect b i
  freshPN : refPend b none = 0
  freshBN : refBridges b none = 0
  uFacts : upFacts b nOld U

/-- Invariant of the intermediate board of fill_connections before the left
and up connections are wired: the LEFT and UP slots of the new island nOld
hold the neighbors L and U without connections yet. -/
structure PreL (b : HBoard) (nOld : Nat) (L U : IslandRef) : Prop where
  len : b.islands.length = nOld + 1
  sorted : ∀ i1 i2, i1 < i2 → i2 < b.islands.length →
    rowOf b i1 < rowOf b i2 ∨ (rowOf b i1 = rowOf b i2 ∧ colOf b i1 < colOf b i2)
  posOK : ∀ i < b.islands.length,
    0 ≤ rowOf b i ∧ rowOf b i < b.rows ∧ 0 ≤ colOf b i ∧ colOf b i < b.cols
  expectOK : ∀ i < b.islands.length, 1 ≤ islandExpect b i ∧ islandExpect b i ≤ 8
  rowMax : ∀ i < b.islands.length, rowOf b i ≤ rowOf b nOld
  conn : ∀ j < b.connections.length,
    connE1 b j < nOld ∧ connE2 b j < nOld ∧
    (connHorz b j ∨ connVert b j)
  slotR : ∀ i < b.islands.length,
    (islandConn b i RIGHT = none ∧ islandNb b i RIGHT = none) ∨
    (∃ j, islandConn b i RIGHT = some j ∧ j < b.connections.length ∧
      connE1 b j = i ∧ connHorz b j ∧ islandNb b i RIGHT = some (connE2 b j))
  slotL : ∀ i < b.islands.length, i ≠ nOld →
    (islandConn b i LEFT = none ∧ islandNb b i LEFT = none) ∨
    (∃ j, islandConn b i LEFT = some j ∧ j < b.connections.length ∧
      connE2 b j = i ∧ connHorz b j ∧ islandNb b i LEFT = some (connE1 b j))
  slotD : ∀ i < b.islands.length,
    (islandConn b i DOWN = none ∧ islandNb b i DOWN = none) ∨
    (∃ j, islandConn b i DOWN = some j ∧ j < b.connections.length ∧
      connE1 b j = i ∧ connVert b j ∧ islandNb b i DOWN = some (connE2 b j))
  slotU : ∀ i < b.islands.length, i ≠ nOld →
    (islandConn b i UP = none ∧ islandNb b i UP = none) ∨
    (∃ j, islandConn b i UP = some j ∧ j < b.connections.length ∧
      connE2 b j = i ∧ connVert b j ∧ islandNb b i UP = some (connE1 b j))
  topL : islandConn b nOld LEFT = none
  topLI : islandNb b nOld LEFT = L
  topU : islandConn b nOld UP = none
  topUI : islandNb b nOld UP = U
  topR : islandConn b nOld RIGHT = none
  topRI : islandNb b nOld RIGHT = none
  topD : islandConn b nOld DOWN = none
  topDI : islandNb b nOld DOWN = none
  crossSound : ∀ j < b.connections.length, ∀ r ∈ refCross b (some j),
    ∃ k, r = some k ∧ k < b.connections.length ∧ some j ∈ refCross b (some k) ∧
      ((connVert b j ∧ connHorz b k ∧ geomCross b j k) ∨
       (connHorz b j ∧ connVert b k ∧ geomCross b k j))
  crossComplete : ∀ v h, v < b.connections.length → h < b.connections.length →
    connVert b v → connHorz b h → geomCross b v h →
    some h ∈ refCross b (some v) ∧ some v ∈ refCross b (some h)
  outCross : refCross b none = []
  freshB : ∀ j < b.connections.length, refBridges b (some j) = 0
  freshP : ∀ i < b.islands.length, refPend b (some i) = islandExpect b i
  freshPN : refPend b none = 0
  freshBN : refBridges b none = 0
  lFacts : leftFacts b nOld L
  uFacts : upFacts b nOld U

/-- Fresh bridge state of boards on which no bridge was built yet. -/
def Fresh (b : HBoard) : Prop :=
  (∀ j < b.connections.length, refBridges b (some j) = 0) ∧
  (∀ i < b.islands.length, refPend b (some i) = islandExpect b i) ∧
  refPend b none = 0 ∧ refBridges b none = 0

/-- Validation condition of add_island: coordinates in range and strictly
increasing in row-major order, expected bridges between 1 and 8. -/
def add_island_ok (b : HBoard) (row col e : Int) : Prop :=
  0 ≤ row ∧ 0 ≤ col ∧ row < CHAR_MAX ∧ col < CHAR_MAX ∧
  (0 < b.islands.length →
    (rowOf b (b.islands.length - 1) < row ∨
     (rowOf b (b.islands.length - 1) = row ∧ colOf b (b.islands.length - 1) < col))) ∧
  1 ≤ e ∧ e ≤ MAX_EXPECTED_BRIDGES

/-- The board of add_island just before fill_connections: the island is
appended and the row and column totals are updated. -/
def appendBoard (b : HBoard) (row col e : Int) : HBoard :=
  { b with
    islands := b.islands ++
      [{ pendbridges := e, expectbridges := e, row := row, col := col,
         upIsland := none, leftIsland := none, rightIsland := none,
         downIsland := none, upConn := none, leftConn := none,
         rightConn := none, downConn := none }],
    rows := if b.rows ≤ row then row + 1 else b.rows,
    cols := if b.cols ≤ col then col + 1 else b.cols }

/-- Boards produced by a sequence of successful add_island calls starting
from an initialized board. -/
inductive Built : HBoard → Prop
  | init (m : Nat) : Built (init_board m)
  | add (b : HBoard) (row col e : Int) : Built b →
      (add_island b row col e).1 = true → Built (add_island b row col e).2

/-- Boards reachable from b0 by add_bridge and del_bridge calls on
connections of the board (including the out connection). -/
inductive BridgeReach : HBoard → HBoard → Prop
  | refl (b : HBoard) : BridgeReach b b
  | add {b0 b : HBoard} (c : ConnRef) : BridgeReach b0 b → validConnRef b c →
      BridgeReach b0 (add_bridge b c).2
  | del {b0 b : HBoard} (c : ConnRef) : BridgeReach b0 b → validConnRef b c →
      BridgeReach b0 (del_bridge b c).2

/-- Boards reachable from b0 by successful add_bridge calls on the RIGHT
and DOWN connections of island i only: the states that fill_bridges and
reorder_bridges produce at island i before the undo loops run. -/
inductive FwdAdds (i : Nat) : HBoard → HBoard → Prop
  | refl (b : HBoard) : FwdAdds i b b
  | addR {b0 b : HBoard} : FwdAdds i b0 b →
      (add_bridge b (islandConn b i RIGHT)).1 = true →
      FwdAdds i b0 (add_bridge b (islandConn b i RIGHT)).2
  | addD {b0 b : HBoard} : FwdAdds i b0 b →
      (add_bridge b (islandConn b i DOWN)).1 = true →
      FwdAdds i b0 (add_bridge b (islandConn b i DOWN)).2

/-- Matrix position of island i in the visited matrix (row * cols + col). -/
def posOf (b : HBoard) (i : Nat) : Nat :=
  ((getIsland b i).row * b.cols + (getIsland b i).col).toNat

/-- Whether the visited matrix marks the position of island i. -/
def isVisited (b : HBoard) (i : Nat) : Bool :=
  b.visitedmatrix.getD (posOf b i) false

/-- Number of unvisited cells of the visited matrix (the decreasing measure
of the visit_islands recursion). -/
def unvisCount (b : HBoard) : Nat := b.visitedmatrix.countP (fun x => !x)

/-- Islands reachable from s over connections carrying at least one bridge,
passing only through islands unvisited according to V. -/
inductive BReach (b : HBoard) (V : Nat → Bool) (s : Nat) : Nat → Prop
  | base : V s = false → BReach b V s s
  | step {j k : Nat} (d : Nat) : BReach b V s j →
      refBridges b (islandConn b j d) ≠ 0 → islandNb b j d = some k →
      V k = false → BReach b V s k

/-- The islands newly marked between two visit states of the same board. -/
def newlyMarked (b b2 : HBoard) : Finset Nat :=
  (Finset.range b.islands.length).filter
    (fun j => isVisited b j = false ∧ isVisited b2 j = true)

/-- Static facts used by the visit_islands traversal: island positions lie
inside the visited matrix and are pairwise distinct, and neighbor slots
point inside the island arena. -/
def VisOK (b : HBoard) : Prop :=
  (∀ i < b.islands.length, posOf b i < b.visitedmatrix.length) ∧
  (∀ i1, i1 < b.islands.length → ∀ i2, i2 < b.islands.length →
    posOf b i1 = posOf b i2 → i1 = i2) ∧
  (∀ i, i < b.islands.length → ∀ d k, islandNb b i d = some k →
    k < b.islands.length)

theorem list_set_getD_self {α : Type _} (l : List α) (i : Nat) (d : α) :
    l.set i (l.getD i d) = l := by
  rcases Nat.lt_or_ge i l.length with h | h
  · apply List.ext_getElem?
    intro n
    rw [List.getD_eq_getElem?_getD, List.getElem?_set]
    split
    · rename_i he
      subst he
      simp [List.getElem?_eq_getElem h]
    · rfl
  · exact List.set_eq_of_length_le h

theorem setRefPend_self (b : HBoard) (r : IslandRef) :
    setRefPend b r (refPend b r) = b := by
  cases r with
  | none => rfl
  | some i =>
      show ({ b with islands :=
        b.islands.set i ({ getIsland b i with pendbridges := (getIsland b i).pendbridges }) } : HBoard) = b
      have h1 : ({ getIsland b i with pendbridges := (getIsland b i).pendbridges }) = getIsland b i := rfl
      rw [h1, getIsland, list_set_getD_self]

theorem setRefBridges_self (b : HBoard) (c : ConnRef) :
    setRefBridges b c (refBridges b c) = b := by
  cases c with
  | none => rfl
  | some j =>
      show ({ b with connections :=
        b.connections.set j ({ getConn b j with bridges := (getConn b j).bridges }) } : HBoard) = b
      have h1 : ({ getConn b j with bridges := (getConn b j).bridges }) = getConn b j := rfl
      rw [h1, getConn, list_set_getD_self]

theorem setRefPend_setRefPend (b : HBoard) (r : IslandRef) (v w : Int) :
    setRefPend (setRefPend b r v) r w = setRefPend b r w := by
  cases r with
  | none => rfl
  | some i =>
      simp only [setRefPend, getIsland, List.getD_eq_getElem?_getD]
      rcases Nat.lt_or_ge i b.islands.length with h | h
      · simp [List.getElem?_set_self h, List.set_set]
      · simp [List.set_eq_of_length_le h]

theorem setRefBridges_setRefBridges (b : HBoard) (c : ConnRef) (v w : Int) :
    setRefBridges (setRefBridges b c v) c w = setRefBridges b c w := by
  cases c with
  | none => rfl
  | some j =>
      simp only [setRefBridges, getConn, List.getD_eq_getElem?_getD]
      rcases Nat.lt_or_ge j b.connections.length with h | h
      · simp [List.getElem?_set_self h, List.set_set]
      · simp [List.set_eq_of_length_le h]

theorem refPend_setRefPend_self (b : HBoard) (r : IslandRef) (v : Int)
    (h : validIslandRef b r) : refPend (setRefPend b r v) r = v := by
  cases r with
  | none => rfl
  | some i =>
      simp only [validIslandRef] at h
      simp [refPend, setRefPend, getIsland, List.getD_eq_getElem?_getD,
            List.getElem?_set, h]

theorem refPend_setRefPend_ne (b : HBoard) (r r' : IslandRef) (v : Int)
    (h : r' ≠ r) : refPend (setRefPend b r v) r' = refPend b r' := by
  cases r with
  | none =>
      cases r' with
      | none => exact absurd rfl h
      | some j => rfl
  | some i =>
      cases r' with
      | none => rfl
      | some j =>
          have hij : i ≠ j := fun he => h (by rw [he])
          simp [refPend, setRefPend, getIsland, List.getD_eq_getElem?_getD,
                List.getElem?_set_ne hij]

theorem refBridges_setRefBridges_self (b : HBoard) (c : ConnRef) (v : Int)
    (h : validConnRef b c) : refBridges (setRefBridges b c v) c = v := by
  cases c with
  | none => rfl
  | some j =>
      simp only [validConnRef] at h
      simp [refBridges, setRefBridges, getConn, List.getD_eq_getElem?_getD,
            List.getElem?_set, h]

theorem refBridges_setRefBridges_ne (b : HBoard) (c c' : ConnRef) (v : Int)
    (h : c' ≠ c) : refBridges (setRefBridges b c v) c' = refBridges b c' := by
  cases c with
  | none =>
      cases c' with
      | none => exact absurd rfl h
      | some k => rfl
  | some j =>
      cases c' with
      | none => rfl
      | some k =>
          have hjk : j ≠ k := fun he => h (by rw [he])
          simp [refBridges, setRefBridges, getConn, List.getD_eq_getElem?_getD,
                List.getElem?_set_ne hjk]

theorem refBridges_setRefPend (b : HBoard) (r : IslandRef) (v : Int) (c : ConnRef) :
    refBridges (setRefPend b r v) c = refBridges b c := by
  cases r <;> cases c <;> rfl

theorem refCross_setRefPend (b : HBoard) (r : IslandRef) (v : Int) (c : ConnRef) :
    refCross (setRefPend b r v) c = refCross b c := by
  cases r <;> cases c <;> rfl

theorem connEnd1_setRefPend (b : HBoard) (r : IslandRef) (v : Int) (c : ConnRef) :
    connEnd1 (setRefPend b r v) c = connEnd1 b c := by
  cases r <;> cases c <;> rfl

theorem connEnd2_setRefPend (b : HBoard) (r : IslandRef) (v : Int) (c : ConnRef) :
    connEnd2 (setRefPend b r v) c = connEnd2 b c := by
  cases r <;> cases c <;> rfl

theorem refPend_setRefBridges (b : HBoard) (c : ConnRef) (v : Int) (r : IslandRef) :
    refPend (setRefBridges b c v) r = refPend b r := by
  cases c <;> cases r <;> rfl

theorem refCross_setRefBridges (b : HBoard) (c : ConnRef) (v : Int) (c' : ConnRef) :
    refCross (setRefBridges b c v) c' = refCross b c' := by
  cases c with
  | none => cases c' <;> rfl
  | some j =>
      cases c' with
      | none => rfl
      | some k =>
          by_cases hjk : j = k
          · subst hjk
            rcases Nat.lt_or_ge j b.connections.length with h | h
            · simp [refCross, setRefBridges, getConn, List.getD_eq_getElem?_getD,
                    List.getElem?_set, h]
            · simp [refCross, setRefBridges, List.set_eq_of_length_le h]
          · simp [refCross, setRefBridges, getConn, List.getD_eq_getElem?_getD,
                  List.getElem?_set_ne hjk]

theorem connEnd1_setRefBridges (b : HBoard) (c : ConnRef) (v : Int) (c' : ConnRef) :
    connEnd1 (setRefBridges b c v) c' = connEnd1 b c' := by
  cases c with
  | none => cases c' <;> rfl
  | some j =>
      cases c' with
      | none => rfl
      | some k =>
          by_cases hjk : j = k
          · subst hjk
            rcases Nat.lt_or_ge j b.connections.length with h | h
            · simp [connEnd1, setRefBridges, getConn, List.getD_eq_getElem?_getD,
                    List.getElem?_set, h]
            · simp [connEnd1, setRefBridges, List.set_eq_of_length_le h]
          · simp [connEnd1, setRefBridges, getConn, List.getD_eq_getElem?_getD,
                  List.getElem?_set_ne hjk]

theorem connEnd2_setRefBridges (b : HBoard) (c : ConnRef) (v : Int) (c' : ConnRef) :
    connEnd2 (setRefBridges b c v) c' = connEnd2 b c' := by
  cases c with
  | none => cases c' <;> rfl
  | some j =>
      cases c' with
      | none => rfl
      | some k =>
          by_cases hjk : j = k
          · subst hjk
            rcases Nat.lt_or_ge j b.connections.length with h | h
            · simp [connEnd2, setRefBridges, getConn, List.getD_eq_getElem?_getD,
                    List.getElem?_set, h]
            · simp [connEnd2, setRefBridges, List.set_eq_of_length_le h]
          · simp [connEnd2, setRefBridges, getConn, List.getD_eq_getElem?_getD,
                  List.getElem?_set_ne hjk]

theorem connAt_pend_update (s : HIsland) (p : Int) (d : Nat) :
    HIsland.connAt { s with pendbridges := p } d = s.connAt d := by
  cases s
  rcases d with _ | _ | _ | d <;> rfl

theorem islandAt_pend_update (s : HIsland) (p : Int) (d : Nat) :
    HIsland.islandAt { s with pendbridges := p } d = s.islandAt d := by
  cases s
  rcases d with _ | _ | _ | d <;> rfl

theorem islandConn_setRefPend (b : HBoard) (r : IslandRef) (v : Int) (i d : Nat) :
    islandConn (setRefPend b r v) i d = islandConn b i d := by
  cases r with
  | none => rfl
  | some k =>
      by_cases hki : k = i
      · subst hki
        rcases Nat.lt_or_ge k b.islands.length with h | h
        · simp [islandConn, setRefPend, getIsland, List.getD_eq_getElem?_getD,
                List.getElem?_set, h, connAt_pend_update]
        · simp [islandConn, setRefPend, List.set_eq_of_length_le h]
      · simp [islandConn, setRefPend, getIsland, List.getD_eq_getElem?_getD,
              List.getElem?_set_ne hki]

theorem islandNb_setRefPend (b : HBoard) (r : IslandRef) (v : Int) (i d : Nat) :
    islandNb (setRefPend b r v) i d = islandNb b i d := by
  cases r with
  | none => rfl
  | some k =>
      by_cases hki : k = i
      · subst hki
        rcases Nat.lt_or_ge k b.islands.length with h | h
        · simp [islandNb, setRefPend, getIsland, List.getD_eq_getElem?_getD,
                List.getElem?_set, h, islandAt_pend_update]
        · simp [islandNb, setRefPend, List.set_eq_of_length_le h]
      · simp [islandNb, setRefPend, getIsland, List.getD_eq_getElem?_getD,
              List.getElem?_set_ne hki]

theorem islandConn_setRefBridges (b : HBoard) (c : ConnRef) (v : Int) (i d : Nat) :
    islandConn (setRefBridges b c v) i d = islandConn b i d := by
  cases c <;> rfl

theorem islandNb_setRefBridges (b : HBoard) (c : ConnRef) (v : Int) (i d : Nat) :
    islandNb (setRefBridges b c v) i d = islandNb b i d := by
  cases c <;> rfl

theorem islands_length_setRefPend (b : HBoard) (r : IslandRef) (v : Int) :
    (setRefPend b r v).islands.length = b.islands.length := by
  cases r <;> simp [setRefPend]

theorem islands_setRefBridges (b : HBoard) (c : ConnRef) (v : Int) :
    (setRefBridges b c v).islands = b.islands := by
  cases c <;> rfl

theorem connections_length_setRefBridges (b : HBoard) (c : ConnRef) (v : Int) :
    (setRefBridges b c v).connections.length = b.connections.length := by
  cases c <;> simp [setRefBridges]

theorem connections_setRefPend (b : HBoard) (r : IslandRef) (v : Int) :
    (setRefPend b r v).connections = b.connections := by
  cases r <;> rfl

theorem add_bridge_pos (b : HBoard) (c : ConnRef) (h : can_add b c) :
    add_bridge b c = (true, decPend (decPend (setRefBridges b c (refBridges b c + 1))
      (connEnd1 b c)) (connEnd2 b c)) := by
  obtain ⟨h1, h2, h3, h4⟩ := h
  simp only [add_bridge, if_neg h1]
  rw [if_pos ⟨h2, h3⟩, if_neg (by rw [h4]; simp)]

theorem add_bridge_neg (b : HBoard) (c : ConnRef) (h : ¬ can_add b c) :
    add_bridge b c = (false, b) := by
  unfold add_bridge
  split_ifs with hA hB hC
  · rfl
  · rfl
  · exact absurd ⟨hA, hB.1, hB.2, by simpa using hC⟩ h
  · rfl

theorem add_bridge_fst (b : HBoard) (c : ConnRef) :
    (add_bridge b c).1 = true ↔ can_add b c := by
  by_cases h : can_add b c
  · rw [add_bridge_pos b c h]
    simp [h]
  · rw [add_bridge_neg b c h]
    simp [h]

theorem del_bridge_pos (b : HBoard) (c : ConnRef) (h : refBridges b c ≠ 0) :
    del_bridge b c = (true, incPend (incPend (setRefBridges b c (refBridges b c - 1))
      (connEnd1 b c)) (connEnd2 b c)) := by
  simp only [del_bridge, if_pos h]

theorem del_bridge_neg (b : HBoard) (c : ConnRef) (h : refBridges b c = 0) :
    del_bridge b c = (false, b) := by
  simp [del_bridge, h]

theorem del_bridge_fst (b : HBoard) (c : ConnRef) :
    (del_bridge b c).1 = true ↔ refBridges b c ≠ 0 := by
  by_cases h : refBridges b c = 0
  · rw [del_bridge_neg b c h]
    simp [h]
  · rw [del_bridge_pos b c h]
    simp [h]

theorem refPend_decPend (b : HBoard) (e r : IslandRef) (h : validIslandRef b r) :
    refPend (decPend b e) r = refPend b r - (if e = r then 1 else 0) := by
  by_cases he : e = r
  · subst he
    simp [decPend, refPend_setRefPend_self b e _ h]
  · simp [decPend, refPend_setRefPend_ne b e r _ (fun hx => he hx.symm), he]

theorem refPend_incPend (b : HBoard) (e r : IslandRef) (h : validIslandRef b r) :
    refPend (incPend b e) r = refPend b r + (if e = r then 1 else 0) := by
  by_cases he : e = r
  · subst he
    simp [incPend, refPend_setRefPend_self b e _ h]
  · simp [incPend, refPend_setRefPend_ne b e r _ (fun hx => he hx.symm), he]

theorem islands_length_decPend (b : HBoard) (e : IslandRef) :
    (decPend b e).islands.length = b.islands.length := islands_length_setRefPend b e _

theorem islands_length_incPend (b : HBoard) (e : IslandRef) :
    (incPend b e).islands.length = b.islands.length := islands_length_setRefPend b e _

theorem validIslandRef_of_length (b b' : HBoard) (r : IslandRef)
    (h : b'.islands.length = b.islands.length) (hv : validIslandRef b r) :
    validIslandRef b' r := by
  cases r with
  | none => trivial
  | some i =>
      simp only [validIslandRef] at *
      omega

theorem validConnRef_of_length (b b' : HBoard) (c : ConnRef)
    (h : b'.connections.length = b.connections.length) (hv : validConnRef b c) :
    validConnRef b' c := by
  cases c with
  | none => trivial
  | some j =>
      simp only [validConnRef] at *
      omega

theorem incPend_decPend (b : HBoard) (e : IslandRef) :
    incPend (decPend b e) e = b := by
  cases e with
  | none =>
      show ({ b with outPendbridges := b.outPendbridges - 1 + 1 } : HBoard) = b
      have : b.outPendbridges - 1 + 1 = b.outPendbridges := by omega
      rw [this]
  | some i =>
      rcases Nat.lt_or_ge i b.islands.length with h | h
      · have hv : validIslandRef b (some i) := h
        have h1 : refPend (decPend b (some i)) (some i) = refPend b (some i) - 1 := by
          simpa using refPend_decPend b (some i) (some i) hv
        unfold incPend
        rw [h1]
        have h2 : refPend b (some i) - 1 + 1 = refPend b (some i) := by omega
        rw [h2]
        unfold decPend
        rw [setRefPend_setRefPend, setRefPend_self]
      · have hd : decPend b (some i) = b := by
          show ({ b with islands := b.islands.set i _ } : HBoard) = b
          rw [List.set_eq_of_length_le h]
        have hi : incPend b (some i) = b := by
          show ({ b with islands := b.islands.set i _ } : HBoard) = b
          rw [List.set_eq_of_length_le h]
        rw [hd, hi]

theorem setRefPend_comm (b : HBoard) (r r' : IslandRef) (v w : Int) (h : r ≠ r') :
    setRefPend (setRefPend b r v) r' w = setRefPend (setRefPend b r' w) r v := by
  cases r with
  | none =>
      cases r' with
      | none => exact absurd rfl h
      | some j => rfl
  | some i =>
      cases r' with
      | none => rfl
      | some j =>
          have hij : i ≠ j := fun he => h (by rw [he])
          simp only [setRefPend, getIsland, List.getD_eq_getElem?_getD]
          rw [List.getElem?_set_ne hij, List.getElem?_set_ne (Ne.symm hij),
              List.set_comm _ _ _ hij]

theorem incPend_decPend_comm (b : HBoard) (r r' : IslandRef) (h : r ≠ r') :
    incPend (decPend b r) r' = decPend (incPend b r') r := by
  unfold incPend decPend
  rw [refPend_setRefPend_ne b r r' _ (Ne.symm h), refPend_setRefPend_ne b r' r _ h,
      setRefPend_comm b r r' _ _ h]

theorem setRefBridges_setRefPend_comm (b : HBoard) (c : ConnRef) (r : IslandRef)
    (v w : Int) : setRefBridges (setRefPend b r w) c v = setRefPend (setRefBridges b c v) r w := by
  cases c <;> cases r <;> rfl

theorem refBridges_add_bridge_self (b : HBoard) (c : ConnRef) (hca : can_add b c)
    (hv : validConnRef b c) :
    refBridges (add_bridge b c).2 c = refBridges b c + 1 := by
  rw [add_bridge_pos b c hca]
  dsimp only
  simp only [decPend]
  rw [refBridges_setRefPend, refBridges_setRefPend, refBridges_setRefBridges_self b c _ hv]

theorem refBridges_add_bridge_ne (b : HBoard) (c c' : ConnRef) (hca : can_add b c)
    (hne : c' ≠ c) :
    refBridges (add_bridge b c).2 c' = refBridges b c' := by
  rw [add_bridge_pos b c hca]
  dsimp only
  simp only [decPend]
  rw [refBridges_setRefPend, refBridges_setRefPend, refBridges_setRefBridges_ne b c c' _ hne]

theorem refPend_add_bridge (b : HBoard) (c : ConnRef) (r : IslandRef) (hca : can_add b c)
    (hr : validIslandRef b r) :
    refPend (add_bridge b c).2 r = refPend b r
      - (if connEnd1 b c = r then 1 else 0) - (if connEnd2 b c = r then 1 else 0) := by
  rw [add_bridge_pos b c hca]
  dsimp only
  have hX : validIslandRef (setRefBridges b c (refBridges b c + 1)) r :=
    validIslandRef_of_length _ _ _ (by rw [islands_setRefBridges]) hr
  have hX1 : validIslandRef
      (decPend (setRefBridges b c (refBridges b c + 1)) (connEnd1 b c)) r :=
    validIslandRef_of_length _ _ _ (islands_length_decPend _ _) hX
  rw [refPend_decPend _ _ _ hX1, refPend_decPend _ _ _ hX, refPend_setRefBridges]

theorem refBridges_del_bridge_self (b : HBoard) (c : ConnRef) (hd : refBridges b c ≠ 0)
    (hv : validConnRef b c) :
    refBridges (del_bridge b c).2 c = refBridges b c - 1 := by
  rw [del_bridge_pos b c hd]
  dsimp only
  simp only [incPend]
  rw [refBridges_setRefPend, refBridges_setRefPend, refBridges_setRefBridges_self b c _ hv]

theorem refBridges_del_bridge_ne (b : HBoard) (c c' : ConnRef) (hd : refBridges b c ≠ 0)
    (hne : c' ≠ c) :
    refBridges (del_bridge b c).2 c' = refBridges b c' := by
  rw [del_bridge_pos b c hd]
  dsimp only
  simp only [incPend]
  rw [refBridges_setRefPend, refBridges_setRefPend, refBridges_setRefBridges_ne b c c' _ hne]

theorem refPend_del_bridge (b : HBoard) (c : ConnRef) (r : IslandRef) (hd : refBridges b c ≠ 0)
    (hr : validIslandRef b r) :
    refPend (del_bridge b c).2 r = refPend b r
      + (if connEnd1 b c = r then 1 else 0) + (if connEnd2 b c = r then 1 else 0) := by
  rw [del_bridge_pos b c hd]
  dsimp only
  have hX : validIslandRef (setRefBridges b c (refBridges b c - 1)) r :=
    validIslandRef_of_length _ _ _ (by rw [islands_setRefBridges]) hr
  have hX1 : validIslandRef
      (incPend (setRefBridges b c (refBridges b c - 1)) (connEnd1 b c)) r :=
    validIslandRef_of_length _ _ _ (islands_length_incPend _ _) hX
  rw [refPend_incPend _ _ _ hX1, refPend_incPend _ _ _ hX, refPend_setRefBridges]

theorem islandConn_add_bridge (b : HBoard) (c : ConnRef) (i d : Nat) :
    islandConn (add_bridge b c).2 i d = islandConn b i d := by
  by_cases hca : can_add b c
  · rw [add_bridge_pos b c hca]
    dsimp only
    simp only [decPend]
    rw [islandConn_setRefPend, islandConn_setRefPend, islandConn_setRefBridges]
  · rw [add_bridge_neg b c hca]

theorem islandNb_add_bridge (b : HBoard) (c : ConnRef) (i d : Nat) :
    islandNb (add_bridge b c).2 i d = islandNb b i d := by
  by_cases hca : can_add b c
  · rw [add_bridge_pos b c hca]
    dsimp only
    simp only [decPend]
    rw [islandNb_setRefPend, islandNb_setRefPend, islandNb_setRefBridges]
  · rw [add_bridge_neg b c hca]

theorem islandConn_del_bridge (b : HBoard) (c : ConnRef) (i d : Nat) :
    islandConn (del_bridge b c).2 i d = islandConn b i d := by
  by_cases hd : refBridges b c ≠ 0
  · rw [del_bridge_pos b c hd]
    dsimp only
    simp only [incPend]
    rw [islandConn_setRefPend, islandConn_setRefPend, islandConn_setRefBridges]
  · rw [del_bridge_neg b c (by omega)]

theorem islandNb_del_bridge (b : HBoard) (c : ConnRef) (i d : Nat) :
    islandNb (del_bridge b c).2 i d = islandNb b i d := by
  by_cases hd : refBridges b c ≠ 0
  · rw [del_bridge_pos b c hd]
    dsimp only
    simp only [incPend]
    rw [islandNb_setRefPend, islandNb_setRefPend, islandNb_setRefBridges]
  · rw [del_bridge_neg b c (by omega)]

theorem refCross_add_bridge (b : HBoard) (c c' : ConnRef) :
    refCross (add_bridge b c).2 c' = refCross b c' := by
  by_cases hca : can_add b c
  · rw [add_bridge_pos b c hca]
    dsimp only
    simp only [decPend]
    rw [refCross_setRefPend, refCross_setRefPend, refCross_setRefBridges]
  · rw [add_bridge_neg b c hca]

theorem refCross_del_bridge (b : HBoard) (c c' : ConnRef) :
    refCross (del_bridge b c).2 c' = refCross b c' := by
  by_cases hd : refBridges b c ≠ 0
  · rw [del_bridge_pos b c hd]
    dsimp only
    simp only [incPend]
    rw [refCross_setRefPend, refCross_setRefPend, refCross_setRefBridges]
  · rw [del_bridge_neg b c (by omega)]

theorem connEnd1_add_bridge (b : HBoard) (c c' : ConnRef) :
    connEnd1 (add_bridge b c).2 c' = connEnd1 b c' := by
  by_cases hca : can_add b c
  · rw [add_bridge_pos b c hca]
    dsimp only
    simp only [decPend]
    rw [connEnd1_setRefPend, connEnd1_setRefPend, connEnd1_setRefBridges]
  · rw [add_bridge_neg b c hca]

theorem connEnd2_add_bridge (b : HBoard) (c c' : ConnRef) :
    connEnd2 (add_bridge b c).2 c' = connEnd2 b c' := by
  by_cases hca : can_add b c
  · rw [add_bridge_pos b c hca]
    dsimp only
    simp only [decPend]
    rw [connEnd2_setRefPend, connEnd2_setRefPend, connEnd2_setRefBridges]
  · rw [add_bridge_neg b c hca]

theorem connEnd1_del_bridge (b : HBoard) (c c' : ConnRef) :
    connEnd1 (del_bridge b c).2 c' = connEnd1 b c' := by
  by_cases hd : refBridges b c ≠ 0
  · rw [del_bridge_pos b c hd]
    dsimp only
    simp only [incPend]
    rw [connEnd1_setRefPend, connEnd1_setRefPend, connEnd1_setRefBridges]
  · rw [del_bridge_neg b c (by omega)]

theorem connEnd2_del_bridge (b : HBoard) (c c' : ConnRef) :
    connEnd2 (del_bridge b c).2 c' = connEnd2 b c' := by
  by_cases hd : refBridges b c ≠ 0
  · rw [del_bridge_pos b c hd]
    dsimp only
    simp only [incPend]
    rw [connEnd2_setRefPend, connEnd2_setRefPend, connEnd2_setRefBridges]
  · rw [del_bridge_neg b c (by omega)]

theorem islands_length_add_bridge (b : HBoard) (c : ConnRef) :
    (add_bridge b c).2.islands.length = b.islands.length := by
  by_cases hca : can_add b c
  · rw [add_bridge_pos b c hca]
    dsimp only
    simp only [decPend]
    rw [islands_length_setRefPend, islands_length_setRefPend, islands_setRefBridges]
  · rw [add_bridge_neg b c hca]

theorem islands_length_del_bridge (b : HBoard) (c : ConnRef) :
    (del_bridge b c).2.islands.length = b.islands.length := by
  by_cases hd : refBridges b c ≠ 0
  · rw [del_bridge_pos b c hd]
    dsimp only
    simp only [incPend]
    rw [islands_length_setRefPend, islands_length_setRefPend, islands_setRefBridges]
  · rw [del_bridge_neg b c (by omega)]

theorem connections_length_add_bridge (b : HBoard) (c : ConnRef) :
    (add_bridge b c).2.connections.length = b.connections.length := by
  by_cases hca : can_add b c
  · rw [add_bridge_pos b c hca]
    dsimp only
    simp only [decPend]
    rw [connections_setRefPend, connections_setRefPend, connections_length_setRefBridges]
  · rw [add_bridge_neg b c hca]

theorem connections_length_del_bridge (b : HBoard) (c : ConnRef) :
    (del_bridge b c).2.connections.length = b.connections.length := by
  by_cases hd : refBridges b c ≠ 0
  · rw [del_bridge_pos b c hd]
    dsimp only
    simp only [incPend]
    rw [connections_setRefPend, connections_setRefPend, connections_length_setRefBridges]
  · rw [del_bridge_neg b c (by omega)]

theorem decPend_setRefBridges (b : HBoard) (c : ConnRef) (v : Int) (e : IslandRef) :
    decPend (setRefBridges b c v) e = setRefBridges (decPend b e) c v := by
  unfold decPend
  rw [refPend_setRefBridges, setRefBridges_setRefPend_comm]

theorem incPend_setRefBridges (b : HBoard) (c : ConnRef) (v : Int) (e : IslandRef) :
    incPend (setRefBridges b c v) e = setRefBridges (incPend b e) c v := by
  unfold incPend
  rw [refPend_setRefBridges, setRefBridges_setRefPend_comm]

/-- C10: an immediately following del_bridge undoes a successful add_bridge
exactly, returning success and the original board.  The hypotheses only say
that the connection reference points into the arena and that its bridges
count is not negative, which hold for every connection of a real board. -/
theorem claim_C10 (b : HBoard) (c : ConnRef) (hv : validConnRef b c)
    (hb : 0 ≤ refBridges b c) (h : (add_bridge b c).1 = true) :
    del_bridge (add_bridge b c).2 c = (true, b) := by
  have hca : can_add b c := (add_bridge_fst b c).1 h
  rw [add_bridge_pos b c hca]
  dsimp only
  rw [decPend_setRefBridges, decPend_setRefBridges]
  have hW : refBridges (decPend (decPend b (connEnd1 b c)) (connEnd2 b c)) c
      = refBridges b c := by
    simp only [decPend]
    rw [refBridges_setRefPend, refBridges_setRefPend]
  have hWv : validConnRef (decPend (decPend b (connEnd1 b c)) (connEnd2 b c)) c := by
    apply validConnRef_of_length b _ c _ hv
    simp only [decPend]
    rw [connections_setRefPend, connections_setRefPend]
  rw [del_bridge_pos _ c (by rw [refBridges_setRefBridges_self _ c _ hWv]; omega)]
  rw [refBridges_setRefBridges_self _ c _ hWv]
  have hE1 : connEnd1 (setRefBridges (decPend (decPend b (connEnd1 b c)) (connEnd2 b c))
      c (refBridges b c + 1)) c = connEnd1 b c := by
    rw [connEnd1_setRefBridges]
    simp only [decPend]
    rw [connEnd1_setRefPend, connEnd1_setRefPend]
  have hE2 : connEnd2 (setRefBridges (decPend (decPend b (connEnd1 b c)) (connEnd2 b c))
      c (refBridges b c + 1)) c = connEnd2 b c := by
    rw [connEnd2_setRefBridges]
    simp only [decPend]
    rw [connEnd2_setRefPend, connEnd2_setRefPend]
  rw [hE1, hE2]
  congr 1
  rw [setRefBridges_setRefBridges]
  have hv1 : refBridges b c + 1 - 1 = refBridges b c := by omega
  rw [hv1, incPend_setRefBridges, incPend_setRefBridges]
  have hW2 : refBridges (incPend (incPend (decPend (decPend b (connEnd1 b c))
      (connEnd2 b c)) (connEnd1 b c)) (connEnd2 b c)) c = refBridges b c := by
    simp only [incPend, decPend]
    rw [refBridges_setRefPend, refBridges_setRefPend, refBridges_setRefPend,
        refBridges_setRefPend]
  rw [← hW2, setRefBridges_self]
  by_cases he : connEnd1 b c = connEnd2 b c
  · rw [he, incPend_decPend, incPend_decPend]
  · rw [incPend_decPend_comm (decPend b (connEnd1 b c)) (connEnd2 b c) (connEnd1 b c)
        (fun hx => he hx.symm),
      incPend_decPend, incPend_decPend]

/-- C3: add_bridge fails without mutation exactly when the connection is at
its cap of 2, an endpoint has no pending bridges, or a crossing connection
carries a bridge; otherwise it succeeds, increments the bridges count and
decrements the pending count of both endpoints.  del_bridge fails without
mutation exactly when the connection has no bridges; otherwise it succeeds,
decrements the bridges count and increments both pending counts.  The
hypotheses are facts of every reachable board state: valid references,
distinct endpoints, bridge counts within range. -/
theorem claim_C3 (b : HBoard) (c : ConnRef)
    (hv : validConnRef b c)
    (hv1 : validIslandRef b (connEnd1 b c))
    (hv2 : validIslandRef b (connEnd2 b c))
    (hne : connEnd1 b c ≠ connEnd2 b c)
    (hb2 : refBridges b c ≤ 2)
    (hcross : ∀ r ∈ refCross b c, 0 ≤ refBridges b r) :
    ((refBridges b c = 2 ∨ refPend b (connEnd1 b c) = 0 ∨ refPend b (connEnd2 b c) = 0 ∨
        ∃ r ∈ refCross b c, refBridges b r > 0) →
      add_bridge b c = (false, b)) ∧
    (¬ (refBridges b c = 2 ∨ refPend b (connEnd1 b c) = 0 ∨ refPend b (connEnd2 b c) = 0 ∨
        ∃ r ∈ refCross b c, refBridges b r > 0) →
      (add_bridge b c).1 = true ∧
      refBridges (add_bridge b c).2 c = refBridges b c + 1 ∧
      refPend (add_bridge b c).2 (connEnd1 b c) = refPend b (connEnd1 b c) - 1 ∧
      refPend (add_bridge b c).2 (connEnd2 b c) = refPend b (connEnd2 b c) - 1) ∧
    (refBridges b c = 0 → del_bridge b c = (false, b)) ∧
    (refBridges b c ≠ 0 →
      (del_bridge b c).1 = true ∧
      refBridges (del_bridge b c).2 c = refBridges b c - 1 ∧
      refPend (del_bridge b c).2 (connEnd1 b c) = refPend b (connEnd1 b c) + 1 ∧
      refPend (del_bridge b c).2 (connEnd2 b c) = refPend b (connEnd2 b c) + 1) := by
  refine ⟨?_, ?_, ?_, ?_⟩
  · intro h
    apply add_bridge_neg
    rintro ⟨h1, h2, h3, h4⟩
    rcases h with h | h | h | ⟨r, hr, hrpos⟩
    · exact h1 (by simp only [MAX_CONNECTION_BRIDGES]; omega)
    · exact h2 h
    · exact h3 h
    · have hany : (refCross b c).any (fun r => refBridges b r ≠ 0) = true := by
        rw [List.any_eq_true]
        exact ⟨r, hr, decide_eq_true (by omega)⟩
      rw [h4] at hany
      exact absurd hany (by simp)
  · intro h
    push_neg at h
    obtain ⟨h1, h2, h3, h4⟩ := h
    have hca : can_add b c := by
      refine ⟨by simp only [MAX_CONNECTION_BRIDGES]; omega, h2, h3, ?_⟩
      rw [List.any_eq_false]
      intro r hr
      have hx := hcross r hr
      have hy := h4 r hr
      simp only [decide_eq_true_eq]
      omega
    refine ⟨(add_bridge_fst b c).2 hca, refBridges_add_bridge_self b c hca hv, ?_, ?_⟩
    · have hp := refPend_add_bridge b c (connEnd1 b c) hca hv1
      rw [if_pos rfl, if_neg (fun hx => hne hx.symm)] at hp
      omega
    · have hp := refPend_add_bridge b c (connEnd2 b c) hca hv2
      rw [if_neg hne, if_pos rfl] at hp
      omega
  · exact del_bridge_neg b c
  · intro h
    refine ⟨(del_bridge_fst b c).2 h, refBridges_del_bridge_self b c h hv, ?_, ?_⟩
    · have hp := refPend_del_bridge b c (connEnd1 b c) h hv1
      rw [if_pos rfl, if_neg (fun hx => hne hx.symm)] at hp
      omega
    · have hp := refPend_del_bridge b c (connEnd2 b c) h hv2
      rw [if_neg hne, if_pos rfl] at hp
      omega

/-- Witness for claim C3 on the two-island sample board: the hypotheses and
the non-degenerate success antecedent hold at its only connection. -/
theorem claim_C3_witness :
    (validConnRef sampleA (some 0) ∧
     connEnd1 sampleA (some 0) ≠ connEnd2 sampleA (some 0) ∧
     refBridges sampleA (some 0) ≤ 2) ∧
    (add_bridge sampleA (some 0)).1 = true ∧
    del_bridge sampleA (some 0) = (false, sampleA) :=
  ⟨⟨by decide, by decide, by decide⟩,
   ((claim_C3 sampleA (some 0) (by decide) (by decide) (by decide) (by decide)
      (by decide) (by decide)).2.1 (by decide)).1,
   (claim_C3 sampleA (some 0) (by decide) (by decide) (by decide) (by decide)
      (by decide) (by decide)).2.2.1 (by decide)⟩

/-- Witness for claim C10 on the two-island sample board. -/
theorem claim_C10_witness :
    (validConnRef sampleA (some 0) ∧ 0 ≤ refBridges sampleA (some 0) ∧
     (add_bridge sampleA (some 0)).1 = true) ∧
    del_bridge (add_bridge sampleA (some 0)).2 (some 0) = (true, sampleA) :=
  ⟨⟨by decide, by decide, by decide⟩,
   claim_C10 sampleA (some 0) (by decide) (by decide) (by decide)⟩

theorem expect_pend_update (s : HIsland) (p : Int) :
    ({ s with pendbridges := p } : HIsland).expectbridges = s.expectbridges := rfl

theorem islandExpect_setRefPend (b : HBoard) (r : IslandRef) (v : Int) (i : Nat) :
    islandExpect (setRefPend b r v) i = islandExpect b i := by
  cases r with
  | none => rfl
  | some k =>
      by_cases hki : k = i
      · subst hki
        rcases Nat.lt_or_ge k b.islands.length with h | h
        · simp [islandExpect, setRefPend, getIsland, List.getD_eq_getElem?_getD,
                List.getElem?_set, h]
        · simp [islandExpect, setRefPend, List.set_eq_of_length_le h]
      · simp [islandExpect, setRefPend, getIsland, List.getD_eq_getElem?_getD,
              List.getElem?_set_ne hki]

theorem islandExpect_setRefBridges (b : HBoard) (c : ConnRef) (v : Int) (i : Nat) :
    islandExpect (setRefBridges b c v) i = islandExpect b i := by
  cases c <;> rfl

theorem islandExpect_add_bridge (b : HBoard) (c : ConnRef) (i : Nat) :
    islandExpect (add_bridge b c).2 i = islandExpect b i := by
  by_cases hca : can_add b c
  · rw [add_bridge_pos b c hca]
    dsimp only
    simp only [decPend]
    rw [islandExpect_setRefPend, islandExpect_setRefPend, islandExpect_setRefBridges]
  · rw [add_bridge_neg b c hca]

theorem islandExpect_del_bridge (b : HBoard) (c : ConnRef) (i : Nat) :
    islandExpect (del_bridge b c).2 i = islandExpect b i := by
  by_cases hd : refBridges b c ≠ 0
  · rw [del_bridge_pos b c hd]
    dsimp only
    simp only [incPend]
    rw [islandExpect_setRefPend, islandExpect_setRefPend, islandExpect_setRefBridges]
  · rw [del_bridge_neg b c (by omega)]

theorem can_add_cross_zero (b : HBoard) (c : ConnRef) (hca : can_add b c) :
    ∀ r ∈ refCross b c, refBridges b r = 0 := by
  obtain ⟨h1, h2, h3, h4⟩ := hca
  intro r hr
  have h := List.any_eq_false.mp h4 r hr
  simp only [decide_eq_true_eq] at h
  omega

theorem islandDegree_add_bridge (b : HBoard) (j : Nat) (hj : j < b.connections.length)
    (hca : can_add b (some j)) (i : Nat) :
    islandDegree (add_bridge b (some j)).2 i = islandDegree b i
      + (if connEnd1 b (some j) = some i then 1 else 0)
      + (if connEnd2 b (some j) = some i then 1 else 0) := by
  unfold islandDegree
  rw [connections_length_add_bridge]
  have hjm : j ∈ Finset.range b.connections.length := Finset.mem_range.mpr hj
  rw [← Finset.add_sum_erase _ _ hjm, ← Finset.add_sum_erase _
    (fun k => ((if connEnd1 b (some k) = some i then refBridges b (some k) else 0) +
      (if connEnd2 b (some k) = some i then refBridges b (some k) else 0))) hjm]
  have hcongr : ∑ k ∈ (Finset.range b.connections.length).erase j,
      ((if connEnd1 (add_bridge b (some j)).2 (some k) = some i
          then refBridges (add_bridge b (some j)).2 (some k) else 0) +
       (if connEnd2 (add_bridge b (some j)).2 (some k) = some i
          then refBridges (add_bridge b (some j)).2 (some k) else 0))
      = ∑ k ∈ (Finset.range b.connections.length).erase j,
      ((if connEnd1 b (some k) = some i then refBridges b (some k) else 0) +
       (if connEnd2 b (some k) = some i then refBridges b (some k) else 0)) := by
    apply Finset.sum_congr rfl
    intro k hk
    have hkj : k ≠ j := (Finset.mem_erase.mp hk).1
    have hne : (some k : ConnRef) ≠ some j := by simpa using hkj
    rw [connEnd1_add_bridge, connEnd2_add_bridge, refBridges_add_bridge_ne b _ _ hca hne]
  rw [hcongr, connEnd1_add_bridge, connEnd2_add_bridge,
      refBridges_add_bridge_self b (some j) hca hj]
  by_cases h1 : connEnd1 b (some j) = some i <;>
    by_cases h2 : connEnd2 b (some j) = some i <;>
    simp [h1, h2] <;> ring

theorem islandDegree_del_bridge (b : HBoard) (j : Nat) (hj : j < b.connections.length)
    (hd : refBridges b (some j) ≠ 0) (i : Nat) :
    islandDegree (del_bridge b (some j)).2 i = islandDegree b i
      - (if connEnd1 b (some j) = some i then 1 else 0)
      - (if connEnd2 b (some j) = some i then 1 else 0) := by
  unfold islandDegree
  rw [connections_length_del_bridge]
  have hjm : j ∈ Finset.range b.connections.length := Finset.mem_range.mpr hj
  rw [← Finset.add_sum_erase _ _ hjm, ← Finset.add_sum_erase _
    (fun k => ((if connEnd1 b (some k) = some i then refBridges b (some k) else 0) +
      (if connEnd2 b (some k) = some i then refBridges b (some k) else 0))) hjm]
  have hcongr : ∑ k ∈ (Finset.range b.connections.length).erase j,
      ((if connEnd1 (del_bridge b (some j)).2 (some k) = some i
          then refBridges (del_bridge b (some j)).2 (some k) else 0) +
       (if connEnd2 (del_bridge b (some j)).2 (some k) = some i
          then refBridges (del_bridge b (some j)).2 (some k) else 0))
      = ∑ k ∈ (Finset.range b.connections.length).erase j,
      ((if connEnd1 b (some k) = some i then refBridges b (some k) else 0) +
       (if connEnd2 b (some k) = some i then refBridges b (some k) else 0)) := by
    apply Finset.sum_congr rfl
    intro k hk
    have hkj : k ≠ j := (Finset.mem_erase.mp hk).1
    have hne : (some k : ConnRef) ≠ some j := by simpa using hkj
    rw [connEnd1_del_bridge, connEnd2_del_bridge, refBridges_del_bridge_ne b _ _ hd hne]
  rw [hcongr, connEnd1_del_bridge, connEnd2_del_bridge,
      refBridges_del_bridge_self b (some j) hd hj]
  by_cases h1 : connEnd1 b (some j) = some i <;>
    by_cases h2 : connEnd2 b (some j) = some i <;>
    simp [h1, h2] <;> ring

theorem WF_add_bridge (b : HBoard) (c : ConnRef) (hwf : WF b) (hc : validConnRef b c) :
    WF (add_bridge b c).2 := by
  by_cases hca : can_add b c
  · obtain ⟨hsen, hbr, hpn, hps, hex, hends, hsym⟩ := hwf
    cases c with
    | none =>
        exfalso
        exact hca.2.1 (by simpa [connEnd1] using hsen.1)
    | some j =>
        have hj : j < b.connections.length := hc
        have hcz := can_add_cross_zero b (some j) hca
        have hlen : (add_bridge b (some j)).2.islands.length = b.islands.length :=
          islands_length_add_bridge b (some j)
        have hclen : (add_bridge b (some j)).2.connections.length = b.connections.length :=
          connections_length_add_bridge b (some j)
        obtain ⟨hneq, hv1, hv2⟩ := hends j hj
        refine ⟨⟨?_, ?_, ?_⟩, ?_, ?_, ?_, ?_, ?_, ?_⟩
        · rw [refPend_add_bridge b _ none hca trivial, if_neg (by simp [connEnd1]),
              if_neg (by simp [connEnd2]), hsen.1]
          omega
        · rw [refBridges_add_bridge_ne b _ none hca (by simp)]
          exact hsen.2.1
        · rw [refCross_add_bridge]
          exact hsen.2.2
        · intro k hk
          rw [hclen] at hk
          by_cases hkj : k = j
          · subst hkj
            rw [refBridges_add_bridge_self b _ hca hj]
            have hr := hbr k hk
            have h1 := hca.1
            simp only [MAX_CONNECTION_BRIDGES] at h1
            omega
          · rw [refBridges_add_bridge_ne b _ _ hca (by simpa using hkj)]
            exact hbr k hk
        · intro i hi
          rw [hlen] at hi
          rw [refPend_add_bridge b _ (some i) hca hi]
          by_cases h1 : connEnd1 b (some j) = some i
          · have h2 : connEnd2 b (some j) ≠ some i := fun hx => hneq (h1.trans hx.symm)
            rw [if_pos h1, if_neg h2]
            have hp := hca.2.1
            rw [h1] at hp
            have := hpn i hi
            omega
          · rw [if_neg h1]
            by_cases h2 : connEnd2 b (some j) = some i
            · rw [if_pos h2]
              have hp := hca.2.2.1
              rw [h2] at hp
              have := hpn i hi
              omega
            · rw [if_neg h2]
              have := hpn i hi
              omega
        · intro i hi
          rw [hlen] at hi
          rw [refPend_add_bridge b _ (some i) hca hi,
              islandDegree_add_bridge b j hj hca i, islandExpect_add_bridge]
          have := hps i hi
          omega
        · intro k hk r hr
          rw [hclen] at hk
          rw [refCross_add_bridge] at hr
          obtain ⟨k', hrk, hk'len, hk'ne, hkin⟩ := hsym k hk r hr
          subst hrk
          by_cases hkj : k = j
          · subst hkj
            right
            rw [refBridges_add_bridge_ne b _ _ hca (by simpa using hk'ne)]
            exact hcz (some k') hr
          · by_cases hk'0 : k' = j
            · subst hk'0
              left
              rw [refBridges_add_bridge_ne b _ _ hca (by simpa using hkj)]
              exact hcz (some k) hkin
            · rcases hex k hk (some k') hr with h0 | h0
              · left
                rw [refBridges_add_bridge_ne b _ _ hca (by simpa using hkj)]
                exact h0
              · right
                rw [refBridges_add_bridge_ne b _ _ hca (by simpa using hk'0)]
                exact h0
        · intro k hk
          rw [hclen] at hk
          rw [connEnd1_add_bridge, connEnd2_add_bridge]
          obtain ⟨h1, h2, h3⟩ := hends k hk
          exact ⟨h1, validIslandRef_of_length b _ _ hlen h2,
                 validIslandRef_of_length b _ _ hlen h3⟩
        · intro k hk r hr
          rw [hclen] at hk
          rw [refCross_add_bridge] at hr
          obtain ⟨k', hrk, hk'len, hk'ne, hkin⟩ := hsym k hk r hr
          refine ⟨k', hrk, by rw [hclen]; exact hk'len, hk'ne, ?_⟩
          rw [refCross_add_bridge]
          exact hkin
  · rw [add_bridge_neg b c hca]
    exact hwf

theorem WF_del_bridge (b : HBoard) (c : ConnRef) (hwf : WF b) (hc : validConnRef b c) :
    WF (del_bridge b c).2 := by
  by_cases hd : refBridges b c ≠ 0
  · obtain ⟨hsen, hbr, hpn, hps, hex, hends, hsym⟩ := hwf
    cases c with
    | none => exact absurd hsen.2.1 hd
    | some j =>
        have hj : j < b.connections.length := hc
        have hlen : (del_bridge b (some j)).2.islands.length = b.islands.length :=
          islands_length_del_bridge b (some j)
        have hclen : (del_bridge b (some j)).2.connections.length = b.connections.length :=
          connections_length_del_bridge b (some j)
        refine ⟨⟨?_, ?_, ?_⟩, ?_, ?_, ?_, ?_, ?_, ?_⟩
        · rw [refPend_del_bridge b _ none hd trivial, if_neg (by simp [connEnd1]),
              if_neg (by simp [connEnd2]), hsen.1]
          omega
        · rw [refBridges_del_bridge_ne b _ none hd (by simp)]
          exact hsen.2.1
        · rw [refCross_del_bridge]
          exact hsen.2.2
        · intro k hk
          rw [hclen] at hk
          by_cases hkj : k = j
          · subst hkj
            rw [refBridges_del_bridge_self b _ hd hj]
            have hr := hbr k hk
            omega
          · rw [refBridges_del_bridge_ne b _ _ hd (by simpa using hkj)]
            exact hbr k hk
        · intro i hi
          rw [hlen] at hi
          rw [refPend_del_bridge b _ (some i) hd hi]
          have := hpn i hi
          by_cases h1 : connEnd1 b (some j) = some i <;>
            by_cases h2 : connEnd2 b (some j) = some i <;>
            simp [h1, h2] <;> omega
        · intro i hi
          rw [hlen] at hi
          rw [refPend_del_bridge b _ (some i) hd hi,
              islandDegree_del_bridge b j hj hd i, islandExpect_del_bridge]
          have := hps i hi
          omega
        · intro k hk r hr
          rw [hclen] at hk
          rw [refCross_del_bridge] at hr
          obtain ⟨k', hrk, hk'len, hk'ne, hkin⟩ := hsym k hk r hr
          subst hrk
          by_cases hkj : k = j
          · subst hkj
            rcases hex k hk (some k') hr with h0 | h0
            · exact absurd h0 hd
            · right
              rw [refBridges_del_bridge_ne b _ _ hd (by simpa using hk'ne)]
              exact h0
          · by_cases hk'0 : k' = j
            · subst hk'0
              rcases hex k hk (some k') hr with h0 | h0
              · left
                rw [refBridges_del_bridge_ne b _ _ hd (by simpa using hkj)]
                exact h0
              · exact absurd h0 hd
            · rcases hex k hk (some k') hr with h0 | h0
              · left
                rw [refBridges_del_bridge_ne b _ _ hd (by simpa using hkj)]
                exact h0
              · right
                rw [refBridges_del_bridge_ne b _ _ hd (by simpa using hk'0)]
                exact h0
        · intro k hk
          rw [hclen] at hk
          rw [connEnd1_del_bridge, connEnd2_del_bridge]
          obtain ⟨h1, h2, h3⟩ := hends k hk
          exact ⟨h1, validIslandRef_of_length b _ _ hlen h2,
                 validIslandRef_of_length b _ _ hlen h3⟩
        · intro k hk r hr
          rw [hclen] at hk
          rw [refCross_del_bridge] at hr
          obtain ⟨k', hrk, hk'len, hk'ne, hkin⟩ := hsym k hk r hr
          refine ⟨k', hrk, by rw [hclen]; exact hk'len, hk'ne, ?_⟩
          rw [refCross_del_bridge]
          exact hkin
  · rw [del_bridge_neg b c (by omega)]
    exact hwf

theorem WF_BridgeReach (b0 b : HBoard) (hwf : WF b0) (hr : BridgeReach b0 b) : WF b := by
  induction hr with
  | refl => exact hwf
  | add c _ hc ih => exact WF_add_bridge _ c ih hc
  | del c _ hc ih => exact WF_del_bridge _ c ih hc

theorem modifyIsland_out (b : HBoard) (k : Nat) (f : HIsland → HIsland)
    (h : b.islands.length ≤ k) : modifyIsland b k f = b := by
  show ({ b with islands := b.islands.set k _ } : HBoard) = b
  rw [List.set_eq_of_length_le h]

theorem getIsland_modifyIsland_self (b : HBoard) (k : Nat) (f : HIsland → HIsland)
    (h : k < b.islands.length) : getIsland (modifyIsland b k f) k = f (getIsland b k) := by
  simp [modifyIsland, getIsland, List.getD_eq_getElem?_getD, List.getElem?_set, h]

theorem getIsland_modifyIsland_ne (b : HBoard) (k : Nat) (f : HIsland → HIsland)
    (i : Nat) (h : i ≠ k) : getIsland (modifyIsland b k f) i = getIsland b i := by
  simp [modifyIsland, getIsland, List.getD_eq_getElem?_getD,
        List.getElem?_set_ne (fun he => h he.symm)]

theorem connections_modifyIsland (b : HBoard) (k : Nat) (f : HIsland → HIsland) :
    (modifyIsland b k f).connections = b.connections := rfl

theorem islands_length_modifyIsland (b : HBoard) (k : Nat) (f : HIsland → HIsland) :
    (modifyIsland b k f).islands.length = b.islands.length := by
  simp [modifyIsland]

theorem insert_crosselem_islands (b : HBoard) (c e : ConnRef) :
    (insert_crosselem b c e).islands = b.islands := by
  cases c <;> rfl

theorem insert_crosselem_conn_length (b : HBoard) (c e : ConnRef) :
    (insert_crosselem b c e).connections.length = b.connections.length := by
  cases c <;> simp [insert_crosselem]

theorem insert_crosselem_rows (b : HBoard) (c e : ConnRef) :
    (insert_crosselem b c e).rows = b.rows := by
  cases c <;> rfl

theorem insert_crosselem_cols (b : HBoard) (c e : ConnRef) :
    (insert_crosselem b c e).cols = b.cols := by
  cases c <;> rfl

theorem refBridges_insert_crosselem (b : HBoard) (c e x : ConnRef) :
    refBridges (insert_crosselem b c e) x = refBridges b x := by
  cases c with
  | none => cases x <;> rfl
  | some j =>
      cases x with
      | none => rfl
      | some k =>
          by_cases hjk : j = k
          · subst hjk
            rcases Nat.lt_or_ge j b.connections.length with h | h
            · simp [refBridges, insert_crosselem, getConn, List.getD_eq_getElem?_getD,
                    List.getElem?_set, h]
            · simp [refBridges, insert_crosselem, List.set_eq_of_length_le h]
          · simp [refBridges, insert_crosselem, getConn, List.getD_eq_getElem?_getD,
                  List.getElem?_set_ne hjk]

theorem connEnd1_insert_crosselem (b : HBoard) (c e x : ConnRef) :
    connEnd1 (insert_crosselem b c e) x = connEnd1 b x := by
  cases c with
  | none => cases x <;> rfl
  | some j =>
      cases x with
      | none => rfl
      | some k =>
          by_cases hjk : j = k
          · subst hjk
            rcases Nat.lt_or_ge j b.connections.length with h | h
            · simp [connEnd1, insert_crosselem, getConn, List.getD_eq_getElem?_getD,
                    List.getElem?_set, h]
            · simp [connEnd1, insert_crosselem, List.set_eq_of_length_le h]
          · simp [connEnd1, insert_crosselem, getConn, List.getD_eq_getElem?_getD,
                  List.getElem?_set_ne hjk]

theorem connEnd2_insert_crosselem (b : HBoard) (c e x : ConnRef) :
    connEnd2 (insert_crosselem b c e) x = connEnd2 b x := by
  cases c with
  | none => cases x <;> rfl
  | some j =>
      cases x with
      | none => rfl
      | some k =>
          by_cases hjk : j = k
          · subst hjk
            rcases Nat.lt_or_ge j b.connections.length with h | h
            · simp [connEnd2, insert_crosselem, getConn, List.getD_eq_getElem?_getD,
                    List.getElem?_set, h]
            · simp [connEnd2, insert_crosselem, List.set_eq_of_length_le h]
          · simp [connEnd2, insert_crosselem, getConn, List.getD_eq_getElem?_getD,
                  List.getElem?_set_ne hjk]

theorem refPend_insert_crosselem (b : HBoard) (c e : ConnRef) (r : IslandRef) :
    refPend (insert_crosselem b c e) r = refPend b r := by
  cases c <;> cases r <;> rfl

theorem refCross_insert_crosselem_self (b : HBoard) (c e : ConnRef)
    (hc : validConnRef b c) :
    refCross (insert_crosselem b c e) c = e :: refCross b c := by
  cases c with
  | none => rfl
  | some j =>
      simp only [validConnRef] at hc
      simp [refCross, insert_crosselem, getConn, List.getD_eq_getElem?_getD,
            List.getElem?_set, hc]

theorem refCross_insert_crosselem_ne (b : HBoard) (c e x : ConnRef) (h : x ≠ c) :
    refCross (insert_crosselem b c e) x = refCross b x := by
  cases c with
  | none =>
      cases x with
      | none => exact absurd rfl h
      | some k => rfl
  | some j =>
      cases x with
      | none => rfl
      | some k =>
          have hjk : j ≠ k := fun he => h (by rw [he])
          simp [refCross, insert_crosselem, getConn, List.getD_eq_getElem?_getD,
                List.getElem?_set_ne hjk]

theorem cross_step_pres {γ : Type _} (g : HBoard → γ)
    (hg : ∀ b c e, g (insert_crosselem b c e) = g b)
    (uR dR col : Int) (cv : ConnRef) (b : HBoard) (k : Nat) :
    g (cross_step uR dR col cv b k) = g b := by
  unfold cross_step
  dsimp only
  split
  · cases hmatch : (getIsland b k).rightIsland with
    | none => rfl
    | some r =>
        dsimp only
        split
        · rw [hg, hg]
        · rfl
  · rfl

theorem crossFoldl_pres {γ : Type _} (g : HBoard → γ)
    (hg : ∀ b c e, g (insert_crosselem b c e) = g b)
    (uR dR col : Int) (cv : ConnRef) (L : List Nat) (b : HBoard) :
    g (L.foldl (fun bc k => cross_step uR dR col cv bc k) b) = g b := by
  induction L generalizing b with
  | nil => rfl
  | cons k L ih =>
      show g (L.foldl _ (cross_step _ _ _ _ b k)) = g b
      rw [ih (cross_step _ _ _ _ b k), cross_step_pres g hg]

theorem fill_crosses_pres {γ : Type _} (g : HBoard → γ)
    (hg : ∀ b c e, g (insert_crosselem b c e) = g b)
    (b : HBoard) (u d : Nat) : g (fill_crosses b u d) = g b := by
  unfold fill_crosses
  dsimp only
  exact crossFoldl_pres g hg _ _ _ _ _ b

theorem cross_step_mem (b : HBoard) (uR dR col : Int) (cv : ConnRef) (k : Nat)
    (hcv : validConnRef b cv)
    (hslot : ∀ r, (getIsland b k).rightIsland = some r →
      ∃ h, (getIsland b k).rightConn = some h ∧ h < b.connections.length ∧
        (some h : ConnRef) ≠ cv)
    (x y : ConnRef) :
    y ∈ refCross (cross_step uR dR col cv b k) x ↔
      y ∈ refCross b x ∨ (crossTrigger b uR dR col k ∧
        ((x = (getIsland b k).rightConn ∧ y = cv) ∨
         (x = cv ∧ y = (getIsland b k).rightConn))) := by
  unfold cross_step
  dsimp only
  split
  · rename_i hcond
    cases hmatch : (getIsland b k).rightIsland with
    | none =>
        dsimp only
        have hnt : ¬ crossTrigger b uR dR col k := by
          rintro ⟨_, _, _, r, hr, _⟩
          rw [hmatch] at hr
          exact Option.noConfusion hr
        simp [hnt]
    | some r =>
        dsimp only
        split
        · rename_i hcol
          have ht : crossTrigger b uR dR col k :=
            ⟨hcond.1, hcond.2.1, hcond.2.2, r, hmatch, hcol⟩
          obtain ⟨h, hh, hhlen, hhne⟩ := hslot r hmatch
          rw [hh]
          have hb1len : (insert_crosselem b (some h) cv).connections.length
              = b.connections.length := insert_crosselem_conn_length b _ cv
          by_cases hx1 : x = cv
          · rw [hx1, refCross_insert_crosselem_self (insert_crosselem b (some h) cv)
                cv (some h) (validConnRef_of_length b _ _ hb1len hcv),
                refCross_insert_crosselem_ne b (some h) cv cv (Ne.symm hhne)]
            have hhne' : (cv : ConnRef) ≠ some h := Ne.symm hhne
            simp only [List.mem_cons]
            tauto
          · rw [refCross_insert_crosselem_ne _ cv (some h) x hx1]
            by_cases hx2 : x = some h
            · rw [hx2, refCross_insert_crosselem_self b (some h) cv hhlen]
              rw [hx2] at hx1
              simp only [List.mem_cons]
              tauto
            · rw [refCross_insert_crosselem_ne b (some h) cv x hx2]
              tauto
        · rename_i hcol
          have hnt : ¬ crossTrigger b uR dR col k := by
            rintro ⟨_, _, _, r', hr', hcol'⟩
            rw [hmatch] at hr'
            cases hr'
            exact hcol hcol'
          simp [hnt]
  · rename_i hcond
    have hnt : ¬ crossTrigger b uR dR col k := by
      rintro ⟨h1, h2, h3, _⟩
      exact hcond ⟨h1, h2, h3⟩
    simp [hnt]

theorem crossFoldl_mem (uR dR col : Int) (cv : ConnRef) (L : List Nat) (b : HBoard)
    (hcv : validConnRef b cv)
    (hslot : ∀ k ∈ L, ∀ r, (getIsland b k).rightIsland = some r →
      ∃ h, (getIsland b k).rightConn = some h ∧ h < b.connections.length ∧
        (some h : ConnRef) ≠ cv)
    (x y : ConnRef) :
    y ∈ refCross (L.foldl (fun bc k => cross_step uR dR col cv bc k) b) x ↔
      y ∈ refCross b x ∨ ∃ k ∈ L, crossTrigger b uR dR col k ∧
        ((x = (getIsland b k).rightConn ∧ y = cv) ∨
         (x = cv ∧ y = (getIsland b k).rightConn)) := by
  induction L generalizing b with
  | nil => simp
  | cons k0 L ih =>
      show y ∈ refCross (L.foldl _ (cross_step uR dR col cv b k0)) x ↔ _
      have hisl : (cross_step uR dR col cv b k0).islands = b.islands :=
        cross_step_pres (fun bb => bb.islands) insert_crosselem_islands uR dR col cv b k0
      have hclen : (cross_step uR dR col cv b k0).connections.length
          = b.connections.length :=
        cross_step_pres (fun bb => bb.connections.length) insert_crosselem_conn_length
          uR dR col cv b k0
      have hgi : ∀ i, getIsland (cross_step uR dR col cv b k0) i = getIsland b i := by
        intro i
        unfold getIsland
        rw [hisl]
      have htr : ∀ k, crossTrigger (cross_step uR dR col cv b k0) uR dR col k ↔
          crossTrigger b uR dR col k := by
        intro k
        unfold crossTrigger
        rw [hgi k]
        constructor
        · rintro ⟨h1, h2, h3, r, hr, hc⟩
          exact ⟨h1, h2, h3, r, hr, by rw [hgi r] at hc; exact hc⟩
        · rintro ⟨h1, h2, h3, r, hr, hc⟩
          exact ⟨h1, h2, h3, r, hr, by rw [hgi r]; exact hc⟩
      rw [ih (cross_step uR dR col cv b k0)
            (validConnRef_of_length b _ _ hclen hcv)
            (by
              intro k hk r hr
              rw [hgi k] at hr ⊢
              obtain ⟨h, h1, h2, h3⟩ := hslot k (List.mem_cons_of_mem _ hk) r hr
              exact ⟨h, h1, by rw [hclen]; exact h2, h3⟩)]
      rw [cross_step_mem b uR dR col cv k0 hcv (hslot k0 (List.mem_cons_self _ _)) x y]
      constructor
      · rintro ((hm | ⟨ht, hp⟩) | ⟨k, hk, ht, hp⟩)
        · exact Or.inl hm
        · exact Or.inr ⟨k0, List.mem_cons_self _ _, ht, hp⟩
        · rw [htr k] at ht
          rw [hgi k] at hp
          exact Or.inr ⟨k, List.mem_cons_of_mem _ hk, ht, hp⟩
      · rintro (hm | ⟨k, hk, ht, hp⟩)
        · exact Or.inl (Or.inl hm)
        · rcases List.mem_cons.mp hk with rfl | hk'
          · exact Or.inl (Or.inr ⟨ht, hp⟩)
          · refine Or.inr ⟨k, hk', ?_, ?_⟩
            · rw [htr k]
              exact ht
            · rw [hgi k]
              exact hp

theorem find_up_scan_some (b : HBoard) (c : Int) (m : Nat) (u : Nat)
    (h : find_up_scan b c m = some u) :
    u < m ∧ colOf b u = c ∧ ∀ k, u < k → k < m → colOf b k ≠ c := by
  induction m with
  | zero => exact absurd h (by simp [find_up_scan])
  | succ m ih =>
      unfold find_up_scan at h
      split at h
      · rename_i hc
        cases h
        exact ⟨Nat.lt_succ_self _, hc, fun k hk1 hk2 => absurd hk2 (by omega)⟩
      · rename_i hc
        obtain ⟨h1, h2, h3⟩ := ih h
        refine ⟨by omega, h2, fun k hk1 hk2 => ?_⟩
        rcases Nat.lt_or_ge k m with hk | hk
        · exact h3 k hk1 hk
        · have : k = m := by omega
          subst this
          exact hc

theorem find_up_scan_none (b : HBoard) (c : Int) (m : Nat)
    (h : find_up_scan b c m = none) : ∀ k < m, colOf b k ≠ c := by
  induction m with
  | zero => intro k hk; omega
  | succ m ih =>
      unfold find_up_scan at h
      split at h
      · exact absurd h (by simp)
      · rename_i hc
        intro k hk
        rcases Nat.lt_or_ge k m with hk2 | hk2
        · exact ih h k hk2
        · have : k = m := by omega
          subst this
          exact hc

theorem add_island_pos (b : HBoard) (row col e : Int)
    (hok : add_island_ok b row col e) :
    add_island b row col e = (true, fill_connections (appendBoard b row col e)) := by
  obtain ⟨ha, hb, hc, hd, he, hf, hg⟩ := hok
  simp only [CHAR_MAX, MAX_EXPECTED_BRIDGES] at hc hd hg
  simp only [rowOf, colOf] at he
  unfold add_island
  simp only [CHAR_MAX, MAX_EXPECTED_BRIDGES]
  rw [if_neg (by omega), if_neg (by omega), if_neg (by omega),
      if_neg (by rintro ⟨hlen, hord⟩; have := he hlen; omega),
      if_neg (by omega)]
  rfl

theorem add_island_neg (b : HBoard) (row col e : Int)
    (hnot : ¬ add_island_ok b row col e) :
    add_island b row col e = (false, b) := by
  unfold add_island
  by_cases g1 : row < 0 ∨ col < 0
  · rw [if_pos g1]
  · rw [if_neg g1]
    by_cases g2 : row ≥ CHAR_MAX
    · rw [if_pos g2]
    · rw [if_neg g2]
      by_cases g3 : col ≥ CHAR_MAX
      · rw [if_pos g3]
      · rw [if_neg g3]
        by_cases g4 : 0 < b.islands.length ∧
          (row < (getIsland b (b.islands.length - 1)).row ∨
           (row = (getIsland b (b.islands.length - 1)).row ∧
            col ≤ (getIsland b (b.islands.length - 1)).col))
        · rw [if_pos g4]
        · rw [if_neg g4]
          by_cases g5 : e < 1 ∨ e > MAX_EXPECTED_BRIDGES
          · rw [if_pos g5]
          · exfalso
            apply hnot
            simp only [CHAR_MAX, MAX_EXPECTED_BRIDGES] at g2 g3 g5
            refine ⟨by omega, by omega,
              by simp only [CHAR_MAX]; omega, by simp only [CHAR_MAX]; omega, ?_,
              by omega, by simp only [MAX_EXPECTED_BRIDGES]; omega⟩
            intro hlen
            simp only [rowOf, colOf]
            rcases Decidable.em (row < (getIsland b (b.islands.length - 1)).row ∨
              (row = (getIsland b (b.islands.length - 1)).row ∧
                col ≤ (getIsland b (b.islands.length - 1)).col)) with hd | hd
            · exact absurd ⟨hlen, hd⟩ g4
            · omega

theorem add_island_fst (b : HBoard) (row col e : Int) :
    (add_island b row col e).1 = true ↔ add_island_ok b row col e := by
  by_cases hok : add_island_ok b row col e
  · rw [add_island_pos b row col e hok]
    simp [hok]
  · rw [add_island_neg b row col e hok]
    simp [hok]

theorem getIsland_appendBoard_old (b : HBoard) (row col e : Int) (i : Nat)
    (h : i < b.islands.length) :
    getIsland (appendBoard b row col e) i = getIsland b i := by
  simp only [appendBoard, getIsland]
  exact List.getD_append _ _ _ _ h

theorem getIsland_appendBoard_new (b : HBoard) (row col e : Int) :
    getIsland (appendBoard b row col e) b.islands.length =
      { pendbridges := e, expectbridges := e, row := row, col := col,
        upIsland := none, leftIsland := none, rightIsland := none,
        downIsland := none, upConn := none, leftConn := none,
        rightConn := none, downConn := none } := by
  simp only [appendBoard, getIsland]
  rw [List.getD_append_right _ _ _ _ (Nat.le_refl _)]
  simp

theorem appendBoard_islands_length (b : HBoard) (row col e : Int) :
    (appendBoard b row col e).islands.length = b.islands.length + 1 := by
  simp [appendBoard]

theorem appendBoard_connections (b : HBoard) (row col e : Int) :
    (appendBoard b row col e).connections = b.connections := rfl

theorem getConn_append_old (b : HBoard) (cn : HConnection) (j : Nat)
    (h : j < b.connections.length) :
    getConn { b with connections := b.connections ++ [cn] } j = getConn b j := by
  simp only [getConn]
  exact List.getD_append _ _ _ _ h

theorem getConn_append_new (b : HBoard) (cn : HConnection) :
    getConn { b with connections := b.connections ++ [cn] } b.connections.length = cn := by
  simp only [getConn]
  rw [List.getD_append_right _ _ _ _ (Nat.le_refl _)]
  simp

theorem islandConn_modifyIsland_ne (b : HBoard) (k : Nat) (f : HIsland → HIsland)
    (i d : Nat) (h : i ≠ k) :
    islandConn (modifyIsland b k f) i d = islandConn b i d := by
  unfold islandConn
  rw [getIsland_modifyIsland_ne b k f i h]

theorem islandConn_modifyIsland_self (b : HBoard) (k : Nat) (f : HIsland → HIsland)
    (d : Nat) (h : k < b.islands.length) :
    islandConn (modifyIsland b k f) k d = (f (getIsland b k)).connAt d := by
  unfold islandConn
  rw [getIsland_modifyIsland_self b k f h]

theorem islandNb_modifyIsland_ne (b : HBoard) (k : Nat) (f : HIsland → HIsland)
    (i d : Nat) (h : i ≠ k) :
    islandNb (modifyIsland b k f) i d = islandNb b i d := by
  unfold islandNb
  rw [getIsland_modifyIsland_ne b k f i h]

theorem islandNb_modifyIsland_self (b : HBoard) (k : Nat) (f : HIsland → HIsland)
    (d : Nat) (h : k < b.islands.length) :
    islandNb (modifyIsland b k f) k d = (f (getIsland b k)).islandAt d := by
  unfold islandNb
  rw [getIsland_modifyIsland_self b k f h]

theorem rowOf_modifyIsland (b : HBoard) (k : Nat) (f : HIsland → HIsland)
    (hf : ∀ s, (f s).row = s.row) (i : Nat) :
    rowOf (modifyIsland b k f) i = rowOf b i := by
  unfold rowOf
  by_cases hik : i = k
  · subst hik
    rcases Nat.lt_or_ge i b.islands.length with h | h
    · rw [getIsland_modifyIsland_self b i f h, hf]
    · rw [modifyIsland_out b i f h]
  · rw [getIsland_modifyIsland_ne b k f i hik]

theorem colOf_modifyIsland (b : HBoard) (k : Nat) (f : HIsland → HIsland)
    (hf : ∀ s, (f s).col = s.col) (i : Nat) :
    colOf (modifyIsland b k f) i = colOf b i := by
  unfold colOf
  by_cases hik : i = k
  · subst hik
    rcases Nat.lt_or_ge i b.islands.length with h | h
    · rw [getIsland_modifyIsland_self b i f h, hf]
    · rw [modifyIsland_out b i f h]
  · rw [getIsland_modifyIsland_ne b k f i hik]

theorem islandExpect_modifyIsland (b : HBoard) (k : Nat) (f : HIsland → HIsland)
    (hf : ∀ s, (f s).expectbridges = s.expectbridges) (i : Nat) :
    islandExpect (modifyIsland b k f) i = islandExpect b i := by
  unfold islandExpect
  by_cases hik : i = k
  · subst hik
    rcases Nat.lt_or_ge i b.islands.length with h | h
    · rw [getIsland_modifyIsland_self b i f h, hf]
    · rw [modifyIsland_out b i f h]
  · rw [getIsland_modifyIsland_ne b k f i hik]

theorem refPend_modifyIsland (b : HBoard) (k : Nat) (f : HIsland → HIsland)
    (hf : ∀ s, (f s).pendbridges = s.pendbridges) (r : IslandRef) :
    refPend (modifyIsland b k f) r = refPend b r := by
  cases r with
  | none => rfl
  | some i =>
      show (getIsland (modifyIsland b k f) i).pendbridges = (getIsland b i).pendbridges
      by_cases hik : i = k
      · subst hik
        rcases Nat.lt_or_ge i b.islands.length with h | h
        · rw [getIsland_modifyIsland_self b i f h, hf]
        · rw [modifyIsland_out b i f h]
      · rw [getIsland_modifyIsland_ne b k f i hik]

theorem connE1_insert_crosselem (b : HBoard) (c e : ConnRef) (j : Nat) :
    connE1 (insert_crosselem b c e) j = connE1 b j := by
  have h := connEnd1_insert_crosselem b c e (some j)
  simp only [connEnd1] at h
  exact Option.some_injective _ h

theorem connE2_insert_crosselem (b : HBoard) (c e : ConnRef) (j : Nat) :
    connE2 (insert_crosselem b c e) j = connE2 b j := by
  have h := connEnd2_insert_crosselem b c e (some j)
  simp only [connEnd2] at h
  exact Option.some_injective _ h

theorem find_up_scan_congr (b b' : HBoard) (c : Int) (m : Nat)
    (h : ∀ k < m, colOf b' k = colOf b k) : find_up_scan b' c m = find_up_scan b c m := by
  induction m with
  | zero => rfl
  | succ m ih =>
      unfold find_up_scan
      have hc := h m (Nat.lt_succ_self m)
      unfold colOf at hc
      rw [hc]
      split
      · rfl
      · exact ih (fun k hk => h k (Nat.lt_succ_of_lt hk))

theorem sorted_index_lt (b : HBoard)
    (hsorted : ∀ i1 i2, i1 < i2 → i2 < b.islands.length →
      rowOf b i1 < rowOf b i2 ∨ (rowOf b i1 = rowOf b i2 ∧ colOf b i1 < colOf b i2))
    (i1 i2 : Nat) (h1 : i1 < b.islands.length) (_h2 : i2 < b.islands.length)
    (h : rowOf b i1 < rowOf b i2 ∨ (rowOf b i1 = rowOf b i2 ∧ colOf b i1 < colOf b i2)) :
    i1 < i2 := by
  rcases Nat.lt_trichotomy i1 i2 with hlt | heq | hgt
  · exact hlt
  · subst heq
    omega
  · have := hsorted i2 i1 hgt h1
    omega

theorem refBridges_connAppend_old (b : HBoard) (cn : HConnection) (j : Nat)
    (h : j < b.connections.length) :
    refBridges { b with connections := b.connections ++ [cn] } (some j) =
      refBridges b (some j) := by
  show (getConn _ j).bridges = (getConn b j).bridges
  rw [getConn_append_old b cn j h]

theorem refBridges_connAppend_new (b : HBoard) (cn : HConnection) :
    refBridges { b with connections := b.connections ++ [cn] } (some b.connections.length) =
      cn.bridges := by
  show (getConn _ _).bridges = cn.bridges
  rw [getConn_append_new b cn]

theorem connE1_connAppend_old (b : HBoard) (cn : HConnection) (j : Nat)
    (h : j < b.connections.length) :
    connE1 { b with connections := b.connections ++ [cn] } j = connE1 b j := by
  show (getConn _ j).pendIsland1 = (getConn b j).pendIsland1
  rw [getConn_append_old b cn j h]

theorem connE1_connAppend_new (b : HBoard) (cn : HConnection) :
    connE1 { b with connections := b.connections ++ [cn] } b.connections.length =
      cn.pendIsland1 := by
  show (getConn _ _).pendIsland1 = cn.pendIsland1
  rw [getConn_append_new b cn]

theorem connE2_connAppend_old (b : HBoard) (cn : HConnection) (j : Nat)
    (h : j < b.connections.length) :
    connE2 { b with connections := b.connections ++ [cn] } j = connE2 b j := by
  show (getConn _ j).pendIsland2 = (getConn b j).pendIsland2
  rw [getConn_append_old b cn j h]

theorem connE2_connAppend_new (b : HBoard) (cn : HConnection) :
    connE2 { b with connections := b.connections ++ [cn] } b.connections.length =
      cn.pendIsland2 := by
  show (getConn _ _).pendIsland2 = cn.pendIsland2
  rw [getConn_append_new b cn]

theorem refCross_connAppend_old (b : HBoard) (cn : HConnection) (j : Nat)
    (h : j < b.connections.length) :
    refCross { b with connections := b.connections ++ [cn] } (some j) =
      refCross b (some j) := by
  show (getConn _ j).firstcross = (getConn b j).firstcross
  rw [getConn_append_old b cn j h]

theorem refCross_connAppend_new (b : HBoard) (cn : HConnection) :
    refCross { b with connections := b.connections ++ [cn] } (some b.connections.length) =
      cn.firstcross := by
  show (getConn _ _).firstcross = cn.firstcross
  rw [getConn_append_new b cn]

theorem fill_crosses_islands (b : HBoard) (u d : Nat) :
    (fill_crosses b u d).islands = b.islands :=
  fill_crosses_pres (fun bb => bb.islands) insert_crosselem_islands b u d

theorem fill_crosses_conn_length (b : HBoard) (u d : Nat) :
    (fill_crosses b u d).connections.length = b.connections.length :=
  fill_crosses_pres (fun bb => bb.connections.length) insert_crosselem_conn_length b u d

theorem fill_crosses_refBridges (b : HBoard) (u d : Nat) (x : ConnRef) :
    refBridges (fill_crosses b u d) x = refBridges b x :=
  fill_crosses_pres (fun bb => refBridges bb x)
    (fun bb c e => refBridges_insert_crosselem bb c e x) b u d

theorem fill_crosses_connE1 (b : HBoard) (u d : Nat) (j : Nat) :
    connE1 (fill_crosses b u d) j = connE1 b j :=
  fill_crosses_pres (fun bb => connE1 bb j)
    (fun bb c e => connE1_insert_crosselem bb c e j) b u d

theorem fill_crosses_connE2 (b : HBoard) (u d : Nat) (j : Nat) :
    connE2 (fill_crosses b u d) j = connE2 b j :=
  fill_crosses_pres (fun bb => connE2 bb j)
    (fun bb c e => connE2_insert_crosselem bb c e j) b u d

theorem fill_crosses_refPend (b : HBoard) (u d : Nat) (r : IslandRef) :
    refPend (fill_crosses b u d) r = refPend b r :=
  fill_crosses_pres (fun bb => refPend bb r)
    (fun bb c e => refPend_insert_crosselem bb c e r) b u d

theorem fill_crosses_getIsland (b : HBoard) (u d : Nat) (i : Nat) :
    getIsland (fill_crosses b u d) i = getIsland b i := by
  unfold getIsland
  rw [fill_crosses_islands]

theorem fill_crosses_rows (b : HBoard) (u d : Nat) :
    (fill_crosses b u d).rows = b.rows :=
  fill_crosses_pres (fun bb => bb.rows) insert_crosselem_rows b u d

theorem fill_crosses_cols (b : HBoard) (u d : Nat) :
    (fill_crosses b u d).cols = b.cols :=
  fill_crosses_pres (fun bb => bb.cols) insert_crosselem_cols b u d

theorem W_up_none (b : HBoard) (nOld : Nat) (h : PreUp b nOld none) :
    SInv b ∧ Fresh b := by
  refine ⟨⟨h.sorted, h.posOK, h.expectOK, h.conn, h.slotR, h.slotL, h.slotD, ?_,
    h.crossSound, h.crossComplete, h.outCross⟩, h.freshB, h.freshP, h.freshPN, h.freshBN⟩
  intro i hi
  by_cases hin : i = nOld
  · subst hin
    exact Or.inl ⟨h.topU, h.topUI⟩
  · exact h.slotU i hi hin

theorem W_left_none (b : HBoard) (nOld : Nat) (U : IslandRef)
    (h : PreL b nOld none U) : PreUp b nOld U := by
  refine ⟨h.len, h.sorted, h.posOK, h.expectOK, h.rowMax, ?_, h.slotR, ?_, h.slotD,
    h.slotU, h.topU, h.topUI, h.crossSound, h.crossComplete, h.outCross,
    h.freshB, h.freshP, h.freshPN, h.freshBN, h.uFacts⟩
  · intro j hj
    obtain ⟨h1, h2, h3⟩ := h.conn j hj
    have hl := h.len
    exact ⟨by omega, by omega, h3⟩
  · intro i hi
    by_cases hin : i = nOld
    · subst hin
      exact Or.inl ⟨h.topL, h.topLI⟩
    · exact h.slotL i hi hin

theorem W0 (b : HBoard) (row col e : Int) (L U : IslandRef)
    (hs : SInv b) (hf : Fresh b)
    (hr0 : 0 ≤ row) (hc0 : 0 ≤ col)
    (hord : 0 < b.islands.length →
      (rowOf b (b.islands.length - 1) < row ∨
       (rowOf b (b.islands.length - 1) = row ∧ colOf b (b.islands.length - 1) < col)))
    (he1 : 1 ≤ e) (he8 : e ≤ 8)
    (hLf : L = none ∨ (L = some (b.islands.length - 1) ∧ 0 < b.islands.length ∧
        rowOf b (b.islands.length - 1) = row ∧ colOf b (b.islands.length - 1) < col))
    (hUf : U = none ∨ (∃ ui, U = some ui ∧ ui < b.islands.length ∧ colOf b ui = col ∧
        (∀ k, ui < k → k < b.islands.length → colOf b k ≠ col)))
    (B : HBoard)
    (hB : B = modifyIsland (appendBoard b row col e) b.islands.length (fun isl =>
      { pendbridges := isl.pendbridges, expectbridges := isl.expectbridges,
        row := isl.row, col := isl.col, upIsland := U, leftIsland := L,
        rightIsland := none, downIsland := none, upConn := none,
        leftConn := none, rightConn := none, downConn := none })) :
    PreL B b.islands.length L U := by
  obtain ⟨hsort, hpos, hexp, hconn, hslotR, hslotL, hslotD, hslotU, hcsound, hccomp, houtc⟩ := hs
  obtain ⟨hfb, hfp, hfpn, hfbn⟩ := hf
  have hblen : B.islands.length = b.islands.length + 1 := by
    rw [hB, islands_length_modifyIsland, appendBoard_islands_length]
  have hold : ∀ i, i < b.islands.length → getIsland B i = getIsland b i := by
    intro i hi
    rw [hB, getIsland_modifyIsland_ne _ _ _ _ (by omega),
        getIsland_appendBoard_old _ _ _ _ _ hi]
  have hnew : getIsland B b.islands.length =
      { pendbridges := e, expectbridges := e, row := row, col := col,
        upIsland := U, leftIsland := L, rightIsland := none, downIsland := none,
        upConn := none, leftConn := none, rightConn := none, downConn := none } := by
    rw [hB, getIsland_modifyIsland_self _ _ _
        (by rw [appendBoard_islands_length]; omega), getIsland_appendBoard_new]
  have hconnsB : B.connections = b.connections := by
    rw [hB]
    rfl
  have hgc : ∀ j, getConn B j = getConn b j := by
    intro j
    unfold getConn
    rw [hconnsB]
  have hrow : ∀ i, i < b.islands.length → rowOf B i = rowOf b i := by
    intro i hi
    unfold rowOf
    rw [hold i hi]
  have hcol : ∀ i, i < b.islands.length → colOf B i = colOf b i := by
    intro i hi
    unfold colOf
    rw [hold i hi]
  have hrowN : rowOf B b.islands.length = row := by
    unfold rowOf
    rw [hnew]
  have hcolN : colOf B b.islands.length = col := by
    unfold colOf
    rw [hnew]
  have hexpB : ∀ i, i < b.islands.length → islandExpect B i = islandExpect b i := by
    intro i hi
    unfold islandExpect
    rw [hold i hi]
  have hexpN : islandExpect B b.islands.length = e := by
    unfold islandExpect
    rw [hnew]
  have hpend : ∀ i, i < b.islands.length → refPend B (some i) = refPend b (some i) := by
    intro i hi
    show (getIsland B i).pendbridges = (getIsland b i).pendbridges
    rw [hold i hi]
  have hpendN : refPend B (some b.islands.length) = e := by
    show (getIsland B b.islands.length).pendbridges = e
    rw [hnew]
  have hIC : ∀ i d, i < b.islands.length → islandConn B i d = islandConn b i d := by
    intro i d hi
    unfold islandConn
    rw [hold i hi]
  have hNb : ∀ i d, i < b.islands.length → islandNb B i d = islandNb b i d := by
    intro i d hi
    unfold islandNb
    rw [hold i hi]
  have hE1 : ∀ j, connE1 B j = connE1 b j := by
    intro j
    unfold connE1
    rw [hgc]
  have hE2 : ∀ j, connE2 B j = connE2 b j := by
    intro j
    unfold connE2
    rw [hgc]
  have hBr : ∀ j, refBridges B (some j) = refBridges b (some j) := by
    intro j
    show (getConn B j).bridges = (getConn b j).bridges
    rw [hgc]
  have hCr : ∀ j, refCross B (some j) = refCross b (some j) := by
    intro j
    show (getConn B j).firstcross = (getConn b j).firstcross
    rw [hgc]
  have hCrN : refCross B none = refCross b none := by
    show B.outFirstcross = b.outFirstcross
    rw [hB]
    rfl
  have hHorz : ∀ j, j < b.connections.length → (connHorz B j ↔ connHorz b j) := by
    intro j hj
    obtain ⟨he1j, he2j, _⟩ := hconn j hj
    unfold connHorz
    rw [hE1, hE2, hrow _ he1j, hrow _ he2j, hcol _ he1j, hcol _ he2j,
        hIC _ _ he1j, hIC _ _ he2j, hNb _ _ he1j, hNb _ _ he2j]
  have hVert : ∀ j, j < b.connections.length → (connVert B j ↔ connVert b j) := by
    intro j hj
    obtain ⟨he1j, he2j, _⟩ := hconn j hj
    unfold connVert
    rw [hE1, hE2, hrow _ he1j, hrow _ he2j, hcol _ he1j, hcol _ he2j,
        hIC _ _ he1j, hIC _ _ he2j, hNb _ _ he1j, hNb _ _ he2j]
  have hGeom : ∀ v h, v < b.connections.length → h < b.connections.length →
      (geomCross B v h ↔ geomCross b v h) := by
    intro v h hv hh
    obtain ⟨hv1, hv2, _⟩ := hconn v hv
    obtain ⟨hh1, hh2, _⟩ := hconn h hh
    unfold geomCross
    simp only [hE1, hE2]
    rw [hrow _ hv1, hrow _ hh1, hrow _ hv2,
        hcol _ hh1, hcol _ hv1, hcol _ hh2]
  have hrowsB : B.rows = if b.rows ≤ row then row + 1 else b.rows := by
    rw [hB]
    rfl
  have hcolsB : B.cols = if b.cols ≤ col then col + 1 else b.cols := by
    rw [hB]
    rfl
  -- lex order of every old island below the new one
  have hlex : ∀ i, i < b.islands.length →
      rowOf b i < row ∨ (rowOf b i = row ∧ colOf b i < col) := by
    intro i hi
    have hpos0 : 0 < b.islands.length := by omega
    have h1 := hord hpos0
    rcases Nat.lt_or_ge i (b.islands.length - 1) with hi2 | hi2
    · have h2 := hsort i (b.islands.length - 1) hi2 (by omega)
      rcases h1 with ha | ⟨ha, hb⟩ <;> rcases h2 with hc | ⟨hc, hd⟩
      · left; omega
      · left; omega
      · left; omega
      · right; constructor <;> omega
    · have : i = b.islands.length - 1 := by omega
      subst this
      exact h1
  refine ⟨hblen, ?_, ?_, ?_, ?_, ?_, ?_, ?_, ?_, ?_, ?_, ?_, ?_, ?_, ?_, ?_, ?_,
    ?_, ?_, ?_, ?_, ?_, ?_, ?_, ?_, ?_, ?_⟩
  · -- sorted
    intro i1 i2 h12 h2l
    rw [hblen] at h2l
    rcases Nat.lt_or_ge i2 b.islands.length with hi2 | hi2
    · rw [hrow _ (by omega), hrow _ hi2, hcol _ (by omega), hcol _ hi2]
      exact hsort i1 i2 h12 hi2
    · have : i2 = b.islands.length := by omega
      subst this
      rw [hrow _ (by omega), hcol _ (by omega), hrowN, hcolN]
      exact hlex i1 (by omega)
  · -- posOK
    intro i hi
    rw [hblen] at hi
    rcases Nat.lt_or_ge i b.islands.length with hil | hil
    · obtain ⟨h1, h2, h3, h4⟩ := hpos i hil
      rw [hrow _ hil, hcol _ hil, hrowsB, hcolsB]
      refine ⟨h1, ?_, h3, ?_⟩
      · split <;> omega
      · split <;> omega
    · have : i = b.islands.length := by omega
      subst this
      rw [hrowN, hcolN, hrowsB, hcolsB]
      refine ⟨hr0, ?_, hc0, ?_⟩
      · split <;> omega
      · split <;> omega
  · -- expectOK
    intro i hi
    rw [hblen] at hi
    rcases Nat.lt_or_ge i b.islands.length with hil | hil
    · rw [hexpB _ hil]
      exact hexp i hil
    · have : i = b.islands.length := by omega
      subst this
      rw [hexpN]
      omega
  · -- rowMax
    intro i hi
    rw [hblen] at hi
    rw [hrowN]
    rcases Nat.lt_or_ge i b.islands.length with hil | hil
    · rw [hrow _ hil]
      have := hlex i hil
      omega
    · have : i = b.islands.length := by omega
      subst this
      rw [hrowN]
  · -- conn
    intro j hj
    rw [hconnsB] at hj
    obtain ⟨h1, h2, h3⟩ := hconn j hj
    rw [hE1, hE2]
    refine ⟨h1, h2, ?_⟩
    rcases h3 with h3 | h3
    · exact Or.inl ((hHorz j hj).mpr h3)
    · exact Or.inr ((hVert j hj).mpr h3)
  · -- slotR
    intro i hi
    rw [hblen] at hi
    rcases Nat.lt_or_ge i b.islands.length with hil | hil
    · rw [hIC _ _ hil, hNb _ _ hil]
      rcases hslotR i hil with h | ⟨j, h1, h2, h3, h4, h5⟩
      · exact Or.inl h
      · refine Or.inr ⟨j, h1, by rw [hconnsB]; exact h2, by rw [hE1]; exact h3,
          (hHorz j h2).mpr h4, by rw [hE2]; exact h5⟩
    · have : i = b.islands.length := by omega
      subst this
      left
      constructor
      · show (getIsland B b.islands.length).connAt RIGHT = none
        rw [hnew]
        rfl
      · show (getIsland B b.islands.length).islandAt RIGHT = none
        rw [hnew]
        rfl
  · -- slotL
    intro i hi hine
    rw [hblen] at hi
    have hil : i < b.islands.length := by omega
    rw [hIC _ _ hil, hNb _ _ hil]
    rcases hslotL i hil with h | ⟨j, h1, h2, h3, h4, h5⟩
    · exact Or.inl h
    · refine Or.inr ⟨j, h1, by rw [hconnsB]; exact h2, by rw [hE2]; exact h3,
        (hHorz j h2).mpr h4, by rw [hE1]; exact h5⟩
  · -- slotD
    intro i hi
    rw [hblen] at hi
    rcases Nat.lt_or_ge i b.islands.length with hil | hil
    · rw [hIC _ _ hil, hNb _ _ hil]
      rcases hslotD i hil with h | ⟨j, h1, h2, h3, h4, h5⟩
      · exact Or.inl h
      · refine Or.inr ⟨j, h1, by rw [hconnsB]; exact h2, by rw [hE1]; exact h3,
          (hVert j h2).mpr h4, by rw [hE2]; exact h5⟩
    · have : i = b.islands.length := by omega
      subst this
      left
      constructor
      · show (getIsland B b.islands.length).connAt DOWN = none
        rw [hnew]
        rfl
      · show (getIsland B b.islands.length).islandAt DOWN = none
        rw [hnew]
        rfl
  · -- slotU
    intro i hi hine
    rw [hblen] at hi
    have hil : i < b.islands.length := by omega
    rw [hIC _ _ hil, hNb _ _ hil]
    rcases hslotU i hil with h | ⟨j, h1, h2, h3, h4, h5⟩
    · exact Or.inl h
    · refine Or.inr ⟨j, h1, by rw [hconnsB]; exact h2, by rw [hE2]; exact h3,
        (hVert j h2).mpr h4, by rw [hE1]; exact h5⟩
  · -- topL
    show (getIsland B b.islands.length).connAt LEFT = none
    rw [hnew]
    rfl
  · -- topLI
    show (getIsland B b.islands.length).islandAt LEFT = L
    rw [hnew]
    rfl
  · -- topU
    show (getIsland B b.islands.length).connAt UP = none
    rw [hnew]
    rfl
  · -- topUI
    show (getIsland B b.islands.length).islandAt UP = U
    rw [hnew]
    rfl
  · -- topR
    show (getIsland B b.islands.length).connAt RIGHT = none
    rw [hnew]
    rfl
  · -- topRI
    show (getIsland B b.islands.length).islandAt RIGHT = none
    rw [hnew]
    rfl
  · -- topD
    show (getIsland B b.islands.length).connAt DOWN = none
    rw [hnew]
    rfl
  · -- topDI
    show (getIsland B b.islands.length).islandAt DOWN = none
    rw [hnew]
    rfl
  · -- crossSound
    intro j hj r hr
    rw [hconnsB] at hj
    rw [hCr] at hr
    obtain ⟨k, hrk, hklen, hkin, hdesc⟩ := hcsound j hj r hr
    refine ⟨k, hrk, by rw [hconnsB]; exact hklen, by rw [hCr]; exact hkin, ?_⟩
    rcases hdesc with ⟨ha, hb, hc⟩ | ⟨ha, hb, hc⟩
    · exact Or.inl ⟨(hVert j hj).mpr ha, (hHorz k hklen).mpr hb,
        (hGeom j k hj hklen).mpr hc⟩
    · exact Or.inr ⟨(hHorz j hj).mpr ha, (hVert k hklen).mpr hb,
        (hGeom k j hklen hj).mpr hc⟩
  · -- crossComplete
    intro v h hv hh hvert hhorz hgeom
    rw [hconnsB] at hv hh
    have h1 := hccomp v h hv hh ((hVert v hv).mp hvert) ((hHorz h hh).mp hhorz)
      ((hGeom v h hv hh).mp hgeom)
    rw [hCr, hCr]
    exact h1
  · -- outCross
    rw [hCrN]
    exact houtc
  · -- freshB
    intro j hj
    rw [hconnsB] at hj
    rw [hBr]
    exact hfb j hj
  · -- freshP
    intro i hi
    rw [hblen] at hi
    rcases Nat.lt_or_ge i b.islands.length with hil | hil
    · rw [hpend _ hil, hexpB _ hil]
      exact hfp i hil
    · have : i = b.islands.length := by omega
      subst this
      rw [hpendN, hexpN]
  · -- freshPN
    show B.outPendbridges = 0
    rw [hB]
    exact hfpn
  · -- freshBN
    show B.outBridges = 0
    rw [hB]
    exact hfbn
  · -- lFacts
    rcases hLf with h | ⟨hLs, hpos0, hrowp, hcolp⟩
    · exact Or.inl h
    · right
      refine ⟨hLs, hpos0, ?_, ?_, ?_, ?_⟩
      · rw [hrow _ (by omega), hrowN, hrowp]
      · rw [hcol _ (by omega), hcolN]
        exact hcolp
      · -- RIGHT slot of the previous island is still unwired
        rw [hIC _ _ (by omega)]
        rcases hslotR (b.islands.length - 1) (by omega) with h | ⟨j, h1, h2, h3, h4, h5⟩
        · exact h.1
        · exfalso
          obtain ⟨he1j, he2j, _⟩ := hconn j h2
          obtain ⟨hro, hco, _, _, _, _⟩ := h4
          rw [h3] at hro hco
          have := sorted_index_lt b hsort (b.islands.length - 1) (connE2 b j)
            (by omega) he2j (Or.inr ⟨hro, hco⟩)
          omega
      · rw [hNb _ _ (by omega)]
        rcases hslotR (b.islands.length - 1) (by omega) with h | ⟨j, h1, h2, h3, h4, h5⟩
        · exact h.2
        · exfalso
          obtain ⟨he1j, he2j, _⟩ := hconn j h2
          obtain ⟨hro, hco, _, _, _, _⟩ := h4
          rw [h3] at hro hco
          have := sorted_index_lt b hsort (b.islands.length - 1) (connE2 b j)
            (by omega) he2j (Or.inr ⟨hro, hco⟩)
          omega
  · -- uFacts
    rcases hUf with h | ⟨ui, hUs, huil, hcolu, hgap⟩
    · exact Or.inl h
    · right
      have hrowui : rowOf b ui < row := by
        have hl := hlex ui huil
        rcases hl with hl | ⟨hl1, hl2⟩
        · exact hl
        · exfalso
          rw [hcolu] at hl2
          omega
      refine ⟨ui, hUs, huil, ?_, ?_, ?_, ?_, ?_⟩
      · rw [hcol _ huil, hcolN]
        exact hcolu
      · rw [hrow _ huil, hrowN]
        exact hrowui
      · intro k hk1 hk2
        simp only [hcol _ hk2, hcolN]
        exact hgap k hk1 hk2
      · rw [hIC _ _ huil]
        rcases hslotD ui huil with h | ⟨j, h1, h2, h3, h4, h5⟩
        · exact h.1
        · exfalso
          obtain ⟨he1j, he2j, _⟩ := hconn j h2
          obtain ⟨hco, hro, _, _, _, _⟩ := h4
          rw [h3] at hco hro
          have hgt := sorted_index_lt b hsort ui (connE2 b j) huil he2j (Or.inl hro)
          have := hgap (connE2 b j) hgt he2j
          rw [← hco, hcolu] at this
          exact this rfl
      · rw [hNb _ _ huil]
        rcases hslotD ui huil with h | ⟨j, h1, h2, h3, h4, h5⟩
        · exact h.2
        · exfalso
          obtain ⟨he1j, he2j, _⟩ := hconn j h2
          obtain ⟨hco, hro, _, _, _, _⟩ := h4
          rw [h3] at hco hro
          have hgt := sorted_index_lt b hsort ui (connE2 b j) huil he2j (Or.inl hro)
          have := hgap (connE2 b j) hgt he2j
          rw [← hco, hcolu] at this
          exact this rfl

theorem W_left_some (b : HBoard) (nOld li : Nat) (U : IslandRef)
    (h : PreL b nOld (some li) U)
    (Z : HBoard)
    (hZ : Z = modifyIsland (modifyIsland
      { b with connections := b.connections ++
          [{ bridges := 0, firstcross := [], pendIsland1 := li, pendIsland2 := nOld }] }
      nOld (fun isl =>
        { pendbridges := isl.pendbridges, expectbridges := isl.expectbridges,
          row := isl.row, col := isl.col, upIsland := isl.upIsland,
          leftIsland := isl.leftIsland, rightIsland := isl.rightIsland,
          downIsland := isl.downIsland, upConn := isl.upConn,
          leftConn := some b.connections.length, rightConn := isl.rightConn,
          downConn := isl.downConn }))
      li (fun isl =>
        { pendbridges := isl.pendbridges, expectbridges := isl.expectbridges,
          row := isl.row, col := isl.col, upIsland := isl.upIsland,
          leftIsland := isl.leftIsland, rightIsland := some nOld,
          downIsland := isl.downIsland, upConn := isl.upConn,
          leftConn := isl.leftConn, rightConn := some b.connections.length,
          downConn := isl.downConn })) :
    PreUp Z nOld U := by
  obtain ⟨hLs, hpos0, hrowli, hcolli, hRslot, hRslotI⟩ :=
    h.lFacts.resolve_left (by simp)
  have hline : li = nOld - 1 := Option.some_injective _ hLs
  rw [← hline] at hrowli hcolli hRslot hRslotI
  have hli : li < nOld := by omega
  have hlin : li ≠ nOld := by omega
  have hliL : li < b.islands.length := by
    have := h.len
    omega
  have hnOldL : nOld < b.islands.length := by
    have := h.len
    omega
  -- basic reads
  have hislands : ∀ i, i ≠ nOld → i ≠ li → getIsland Z i = getIsland b i := by
    intro i h1 h2
    rw [hZ, getIsland_modifyIsland_ne _ _ _ _ h2, getIsland_modifyIsland_ne _ _ _ _ h1]
    rfl
  have hgetn : getIsland Z nOld =
      { pendbridges := (getIsland b nOld).pendbridges,
        expectbridges := (getIsland b nOld).expectbridges,
        row := (getIsland b nOld).row, col := (getIsland b nOld).col,
        upIsland := (getIsland b nOld).upIsland,
        leftIsland := (getIsland b nOld).leftIsland,
        rightIsland := (getIsland b nOld).rightIsland,
        downIsland := (getIsland b nOld).downIsland,
        upConn := (getIsland b nOld).upConn,
        leftConn := some b.connections.length,
        rightConn := (getIsland b nOld).rightConn,
        downConn := (getIsland b nOld).downConn } := by
    rw [hZ, getIsland_modifyIsland_ne _ _ _ _ (Ne.symm hlin),
        getIsland_modifyIsland_self _ _ _ (by
          show nOld < _
          simp only [HBoard.islands]
          have := h.len
          omega)]
    rfl
  have hgetli : getIsland Z li =
      { pendbridges := (getIsland b li).pendbridges,
        expectbridges := (getIsland b li).expectbridges,
        row := (getIsland b li).row, col := (getIsland b li).col,
        upIsland := (getIsland b li).upIsland,
        leftIsland := (getIsland b li).leftIsland,
        rightIsland := some nOld,
        downIsland := (getIsland b li).downIsland,
        upConn := (getIsland b li).upConn,
        leftConn := (getIsland b li).leftConn,
        rightConn := some b.connections.length,
        downConn := (getIsland b li).downConn } := by
    rw [hZ, getIsland_modifyIsland_self _ _ _ (by
        rw [islands_length_modifyIsland]
        show li < _
        simp only [HBoard.islands]
        omega),
      getIsland_modifyIsland_ne _ _ _ _ hlin]
    rfl
  have hzlen : Z.islands.length = b.islands.length := by
    rw [hZ, islands_length_modifyIsland, islands_length_modifyIsland]
  have hzconns : Z.connections = b.connections ++
      [{ bridges := 0, firstcross := [], pendIsland1 := li, pendIsland2 := nOld }] := by
    rw [hZ]
    rfl
  have hzclen : Z.connections.length = b.connections.length + 1 := by
    rw [hzconns]
    simp
  have hgc_old : ∀ j, j < b.connections.length → getConn Z j = getConn b j := by
    intro j hj
    unfold getConn
    rw [hzconns]
    exact List.getD_append _ _ _ _ hj
  have hgc_new : getConn Z b.connections.length =
      { bridges := 0, firstcross := [], pendIsland1 := li, pendIsland2 := nOld } := by
    unfold getConn
    rw [hzconns, List.getD_append_right _ _ _ _ (Nat.le_refl _)]
    simp
  have hE1old : ∀ j, j < b.connections.length → connE1 Z j = connE1 b j := by
    intro j hj
    unfold connE1
    rw [hgc_old j hj]
  have hE2old : ∀ j, j < b.connections.length → connE2 Z j = connE2 b j := by
    intro j hj
    unfold connE2
    rw [hgc_old j hj]
  have hE1new : connE1 Z b.connections.length = li := by
    unfold connE1
    rw [hgc_new]
  have hE2new : connE2 Z b.connections.length = nOld := by
    unfold connE2
    rw [hgc_new]
  have hBrold : ∀ j, j < b.connections.length →
      refBridges Z (some j) = refBridges b (some j) := by
    intro j hj
    show (getConn Z j).bridges = (getConn b j).bridges
    rw [hgc_old j hj]
  have hBrnew : refBridges Z (some b.connections.length) = 0 := by
    show (getConn Z b.connections.length).bridges = 0
    rw [hgc_new]
  have hCrold : ∀ j, j < b.connections.length →
      refCross Z (some j) = refCross b (some j) := by
    intro j hj
    show (getConn Z j).firstcross = (getConn b j).firstcross
    rw [hgc_old j hj]
  have hCrnew : refCross Z (some b.connections.length) = [] := by
    show (getConn Z b.connections.length).firstcross = []
    rw [hgc_new]
  have hCrN : refCross Z none = refCross b none := by
    show Z.outFirstcross = b.outFirstcross
    rw [hZ]
    rfl
  have hrowZ : ∀ i, rowOf Z i = rowOf b i := by
    intro i
    unfold rowOf
    by_cases h1 : i = nOld
    · subst h1
      rw [hgetn]
    · by_cases h2 : i = li
      · subst h2
        rw [hgetli]
      · rw [hislands i h1 h2]
  have hcolZ : ∀ i, colOf Z i = colOf b i := by
    intro i
    unfold colOf
    by_cases h1 : i = nOld
    · subst h1
      rw [hgetn]
    · by_cases h2 : i = li
      · subst h2
        rw [hgetli]
      · rw [hislands i h1 h2]
  have hexpZ : ∀ i, islandExpect Z i = islandExpect b i := by
    intro i
    unfold islandExpect
    by_cases h1 : i = nOld
    · subst h1
      rw [hgetn]
    · by_cases h2 : i = li
      · subst h2
        rw [hgetli]
      · rw [hislands i h1 h2]
  have hPend : ∀ i, refPend Z (some i) = refPend b (some i) := by
    intro i
    show (getIsland Z i).pendbridges = (getIsland b i).pendbridges
    by_cases h1 : i = nOld
    · subst h1
      rw [hgetn]
    · by_cases h2 : i = li
      · subst h2
        rw [hgetli]
      · rw [hislands i h1 h2]
  have hPendN : refPend Z none = refPend b none := by
    show Z.outPendbridges = b.outPendbridges
    rw [hZ]
    rfl
  have hBrN : refBridges Z none = refBridges b none := by
    show Z.outBridges = b.outBridges
    rw [hZ]
    rfl
  have hrows : Z.rows = b.rows := by
    rw [hZ]
    rfl
  have hcols : Z.cols = b.cols := by
    rw [hZ]
    rfl
  have hICU : ∀ i, islandConn Z i UP = islandConn b i UP := by
    intro i
    unfold islandConn
    by_cases h1 : i = nOld
    · subst h1
      rw [hgetn]
      rfl
    · by_cases h2 : i = li
      · subst h2
        rw [hgetli]
        rfl
      · rw [hislands i h1 h2]
  have hICD : ∀ i, islandConn Z i DOWN = islandConn b i DOWN := by
    intro i
    unfold islandConn
    by_cases h1 : i = nOld
    · subst h1
      rw [hgetn]
      rfl
    · by_cases h2 : i = li
      · subst h2
        rw [hgetli]
        rfl
      · rw [hislands i h1 h2]
  have hICL : ∀ i, i ≠ nOld → islandConn Z i LEFT = islandConn b i LEFT := by
    intro i h1
    unfold islandConn
    by_cases h2 : i = li
    · subst h2
      rw [hgetli]
      rfl
    · rw [hislands i h1 h2]
  have hICR : ∀ i, i ≠ li → islandConn Z i RIGHT = islandConn b i RIGHT := by
    intro i h2
    unfold islandConn
    by_cases h1 : i = nOld
    · subst h1
      rw [hgetn]
      rfl
    · rw [hislands i h1 h2]
  have hNbU : ∀ i, islandNb Z i UP = islandNb b i UP := by
    intro i
    unfold islandNb
    by_cases h1 : i = nOld
    · subst h1
      rw [hgetn]
      rfl
    · by_cases h2 : i = li
      · subst h2
        rw [hgetli]
        rfl
      · rw [hislands i h1 h2]
  have hNbD : ∀ i, islandNb Z i DOWN = islandNb b i DOWN := by
    intro i
    unfold islandNb
    by_cases h1 : i = nOld
    · subst h1
      rw [hgetn]
      rfl
    · by_cases h2 : i = li
      · subst h2
        rw [hgetli]
        rfl
      · rw [hislands i h1 h2]
  have hNbL : ∀ i, islandNb Z i LEFT = islandNb b i LEFT := by
    intro i
    unfold islandNb
    by_cases h1 : i = nOld
    · subst h1
      rw [hgetn]
      rfl
    · by_cases h2 : i = li
      · subst h2
        rw [hgetli]
        rfl
      · rw [hislands i h1 h2]
  have hNbR : ∀ i, i ≠ li → islandNb Z i RIGHT = islandNb b i RIGHT := by
    intro i h2
    unfold islandNb
    by_cases h1 : i = nOld
    · subst h1
      rw [hgetn]
      rfl
    · rw [hislands i h1 h2]
  have hICLn : islandConn Z nOld LEFT = some b.connections.length := by
    unfold islandConn
    rw [hgetn]
    rfl
  have hICRli : islandConn Z li RIGHT = some b.connections.length := by
    unfold islandConn
    rw [hgetli]
    rfl
  have hNbRli : islandNb Z li RIGHT = some nOld := by
    unfold islandNb
    rw [hgetli]
    rfl
  have hVertIff : ∀ j, j < b.connections.length → (connVert Z j ↔ connVert b j) := by
    intro j hj
    unfold connVert
    rw [hE1old j hj, hE2old j hj, hrowZ, hrowZ, hcolZ, hcolZ, hICD, hICU, hNbD, hNbU]
  have hHorzIff : ∀ j, j < b.connections.length → (connHorz Z j ↔ connHorz b j) := by
    intro j hj
    obtain ⟨hj1, hj2, _⟩ := h.conn j hj
    by_cases hEli : connE1 b j = li
    · constructor
      · intro hh
        obtain ⟨_, _, _, hc4, _, _⟩ := hh
        rw [hE1old j hj, hEli, hICRli] at hc4
        have : b.connections.length = j := Option.some_injective _ hc4
        omega
      · intro hh
        obtain ⟨_, _, _, hc4, _, _⟩ := hh
        rw [hEli, hRslot] at hc4
        exact Option.noConfusion hc4
    · unfold connHorz
      rw [hE1old j hj, hE2old j hj, hrowZ, hrowZ, hcolZ, hcolZ,
          hICR _ hEli, hICL _ (by omega), hNbR _ hEli, hNbL]
  have hGeomIff : ∀ v hh, v < b.connections.length → hh < b.connections.length →
      (geomCross Z v hh ↔ geomCross b v hh) := by
    intro v hh hv hhl
    unfold geomCross
    rw [hE1old v hv, hE2old v hv, hE1old hh hhl, hE2old hh hhl]
    rw [hrowZ, hrowZ, hrowZ, hcolZ, hcolZ, hcolZ]
  have hHorzNew : connHorz Z b.connections.length := by
    unfold connHorz
    rw [hE1new, hE2new, hrowZ, hrowZ, hcolZ, hcolZ]
    exact ⟨hrowli, hcolli, hNbRli, hICRli, by rw [hNbL]; exact h.topLI,
      hICLn⟩
  refine ⟨?_, ?_, ?_, ?_, ?_, ?_, ?_, ?_, ?_, ?_, ?_, ?_, ?_, ?_, ?_, ?_, ?_, ?_,
    ?_, ?_⟩
  · rw [hzlen]
    exact h.len
  · intro i1 i2 h12 h2l
    rw [hzlen] at h2l
    rw [hrowZ, hrowZ, hcolZ, hcolZ]
    exact h.sorted i1 i2 h12 h2l
  · intro i hi
    rw [hzlen] at hi
    rw [hrowZ, hcolZ, hrows, hcols]
    exact h.posOK i hi
  · intro i hi
    rw [hzlen] at hi
    rw [hexpZ]
    exact h.expectOK i hi
  · intro i hi
    rw [hzlen] at hi
    rw [hrowZ, hrowZ]
    exact h.rowMax i hi
  · intro j hj
    rw [hzclen] at hj
    rcases Nat.lt_or_ge j b.connections.length with hjl | hjl
    · obtain ⟨h1, h2, h3⟩ := h.conn j hjl
      rw [hE1old j hjl, hE2old j hjl, hzlen]
      have := h.len
      refine ⟨by omega, by omega, ?_⟩
      rcases h3 with h3 | h3
      · exact Or.inl ((hHorzIff j hjl).mpr h3)
      · exact Or.inr ((hVertIff j hjl).mpr h3)
    · have : j = b.connections.length := by omega
      subst this
      rw [hE1new, hE2new, hzlen]
      have := h.len
      exact ⟨by omega, by omega, Or.inl hHorzNew⟩
  · -- slotR
    intro i hi
    rw [hzlen] at hi
    by_cases h2 : i = li
    · subst h2
      right
      exact ⟨b.connections.length, hICRli, by omega, hE1new, hHorzNew,
        by rw [hNbRli, hE2new]⟩
    · by_cases h1 : i = nOld
      · subst h1
        left
        rw [hICR _ (Ne.symm hlin), hNbR _ (Ne.symm hlin)]
        exact ⟨h.topR, h.topRI⟩
      · rcases h.slotR i hi with hc | ⟨j, hc1, hc2, hc3, hc4, hc5⟩
        · left
          rw [hICR _ h2, hNbR _ h2]
          exact hc
        · right
          refine ⟨j, by rw [hICR _ h2]; exact hc1, by omega,
            by rw [hE1old j hc2]; exact hc3, (hHorzIff j hc2).mpr hc4,
            by rw [hNbR _ h2, hE2old j hc2]; exact hc5⟩
  · -- slotL
    intro i hi
    rw [hzlen] at hi
    by_cases h1 : i = nOld
    · subst h1
      right
      refine ⟨b.connections.length, hICLn, by omega, hE2new, hHorzNew, ?_⟩
      rw [hNbL, hE1new]
      exact h.topLI
    · rcases h.slotL i hi h1 with hc | ⟨j, hc1, hc2, hc3, hc4, hc5⟩
      · left
        rw [hICL _ h1, hNbL]
        exact hc
      · right
        refine ⟨j, by rw [hICL _ h1]; exact hc1, by omega,
          by rw [hE2old j hc2]; exact hc3, (hHorzIff j hc2).mpr hc4,
          by rw [hNbL, hE1old j hc2]; exact hc5⟩
  · -- slotD
    intro i hi
    rw [hzlen] at hi
    rcases h.slotD i hi with hc | ⟨j, hc1, hc2, hc3, hc4, hc5⟩
    · left
      rw [hICD, hNbD]
      exact hc
    · right
      refine ⟨j, by rw [hICD]; exact hc1, by omega,
        by rw [hE1old j hc2]; exact hc3, (hVertIff j hc2).mpr hc4,
        by rw [hNbD, hE2old j hc2]; exact hc5⟩
  · -- slotU
    intro i hi hine
    rw [hzlen] at hi
    rcases h.slotU i hi hine with hc | ⟨j, hc1, hc2, hc3, hc4, hc5⟩
    · left
      rw [hICU, hNbU]
      exact hc
    · right
      refine ⟨j, by rw [hICU]; exact hc1, by omega,
        by rw [hE2old j hc2]; exact hc3, (hVertIff j hc2).mpr hc4,
        by rw [hNbU, hE1old j hc2]; exact hc5⟩
  · rw [hICU]
    exact h.topU
  · rw [hNbU]
    exact h.topUI
  · -- crossSound
    intro j hj r hr
    rw [hzclen] at hj
    rcases Nat.lt_or_ge j b.connections.length with hjl | hjl
    · rw [hCrold j hjl] at hr
      obtain ⟨k, hrk, hklen, hkin, hdesc⟩ := h.crossSound j hjl r hr
      refine ⟨k, hrk, by omega, by rw [hCrold k hklen]; exact hkin, ?_⟩
      rcases hdesc with ⟨ha, hb, hc⟩ | ⟨ha, hb, hc⟩
      · exact Or.inl ⟨(hVertIff j hjl).mpr ha, (hHorzIff k hklen).mpr hb,
          (hGeomIff j k hjl hklen).mpr hc⟩
      · exact Or.inr ⟨(hHorzIff j hjl).mpr ha, (hVertIff k hklen).mpr hb,
          (hGeomIff k j hklen hjl).mpr hc⟩
    · have : j = b.connections.length := by omega
      subst this
      rw [hCrnew] at hr
      exact absurd hr (List.not_mem_nil r)
  · -- crossComplete
    intro v hh hv hhl hvert hhorz hgeom
    rw [hzclen] at hv hhl
    rcases Nat.lt_or_ge v b.connections.length with hvl | hvl
    · rcases Nat.lt_or_ge hh b.connections.length with hhll | hhll
      · have := h.crossComplete v hh hvl hhll ((hVertIff v hvl).mp hvert)
          ((hHorzIff hh hhll).mp hhorz) ((hGeomIff v hh hvl hhll).mp hgeom)
        rw [hCrold v hvl, hCrold hh hhll]
        exact this
      · have : hh = b.connections.length := by omega
        subst this
        exfalso
        obtain ⟨hg1, hg2, _, _⟩ := hgeom
        rw [hE1new, hrowZ, hrowZ] at hg2
        obtain ⟨hv1, hv2, _⟩ := h.conn v hvl
        rw [hE2old v hvl] at hg2
        have hmax := h.rowMax (connE2 b v) (by have := h.len; omega)
        rw [hrowli] at hg2
        omega
    · have : v = b.connections.length := by omega
      subst this
      exfalso
      obtain ⟨hcv, _, _⟩ := hvert
      rw [hE1new, hE2new, hcolZ, hcolZ] at hcv
      omega
  · rw [hCrN]
    exact h.outCross
  · intro j hj
    rw [hzclen] at hj
    rcases Nat.lt_or_ge j b.connections.length with hjl | hjl
    · rw [hBrold j hjl]
      exact h.freshB j hjl
    · have : j = b.connections.length := by omega
      subst this
      exact hBrnew
  · intro i hi
    rw [hzlen] at hi
    rw [hPend, hexpZ]
    exact h.freshP i hi
  · rw [hPendN]
    exact h.freshPN
  · rw [hBrN]
    exact h.freshBN
  · -- uFacts
    rcases h.uFacts with hu | ⟨ui, hU, huil, hcolu, hrowu, hgap, hslot, hslotI⟩
    · exact Or.inl hu
    · right
      refine ⟨ui, hU, huil, ?_, ?_, ?_, ?_, ?_⟩
      · rw [hcolZ, hcolZ]
        exact hcolu
      · rw [hrowZ, hrowZ]
        exact hrowu
      · intro k hk1 hk2
        rw [hcolZ, hcolZ]
        exact hgap k hk1 hk2
      · rw [hICD]
        exact hslot
      · rw [hNbD]
        exact hslotI

theorem fill_crosses_mem (b : HBoard) (u d vj : Nat)
    (hud : u < d)
    (hcv : (getIsland b u).downConn = some vj)
    (hvj : vj < b.connections.length)
    (hslot : ∀ k, u + 1 ≤ k → k < d → ∀ r, (getIsland b k).rightIsland = some r →
      ∃ hh, (getIsland b k).rightConn = some hh ∧ hh < b.connections.length ∧ hh ≠ vj)
    (x y : ConnRef) :
    y ∈ refCross (fill_crosses b u d) x ↔
      y ∈ refCross b x ∨ ∃ k, u + 1 ≤ k ∧ k < d ∧
        crossTrigger b (getIsland b u).row (getIsland b d).row (getIsland b u).col k ∧
        ((x = (getIsland b k).rightConn ∧ y = some vj) ∨
         (x = some vj ∧ y = (getIsland b k).rightConn)) := by
  unfold fill_crosses
  dsimp only
  rw [hcv]
  rw [crossFoldl_mem (getIsland b u).row (getIsland b d).row (getIsland b u).col
    (some vj) (List.range' (u + 1) (d - (u + 1))) b hvj ?_ x y]
  · constructor
    · rintro (hm | ⟨k, hk, rest⟩)
      · exact Or.inl hm
      · rw [List.mem_range'_1] at hk
        exact Or.inr ⟨k, hk.1, by omega, rest⟩
    · rintro (hm | ⟨k, hk1, hk2, rest⟩)
      · exact Or.inl hm
      · exact Or.inr ⟨k, by rw [List.mem_range'_1]; omega, rest⟩
  · intro k hk r hr
    rw [List.mem_range'_1] at hk
    obtain ⟨hh, h1, h2, h3⟩ := hslot k hk.1 (by omega) r hr
    exact ⟨hh, h1, h2, by simpa using h3⟩

/-- The board after fill_connections wires the up connection of the new
island to the up neighbor ui and registers the crossings satisfies the
structural invariant with all-fresh bridge counts. -/
theorem W_up_some (b : HBoard) (nOld ui : Nat)
    (h : PreUp b nOld (some ui))
    (F : HBoard)
    (hF : F = fill_crosses (modifyIsland (modifyIsland
      { b with connections := b.connections ++
          [{ bridges := 0, firstcross := [], pendIsland1 := ui, pendIsland2 := nOld }] }
      nOld (fun isl =>
        { pendbridges := isl.pendbridges, expectbridges := isl.expectbridges,
          row := isl.row, col := isl.col, upIsland := isl.upIsland,
          leftIsland := isl.leftIsland, rightIsland := isl.rightIsland,
          downIsland := isl.downIsland, upConn := some b.connections.length,
          leftConn := isl.leftConn, rightConn := isl.rightConn,
          downConn := isl.downConn }))
      ui (fun isl =>
        { pendbridges := isl.pendbridges, expectbridges := isl.expectbridges,
          row := isl.row, col := isl.col, upIsland := isl.upIsland,
          leftIsland := isl.leftIsland, rightIsland := isl.rightIsland,
          downIsland := some nOld, upConn := isl.upConn,
          leftConn := isl.leftConn, rightConn := isl.rightConn,
          downConn := some b.connections.length })) ui nOld) :
    SInv F ∧ Fresh F := by
  obtain ⟨ui', hU, huil, hcolu, hrowu, hgap, hDslot, hDslotI⟩ :=
    h.uFacts.resolve_left (by simp)
  have hui2 : ui' = ui := (Option.some_injective _ hU).symm
  rw [hui2] at huil hcolu hrowu hgap hDslot hDslotI
  have huin : ui ≠ nOld := by omega
  have huiL : ui < b.islands.length := by
    have := h.len
    omega
  have hnOldL : nOld < b.islands.length := by
    have := h.len
    omega
  set Z := modifyIsland (modifyIsland
      { b with connections := b.connections ++
          [{ bridges := 0, firstcross := [], pendIsland1 := ui, pendIsland2 := nOld }] }
      nOld (fun isl =>
        { pendbridges := isl.pendbridges, expectbridges := isl.expectbridges,
          row := isl.row, col := isl.col, upIsland := isl.upIsland,
          leftIsland := isl.leftIsland, rightIsland := isl.rightIsland,
          downIsland := isl.downIsland, upConn := some b.connections.length,
          leftConn := isl.leftConn, rightConn := isl.rightConn,
          downConn := isl.downConn }))
      ui (fun isl =>
        { pendbridges := isl.pendbridges, expectbridges := isl.expectbridges,
          row := isl.row, col := isl.col, upIsland := isl.upIsland,
          leftIsland := isl.leftIsland, rightIsland := isl.rightIsland,
          downIsland := some nOld, upConn := isl.upConn,
          leftConn := isl.leftConn, rightConn := isl.rightConn,
          downConn := some b.connections.length }) with hZdef
  have hislands : ∀ i, i ≠ nOld → i ≠ ui → getIsland Z i = getIsland b i := by
    intro i h1 h2
    rw [hZdef, getIsland_modifyIsland_ne _ _ _ _ h2, getIsland_modifyIsland_ne _ _ _ _ h1]
    rfl
  have hgetn : getIsland Z nOld =
      { pendbridges := (getIsland b nOld).pendbridges,
        expectbridges := (getIsland b nOld).expectbridges,
        row := (getIsland b nOld).row, col := (getIsland b nOld).col,
        upIsland := (getIsland b nOld).upIsland,
        leftIsland := (getIsland b nOld).leftIsland,
        rightIsland := (getIsland b nOld).rightIsland,
        downIsland := (getIsland b nOld).downIsland,
        upConn := some b.connections.length,
        leftConn := (getIsland b nOld).leftConn,
        rightConn := (getIsland b nOld).rightConn,
        downConn := (getIsland b nOld).downConn } := by
    rw [hZdef, getIsland_modifyIsland_ne _ _ _ _ (Ne.symm huin),
        getIsland_modifyIsland_self _ _ _ (by
          show nOld < _
          simp only [HBoard.islands]
          omega)]
    rfl
  have hgetui : getIsland Z ui =
      { pendbridges := (getIsland b ui).pendbridges,
        expectbridges := (getIsland b ui).expectbridges,
        row := (getIsland b ui).row, col := (getIsland b ui).col,
        upIsland := (getIsland b ui).upIsland,
        leftIsland := (getIsland b ui).leftIsland,
        rightIsland := (getIsland b ui).rightIsland,
        downIsland := some nOld,
        upConn := (getIsland b ui).upConn,
        leftConn := (getIsland b ui).leftConn,
        rightConn := (getIsland b ui).rightConn,
        downConn := some b.connections.length } := by
    rw [hZdef, getIsland_modifyIsland_self _ _ _ (by
        rw [islands_length_modifyIsland]
        show ui < _
        simp only [HBoard.islands]
        omega),
      getIsland_modifyIsland_ne _ _ _ _ huin]
    rfl
  have hzlen : Z.islands.length = b.islands.length := by
    rw [hZdef, islands_length_modifyIsland, islands_length_modifyIsland]
  have hzconns : Z.connections = b.connections ++
      [{ bridges := 0, firstcross := [], pendIsland1 := ui, pendIsland2 := nOld }] := by
    rw [hZdef]
    rfl
  have hzclen : Z.connections.length = b.connections.length + 1 := by
    rw [hzconns]
    simp
  have hgc_old : ∀ j, j < b.connections.length → getConn Z j = getConn b j := by
    intro j hj
    unfold getConn
    rw [hzconns]
    exact List.getD_append _ _ _ _ hj
  have hgc_new : getConn Z b.connections.length =
      { bridges := 0, firstcross := [], pendIsland1 := ui, pendIsland2 := nOld } := by
    unfold getConn
    rw [hzconns, List.getD_append_right _ _ _ _ (Nat.le_refl _)]
    simp
  have hE1old : ∀ j, j < b.connections.length → connE1 Z j = connE1 b j := by
    intro j hj
    unfold connE1
    rw [hgc_old j hj]
  have hE2old : ∀ j, j < b.connections.length → connE2 Z j = connE2 b j := by
    intro j hj
    unfold connE2
    rw [hgc_old j hj]
  have hE1new : connE1 Z b.connections.length = ui := by
    unfold connE1
    rw [hgc_new]
  have hE2new : connE2 Z b.connections.length = nOld := by
    unfold connE2
    rw [hgc_new]
  have hBrold : ∀ j, j < b.connections.length →
      refBridges Z (some j) = refBridges b (some j) := by
    intro j hj
    show (getConn Z j).bridges = (getConn b j).bridges
    rw [hgc_old j hj]
  have hBrnew : refBridges Z (some b.connections.length) = 0 := by
    show (getConn Z b.connections.length).bridges = 0
    rw [hgc_new]
  have hCrold : ∀ j, j < b.connections.length →
      refCross Z (some j) = refCross b (some j) := by
    intro j hj
    show (getConn Z j).firstcross = (getConn b j).firstcross
    rw [hgc_old j hj]
  have hCrnew : refCross Z (some b.connections.length) = [] := by
    show (getConn Z b.connections.length).firstcross = []
    rw [hgc_new]
  have hCrNZ : refCross Z none = refCross b none := by
    show Z.outFirstcross = b.outFirstcross
    rw [hZdef]
    rfl
  have hrowZ : ∀ i, rowOf Z i = rowOf b i := by
    intro i
    unfold rowOf
    by_cases h1 : i = nOld
    · subst h1
      rw [hgetn]
    · by_cases h2 : i = ui
      · subst h2
        rw [hgetui]
      · rw [hislands i h1 h2]
  have hcolZ : ∀ i, colOf Z i = colOf b i := by
    intro i
    unfold colOf
    by_cases h1 : i = nOld
    · subst h1
      rw [hgetn]
    · by_cases h2 : i = ui
      · subst h2
        rw [hgetui]
      · rw [hislands i h1 h2]
  have hexpZ : ∀ i, islandExpect Z i = islandExpect b i := by
    intro i
    unfold islandExpect
    by_cases h1 : i = nOld
    · subst h1
      rw [hgetn]
    · by_cases h2 : i = ui
      · subst h2
        rw [hgetui]
      · rw [hislands i h1 h2]
  have hPendZ : ∀ i, refPend Z (some i) = refPend b (some i) := by
    intro i
    show (getIsland Z i).pendbridges = (getIsland b i).pendbridges
    by_cases h1 : i = nOld
    · subst h1
      rw [hgetn]
    · by_cases h2 : i = ui
      · subst h2
        rw [hgetui]
      · rw [hislands i h1 h2]
  have hICLz : ∀ i, islandConn Z i LEFT = islandConn b i LEFT := by
    intro i
    unfold islandConn
    by_cases h1 : i = nOld
    · subst h1
      rw [hgetn]
      rfl
    · by_cases h2 : i = ui
      · subst h2
        rw [hgetui]
        rfl
      · rw [hislands i h1 h2]
  have hICRz : ∀ i, islandConn Z i RIGHT = islandConn b i RIGHT := by
    intro i
    unfold islandConn
    by_cases h1 : i = nOld
    · subst h1
      rw [hgetn]
      rfl
    · by_cases h2 : i = ui
      · subst h2
        rw [hgetui]
        rfl
      · rw [hislands i h1 h2]
  have hICUz : ∀ i, i ≠ nOld → islandConn Z i UP = islandConn b i UP := by
    intro i h1
    unfold islandConn
    by_cases h2 : i = ui
    · subst h2
      rw [hgetui]
      rfl
    · rw [hislands i h1 h2]
  have hICUn : islandConn Z nOld UP = some b.connections.length := by
    unfold islandConn
    rw [hgetn]
    rfl
  have hICDz : ∀ i, i ≠ ui → islandConn Z i DOWN = islandConn b i DOWN := by
    intro i h2
    unfold islandConn
    by_cases h1 : i = nOld
    · subst h1
      rw [hgetn]
      rfl
    · rw [hislands i h1 h2]
  have hICDui : islandConn Z ui DOWN = some b.connections.length := by
    unfold islandConn
    rw [hgetui]
    rfl
  have hNbLz : ∀ i, islandNb Z i LEFT = islandNb b i LEFT := by
    intro i
    unfold islandNb
    by_cases h1 : i = nOld
    · subst h1
      rw [hgetn]
      rfl
    · by_cases h2 : i = ui
      · subst h2
        rw [hgetui]
        rfl
      · rw [hislands i h1 h2]
  have hNbRz : ∀ i, islandNb Z i RIGHT = islandNb b i RIGHT := by
    intro i
    unfold islandNb
    by_cases h1 : i = nOld
    · subst h1
      rw [hgetn]
      rfl
    · by_cases h2 : i = ui
      · subst h2
        rw [hgetui]
        rfl
      · rw [hislands i h1 h2]
  have hNbUz : ∀ i, islandNb Z i UP = islandNb b i UP := by
    intro i
    unfold islandNb
    by_cases h1 : i = nOld
    · subst h1
      rw [hgetn]
      rfl
    · by_cases h2 : i = ui
      · subst h2
        rw [hgetui]
        rfl
      · rw [hislands i h1 h2]
  have hNbDz : ∀ i, i ≠ ui → islandNb Z i DOWN = islandNb b i DOWN := by
    intro i h2
    unfold islandNb
    by_cases h1 : i = nOld
    · subst h1
      rw [hgetn]
      rfl
    · rw [hislands i h1 h2]
  have hNbDui : islandNb Z ui DOWN = some nOld := by
    unfold islandNb
    rw [hgetui]
    rfl
  -- reads on F
  have hFget : ∀ i, getIsland F i = getIsland Z i := by
    intro i
    rw [hF]
    exact fill_crosses_getIsland _ _ _ i
  have hFlenI : F.islands.length = b.islands.length := by
    rw [hF]
    show (fill_crosses _ _ _).islands.length = _
    rw [fill_crosses_islands]
    exact hzlen
  have hFclen : F.connections.length = b.connections.length + 1 := by
    rw [hF, fill_crosses_conn_length]
    exact hzclen
  have hFrow : ∀ i, rowOf F i = rowOf b i := by
    intro i
    unfold rowOf
    rw [hFget]
    exact hrowZ i
  have hFcol : ∀ i, colOf F i = colOf b i := by
    intro i
    unfold colOf
    rw [hFget]
    exact hcolZ i
  have hFexp : ∀ i, islandExpect F i = islandExpect b i := by
    intro i
    unfold islandExpect
    rw [hFget]
    exact hexpZ i
  have hFpend : ∀ i, refPend F (some i) = refPend b (some i) := by
    intro i
    show (getIsland F i).pendbridges = _
    rw [hFget]
    exact hPendZ i
  have hFpendN : refPend F none = refPend b none := by
    rw [hF]
    show refPend (fill_crosses _ _ _) none = _
    rw [fill_crosses_refPend]
    show Z.outPendbridges = b.outPendbridges
    rw [hZdef]
    rfl
  have hFbrN : refBridges F none = refBridges b none := by
    rw [hF]
    show refBridges (fill_crosses _ _ _) none = _
    rw [fill_crosses_refBridges]
    show Z.outBridges = b.outBridges
    rw [hZdef]
    rfl
  have hFbrold : ∀ j, j < b.connections.length →
      refBridges F (some j) = refBridges b (some j) := by
    intro j hj
    rw [hF, fill_crosses_refBridges]
    exact hBrold j hj
  have hFbrnew : refBridges F (some b.connections.length) = 0 := by
    rw [hF, fill_crosses_refBridges]
    exact hBrnew
  have hFE1old : ∀ j, j < b.connections.length → connE1 F j = connE1 b j := by
    intro j hj
    rw [hF, fill_crosses_connE1]
    exact hE1old j hj
  have hFE2old : ∀ j, j < b.connections.length → connE2 F j = connE2 b j := by
    intro j hj
    rw [hF, fill_crosses_connE2]
    exact hE2old j hj
  have hFE1new : connE1 F b.connections.length = ui := by
    rw [hF, fill_crosses_connE1]
    exact hE1new
  have hFE2new : connE2 F b.connections.length = nOld := by
    rw [hF, fill_crosses_connE2]
    exact hE2new
  have hFrows : F.rows = b.rows := by
    rw [hF, fill_crosses_rows]
    rw [hZdef]
    rfl
  have hFcols : F.cols = b.cols := by
    rw [hF, fill_crosses_cols]
    rw [hZdef]
    rfl
  have hFICL : ∀ i, islandConn F i LEFT = islandConn b i LEFT := by
    intro i
    unfold islandConn
    rw [hFget]
    exact hICLz i
  have hFICR : ∀ i, islandConn F i RIGHT = islandConn b i RIGHT := by
    intro i
    unfold islandConn
    rw [hFget]
    exact hICRz i
  have hFICU : ∀ i, i ≠ nOld → islandConn F i UP = islandConn b i UP := by
    intro i h1
    unfold islandConn
    rw [hFget]
    exact hICUz i h1
  have hFICUn : islandConn F nOld UP = some b.connections.length := by
    unfold islandConn
    rw [hFget]
    exact hICUn
  have hFICD : ∀ i, i ≠ ui → islandConn F i DOWN = islandConn b i DOWN := by
    intro i h1
    unfold islandConn
    rw [hFget]
    exact hICDz i h1
  have hFICDui : islandConn F ui DOWN = some b.connections.length := by
    unfold islandConn
    rw [hFget]
    exact hICDui
  have hFNbL : ∀ i, islandNb F i LEFT = islandNb b i LEFT := by
    intro i
    unfold islandNb
    rw [hFget]
    exact hNbLz i
  have hFNbR : ∀ i, islandNb F i RIGHT = islandNb b i RIGHT := by
    intro i
    unfold islandNb
    rw [hFget]
    exact hNbRz i
  have hFNbU : ∀ i, islandNb F i UP = islandNb b i UP := by
    intro i
    unfold islandNb
    rw [hFget]
    exact hNbUz i
  have hFNbD : ∀ i, i ≠ ui → islandNb F i DOWN = islandNb b i DOWN := by
    intro i h1
    unfold islandNb
    rw [hFget]
    exact hNbDz i h1
  have hFNbDui : islandNb F ui DOWN = some nOld := by
    unfold islandNb
    rw [hFget]
    exact hNbDui
  have hruiZ : (getIsland Z ui).row = (getIsland b ui).row := by rw [hgetui]
  have hcuiZ : (getIsland Z ui).col = (getIsland b ui).col := by rw [hgetui]
  have hrnZ : (getIsland Z nOld).row = (getIsland b nOld).row := by rw [hgetn]
  have hcolZc : ∀ r, (getIsland Z r).col = (getIsland b r).col := fun r => hcolZ r
  have hRCz : ∀ k, k ≠ ui → k ≠ nOld → (getIsland Z k).rightConn = islandConn b k RIGHT := by
    intro k h1 h2
    rw [hislands k h2 h1]
    rfl
  have hHorzF : ∀ j, j < b.connections.length → (connHorz F j ↔ connHorz b j) := by
    intro j hj
    unfold connHorz
    rw [hFE1old j hj, hFE2old j hj]
    simp only [hFrow, hFcol, hFNbR, hFICR, hFNbL, hFICL]
  have hVertF : ∀ j, j < b.connections.length → (connVert F j ↔ connVert b j) := by
    intro j hj
    by_cases h1 : connE1 b j = ui
    · constructor
      · intro hv
        exfalso
        have hc := hv.2.2.2.1
        rw [hFE1old j hj, h1, hFICDui] at hc
        have : b.connections.length = j := by injection hc
        omega
      · intro hv
        exfalso
        have hc := hv.2.2.2.1
        rw [h1, hDslot] at hc
        cases hc
    · by_cases h2 : connE2 b j = nOld
      · constructor
        · intro hv
          exfalso
          have hc := hv.2.2.2.2.2
          rw [hFE2old j hj, h2, hFICUn] at hc
          have : b.connections.length = j := by injection hc
          omega
        · intro hv
          exfalso
          have hc := hv.2.2.2.2.2
          rw [h2, h.topU] at hc
          cases hc
      · unfold connVert
        rw [hFE1old j hj, hFE2old j hj, hFNbD _ h1, hFICD _ h1, hFICU _ h2]
        simp only [hFrow, hFcol, hFNbU]
  have hGeomF : ∀ v hh, v < b.connections.length → hh < b.connections.length →
      (geomCross F v hh ↔ geomCross b v hh) := by
    intro v hh hv hhl
    unfold geomCross
    rw [hFE1old v hv, hFE2old v hv, hFE1old hh hhl, hFE2old hh hhl]
    simp only [hFrow, hFcol]
  have hVertNewF : connVert F b.connections.length := by
    unfold connVert
    rw [hFE1new, hFE2new]
    refine ⟨?_, ?_, hFNbDui, hFICDui, ?_, hFICUn⟩
    · simp only [hFcol]
      exact hcolu
    · simp only [hFrow]
      exact hrowu
    · rw [hFNbU, h.topUI]
  have hHorzNewF : ¬ connHorz F b.connections.length := by
    intro hh
    have hc := hh.1
    rw [hFE1new, hFE2new] at hc
    simp only [hFrow] at hc
    exact absurd hc (ne_of_lt hrowu)
  have hGeomNewF : ∀ hh, hh < b.connections.length →
      (geomCross F b.connections.length hh ↔
        (rowOf b ui < rowOf b (connE1 b hh) ∧ rowOf b (connE1 b hh) < rowOf b nOld ∧
         colOf b (connE1 b hh) < colOf b ui ∧ colOf b ui < colOf b (connE2 b hh))) := by
    intro hh hhl
    unfold geomCross
    rw [hFE1new, hFE2new, hFE1old hh hhl, hFE2old hh hhl]
    simp only [hFrow, hFcol]
  have hslotZ : ∀ k, ui + 1 ≤ k → k < nOld → ∀ r, (getIsland Z k).rightIsland = some r →
      ∃ hh, (getIsland Z k).rightConn = some hh ∧ hh < Z.connections.length ∧
        hh ≠ b.connections.length := by
    intro k hk1 hk2 r hr
    have hkne1 : k ≠ nOld := by omega
    have hkne2 : k ≠ ui := by omega
    rw [hislands k hkne1 hkne2] at hr
    have hkL : k < b.islands.length := by
      have := h.len
      omega
    rcases h.slotR k hkL with ⟨hc, hn⟩ | ⟨j, hcj, hjlen, hje1, hhz, hnb⟩
    · exfalso
      have hn2 : islandNb b k RIGHT = some r := hr
      rw [hn] at hn2
      cases hn2
    · refine ⟨j, ?_, ?_, ?_⟩
      · rw [hislands k hkne1 hkne2]
        exact hcj
      · rw [hzclen]
        omega
      · omega
  have hmemF : ∀ x y, y ∈ refCross F x ↔ y ∈ refCross Z x ∨ ∃ k, ui + 1 ≤ k ∧ k < nOld ∧
      crossTrigger Z (getIsland Z ui).row (getIsland Z nOld).row (getIsland Z ui).col k ∧
      ((x = (getIsland Z k).rightConn ∧ y = some b.connections.length) ∨
       (x = some b.connections.length ∧ y = (getIsland Z k).rightConn)) := by
    intro x y
    rw [hF]
    refine fill_crosses_mem Z ui nOld b.connections.length huil ?_ ?_ hslotZ x y
    · rw [hgetui]
    · rw [hzclen]
      omega
  have hTrig : ∀ k, ui + 1 ≤ k → k < nOld →
      (crossTrigger Z (getIsland Z ui).row (getIsland Z nOld).row (getIsland Z ui).col k ↔
        (rowOf b ui < rowOf b k ∧ rowOf b k < rowOf b nOld ∧ colOf b k < colOf b ui ∧
          ∃ r, islandNb b k RIGHT = some r ∧ colOf b ui < colOf b r)) := by
    intro k hk1 hk2
    have hkne1 : k ≠ nOld := by omega
    have hkne2 : k ≠ ui := by omega
    unfold crossTrigger
    rw [hislands k hkne1 hkne2, hruiZ, hcuiZ, hrnZ]
    constructor
    · rintro ⟨h1, h2, h3, r, hr, hrc⟩
      exact ⟨h1, h2, h3, r, hr, lt_of_lt_of_eq hrc (hcolZc r)⟩
    · rintro ⟨h1, h2, h3, r, hr, hrc⟩
      exact ⟨h1, h2, h3, r, hr, lt_of_lt_of_eq hrc (hcolZc r).symm⟩
  refine ⟨⟨?_, ?_, ?_, ?_, ?_, ?_, ?_, ?_, ?_, ?_, ?_⟩, ?_, ?_, ?_, ?_⟩
  · intro i1 i2 h12 h2L
    rw [hFlenI] at h2L
    simp only [hFrow, hFcol]
    exact h.sorted i1 i2 h12 h2L
  · intro i hi
    rw [hFlenI] at hi
    simp only [hFrow, hFcol, hFrows, hFcols]
    exact h.posOK i hi
  · intro i hi
    rw [hFlenI] at hi
    simp only [hFexp]
    exact h.expectOK i hi
  · intro j hj
    rw [hFclen] at hj
    rw [hFlenI]
    by_cases hjo : j < b.connections.length
    · obtain ⟨he1, he2, hor⟩ := h.conn j hjo
      refine ⟨?_, ?_, ?_⟩
      · rw [hFE1old j hjo]
        exact he1
      · rw [hFE2old j hjo]
        exact he2
      · rcases hor with hH | hV
        · exact Or.inl ((hHorzF j hjo).mpr hH)
        · exact Or.inr ((hVertF j hjo).mpr hV)
    · have hje : j = b.connections.length := by omega
      subst hje
      refine ⟨?_, ?_, Or.inr hVertNewF⟩
      · rw [hFE1new]
        exact huiL
      · rw [hFE2new]
        exact hnOldL
  · intro i hi
    rw [hFlenI] at hi
    rcases h.slotR i hi with ⟨hc, hn⟩ | ⟨j, hcj, hjl, hje, hhz, hnb⟩
    · left
      rw [hFICR, hFNbR]
      exact ⟨hc, hn⟩
    · right
      refine ⟨j, ?_, ?_, ?_, ?_, ?_⟩
      · rw [hFICR]
        exact hcj
      · rw [hFclen]
        omega
      · rw [hFE1old j hjl]
        exact hje
      · exact (hHorzF j hjl).mpr hhz
      · rw [hFNbR, hFE2old j hjl]
        exact hnb
  · intro i hi
    rw [hFlenI] at hi
    rcases h.slotL i hi with ⟨hc, hn⟩ | ⟨j, hcj, hjl, hje, hhz, hnb⟩
    · left
      rw [hFICL, hFNbL]
      exact ⟨hc, hn⟩
    · right
      refine ⟨j, ?_, ?_, ?_, ?_, ?_⟩
      · rw [hFICL]
        exact hcj
      · rw [hFclen]
        omega
      · rw [hFE2old j hjl]
        exact hje
      · exact (hHorzF j hjl).mpr hhz
      · rw [hFNbL, hFE1old j hjl]
        exact hnb
  · intro i hi
    rw [hFlenI] at hi
    by_cases hiu : i = ui
    · subst hiu
      right
      refine ⟨b.connections.length, hFICDui, ?_, ?_, hVertNewF, ?_⟩
      · rw [hFclen]
        omega
      · rw [hFE1new]
      · rw [hFNbDui, hFE2new]
    · rcases h.slotD i hi with ⟨hc, hn⟩ | ⟨j, hcj, hjl, hje, hvz, hnb⟩
      · left
        rw [hFICD _ hiu, hFNbD _ hiu]
        exact ⟨hc, hn⟩
      · right
        refine ⟨j, ?_, ?_, ?_, ?_, ?_⟩
        · rw [hFICD _ hiu]
          exact hcj
        · rw [hFclen]
          omega
        · rw [hFE1old j hjl]
          exact hje
        · exact (hVertF j hjl).mpr hvz
        · rw [hFNbD _ hiu, hFE2old j hjl]
          exact hnb
  · intro i hi
    rw [hFlenI] at hi
    by_cases hin : i = nOld
    · subst hin
      right
      refine ⟨b.connections.length, hFICUn, ?_, ?_, hVertNewF, ?_⟩
      · rw [hFclen]
        omega
      · rw [hFE2new]
      · rw [hFNbU, h.topUI, hFE1new]
    · rcases h.slotU i hi hin with ⟨hc, hn⟩ | ⟨j, hcj, hjl, hje, hvz, hnb⟩
      · left
        rw [hFICU _ hin, hFNbU]
        exact ⟨hc, hn⟩
      · right
        refine ⟨j, ?_, ?_, ?_, ?_, ?_⟩
        · rw [hFICU _ hin]
          exact hcj
        · rw [hFclen]
          omega
        · rw [hFE2old j hjl]
          exact hje
        · exact (hVertF j hjl).mpr hvz
        · rw [hFNbU, hFE1old j hjl]
          exact hnb
  · intro j hj r hr
    rw [hFclen] at hj
    rcases (hmemF (some j) r).mp hr with hold | ⟨k, hk1, hk2, htr, hxy⟩
    · by_cases hjo : j < b.connections.length
      · rw [hCrold j hjo] at hold
        obtain ⟨k, hrk, hkl, hmem, hgeo⟩ := h.crossSound j hjo r hold
        refine ⟨k, hrk, ?_, ?_, ?_⟩
        · rw [hFclen]
          omega
        · rw [hmemF (some k) (some j)]
          refine Or.inl ?_
          rw [hCrold k hkl]
          exact hmem
        · rcases hgeo with ⟨hv2, hh2, hg⟩ | ⟨hh2, hv2, hg⟩
          · exact Or.inl ⟨(hVertF j hjo).mpr hv2, (hHorzF k hkl).mpr hh2,
              (hGeomF j k hjo hkl).mpr hg⟩
          · exact Or.inr ⟨(hHorzF j hjo).mpr hh2, (hVertF k hkl).mpr hv2,
              (hGeomF k j hkl hjo).mpr hg⟩
      · have hje : j = b.connections.length := by omega
        subst hje
        rw [hCrnew] at hold
        cases hold
    · have hkne1 : k ≠ nOld := by omega
      have hkne2 : k ≠ ui := by omega
      have hkL : k < b.islands.length := by
        have := h.len
        omega
      obtain ⟨ht1, ht2, ht3, r0, hnbr, hcolr⟩ := (hTrig k hk1 hk2).mp htr
      rcases h.slotR k hkL with ⟨hc0, hn0⟩ | ⟨j0, hcj0, hj0l, hj0e, hhz0, hnb0⟩
      · rw [hn0] at hnbr
        cases hnbr
      · have hrc : (getIsland Z k).rightConn = some j0 := by
          rw [hRCz k hkne2 hkne1]
          exact hcj0
        have hr0 : r0 = connE2 b j0 := by
          rw [hnb0] at hnbr
          injection hnbr with hh2
          exact hh2.symm
        have hgeoN : geomCross F b.connections.length j0 := by
          rw [hGeomNewF j0 hj0l]
          refine ⟨?_, ?_, ?_, ?_⟩
          · rw [hj0e]
            exact ht1
          · rw [hj0e]
            exact ht2
          · rw [hj0e]
            exact ht3
          · rw [← hr0]
            exact hcolr
        rcases hxy with ⟨hx, hy⟩ | ⟨hx, hy⟩
        · rw [hrc] at hx
          have hjj : j = j0 := by injection hx
          subst hjj
          refine ⟨b.connections.length, hy, ?_, ?_, ?_⟩
          · rw [hFclen]
            omega
          · rw [hmemF (some b.connections.length) (some j)]
            refine Or.inr ⟨k, hk1, hk2, htr, Or.inr ⟨rfl, ?_⟩⟩
            rw [hrc]
          · exact Or.inr ⟨(hHorzF j hj0l).mpr hhz0, hVertNewF, hgeoN⟩
        · have hjnc : j = b.connections.length := by injection hx
          subst hjnc
          rw [hrc] at hy
          refine ⟨j0, hy, ?_, ?_, ?_⟩
          · rw [hFclen]
            omega
          · rw [hmemF (some j0) (some b.connections.length)]
            refine Or.inr ⟨k, hk1, hk2, htr, Or.inl ⟨?_, rfl⟩⟩
            rw [hrc]
          · exact Or.inl ⟨hVertNewF, (hHorzF j0 hj0l).mpr hhz0, hgeoN⟩
  · intro v hh hv hhl hVert hHorz hGeom
    rw [hFclen] at hv hhl
    by_cases hvo : v < b.connections.length
    · by_cases hho : hh < b.connections.length
      · have hb := h.crossComplete v hh hvo hho ((hVertF v hvo).mp hVert)
          ((hHorzF hh hho).mp hHorz) ((hGeomF v hh hvo hho).mp hGeom)
        constructor
        · rw [hmemF (some v) (some hh)]
          refine Or.inl ?_
          rw [hCrold v hvo]
          exact hb.1
        · rw [hmemF (some hh) (some v)]
          refine Or.inl ?_
          rw [hCrold hh hho]
          exact hb.2
      · have hhe : hh = b.connections.length := by omega
        subst hhe
        exact absurd hHorz hHorzNewF
    · have hvn : v = b.connections.length := by omega
      subst hvn
      have hho : hh < b.connections.length := by
        by_contra hcon
        have hhe : hh = b.connections.length := by omega
        subst hhe
        exact hHorzNewF hHorz
      have hhb : connHorz b hh := (hHorzF hh hho).mp hHorz
      obtain ⟨hg1, hg2, hg3, hg4⟩ := (hGeomNewF hh hho).mp hGeom
      have hkL : connE1 b hh < b.islands.length := (h.conn hh hho).1
      have hkn : connE1 b hh < nOld := by
        by_contra hcon
        have hke : connE1 b hh = nOld := by
          have := h.len
          omega
        rw [hke] at hg2
        exact absurd hg2 (lt_irrefl _)
      have huk : ui < connE1 b hh := by
        by_contra hcon
        push_neg at hcon
        rcases lt_or_eq_of_le hcon with hlt | heq
        · rcases h.sorted (connE1 b hh) ui hlt huiL with hrlt | ⟨hre, hcl⟩
          · exact lt_irrefl _ (lt_trans hg1 hrlt)
          · rw [hre] at hg1
            exact lt_irrefl _ hg1
        · rw [heq] at hg1
          exact lt_irrefl _ hg1
      have htrk : crossTrigger Z (getIsland Z ui).row (getIsland Z nOld).row
          (getIsland Z ui).col (connE1 b hh) := by
        rw [hTrig (connE1 b hh) (by omega) hkn]
        exact ⟨hg1, hg2, hg3, connE2 b hh, hhb.2.2.1, hg4⟩
      have hrck : (getIsland Z (connE1 b hh)).rightConn = some hh := by
        rw [hRCz _ (by omega) (by omega)]
        exact hhb.2.2.2.1
      constructor
      · rw [hmemF (some b.connections.length) (some hh)]
        exact Or.inr ⟨connE1 b hh, by omega, hkn, htrk, Or.inr ⟨rfl, hrck.symm⟩⟩
      · rw [hmemF (some hh) (some b.connections.length)]
        exact Or.inr ⟨connE1 b hh, by omega, hkn, htrk, Or.inl ⟨hrck.symm, rfl⟩⟩
  · rw [List.eq_nil_iff_forall_not_mem]
    intro y hy
    rcases (hmemF none y).mp hy with hold | ⟨k, hk1, hk2, htr, hxy⟩
    · rw [hCrNZ, h.outCross] at hold
      cases hold
    · obtain ⟨ht1, ht2, ht3, r0, hnbr, hcolr⟩ := (hTrig k hk1 hk2).mp htr
      have hkL : k < b.islands.length := by
        have := h.len
        omega
      rcases h.slotR k hkL with ⟨hc0, hn0⟩ | ⟨j0, hcj0, hj0l, hj0e, hhz0, hnb0⟩
      · rw [hn0] at hnbr
        cases hnbr
      · have hrc : (getIsland Z k).rightConn = some j0 := by
          rw [hRCz k (by omega) (by omega)]
          exact hcj0
        rcases hxy with ⟨hx, hy2⟩ | ⟨hx, hy2⟩
        · rw [hrc] at hx
          cases hx
        · cases hx
  · intro j hj
    rw [hFclen] at hj
    by_cases hjo : j < b.connections.length
    · rw [hFbrold j hjo]
      exact h.freshB j hjo
    · have hje : j = b.connections.length := by omega
      subst hje
      exact hFbrnew
  · intro i hi
    rw [hFlenI] at hi
    rw [hFpend, hFexp]
    exact h.freshP i hi
  · rw [hFpendN]
    exact h.freshPN
  · rw [hFbrN]
    exact h.freshBN

/-- Wiring the freshly appended island preserves the structural invariant
and freshness: composition of the staged lemmas over the four cases of the
left and up neighbor lookups. -/
theorem SInv_fill_connections (b : HBoard) (row col e : Int)
    (hs : SInv b) (hf : Fresh b) (hok : add_island_ok b row col e) :
    SInv (fill_connections (appendBoard b row col e)) ∧
    Fresh (fill_connections (appendBoard b row col e)) := by
  obtain ⟨hr0, hc0, hrCM, hcCM, hord, he1, heM⟩ := hok
  have he8 : e ≤ 8 := by
    simp only [MAX_EXPECTED_BRIDGES] at heM
    exact heM
  have hAlen : (appendBoard b row col e).islands.length = b.islands.length + 1 :=
    appendBoard_islands_length b row col e
  have hidx : (appendBoard b row col e).islands.length - 1 = b.islands.length := by
    omega
  have hAold : ∀ i, i < b.islands.length →
      getIsland (appendBoard b row col e) i = getIsland b i := fun i hi =>
    getIsland_appendBoard_old b row col e i hi
  have hAnew := getIsland_appendBoard_new b row col e
  have hLchar : ∀ li,
      find_from_island_LEFT (appendBoard b row col e) b.islands.length = some li →
      li = b.islands.length - 1 ∧ 0 < b.islands.length ∧
      rowOf b (b.islands.length - 1) = row ∧ colOf b (b.islands.length - 1) < col := by
    intro li hli
    unfold find_from_island_LEFT at hli
    rw [if_neg (by omega :
      ¬ b.islands.length ≥ (appendBoard b row col e).islands.length)] at hli
    by_cases h0 : b.islands.length = 0
    · rw [if_pos h0] at hli
      cases hli
    · rw [if_neg h0] at hli
      have hro : (getIsland (appendBoard b row col e) (b.islands.length - 1)).row =
          rowOf b (b.islands.length - 1) := by
        rw [hAold _ (by omega)]
        rfl
      have hrn : (getIsland (appendBoard b row col e) b.islands.length).row = row := by
        rw [hAnew]
      rw [hro, hrn] at hli
      rcases hord (by omega) with hlt | ⟨hre, hcl⟩
      · rw [if_pos hlt] at hli
        cases hli
      · rw [if_neg (by omega : ¬ rowOf b (b.islands.length - 1) < row)] at hli
        have hle : b.islands.length - 1 = li := by injection hli
        exact ⟨hle.symm, by omega, hre, hcl⟩
  have hupA : find_from_island_UP (appendBoard b row col e) b.islands.length =
      find_up_scan b col b.islands.length := by
    unfold find_from_island_UP
    rw [if_neg (by omega :
      ¬ b.islands.length ≥ (appendBoard b row col e).islands.length)]
    have hcn : (getIsland (appendBoard b row col e) b.islands.length).col = col := by
      rw [hAnew]
    rw [hcn]
    refine find_up_scan_congr b (appendBoard b row col e) col b.islands.length ?_
    intro k hk
    unfold colOf
    rw [hAold k hk]
  rcases hLv : find_from_island_LEFT (appendBoard b row col e) b.islands.length
    with _ | li
  · rcases hUv : find_from_island_UP (appendBoard b row col e) b.islands.length
      with _ | ui
    · unfold fill_connections
      dsimp only
      rw [hidx, hLv, hUv]
      exact W_up_none _ b.islands.length (W_left_none _ b.islands.length none
        (W0 b row col e none none hs hf hr0 hc0 hord he1 he8 (Or.inl rfl)
          (Or.inl rfl) _ rfl))
    · obtain ⟨huiL2, hcolu, hgap⟩ := find_up_scan_some b col b.islands.length ui
        (by rw [← hupA]; exact hUv)
      have hPreUp := W_left_none _ b.islands.length (some ui)
        (W0 b row col e none (some ui) hs hf hr0 hc0 hord he1 he8 (Or.inl rfl)
          (Or.inr ⟨ui, rfl, huiL2, hcolu, hgap⟩) _ rfl)
      unfold fill_connections
      dsimp only
      rw [hidx, hLv, hUv]
      exact W_up_some _ b.islands.length ui hPreUp _ rfl
  · obtain ⟨hlie, h0, hre, hcl⟩ := hLchar li hLv
    have hLf : (some li : IslandRef) = some (b.islands.length - 1) ∧
        0 < b.islands.length ∧ rowOf b (b.islands.length - 1) = row ∧
        colOf b (b.islands.length - 1) < col := ⟨by rw [hlie], h0, hre, hcl⟩
    rcases hUv : find_from_island_UP (appendBoard b row col e) b.islands.length
      with _ | ui
    · have hPreL := W0 b row col e (some li) none hs hf hr0 hc0 hord he1 he8
        (Or.inr hLf) (Or.inl rfl) _ rfl
      unfold fill_connections
      dsimp only
      rw [hidx, hLv, hUv]
      exact W_up_none _ b.islands.length
        (W_left_some _ b.islands.length li none hPreL _ rfl)
    · obtain ⟨huiL2, hcolu, hgap⟩ := find_up_scan_some b col b.islands.length ui
        (by rw [← hupA]; exact hUv)
      have hPreL := W0 b row col e (some li) (some ui) hs hf hr0 hc0 hord he1 he8
        (Or.inr hLf) (Or.inr ⟨ui, rfl, huiL2, hcolu, hgap⟩) _ rfl
      have hPreUp := W_left_some _ b.islands.length li (some ui) hPreL _ rfl
      unfold fill_connections
      dsimp only
      rw [hidx, hLv, hUv]
      exact W_up_some _ b.islands.length ui hPreUp _ rfl

/-- Every board built by successful add_island calls satisfies the
structural invariant and is fresh: induction over the Built derivation. -/
theorem Built_SInv_Fresh (b : HBoard) (hb : Built b) : SInv b ∧ Fresh b := by
  induction hb with
  | init m =>
      have hlen : (init_board m).islands.length = 0 := rfl
      have hclen : (init_board m).connections.length = 0 := rfl
      refine ⟨⟨?_, ?_, ?_, ?_, ?_, ?_, ?_, ?_, ?_, ?_, rfl⟩, ?_, ?_, rfl, rfl⟩
      · intro i1 i2 h1 h2
        rw [hlen] at h2
        omega
      · intro i hi
        rw [hlen] at hi
        omega
      · intro i hi
        rw [hlen] at hi
        omega
      · intro j hj
        rw [hclen] at hj
        omega
      · intro i hi
        rw [hlen] at hi
        omega
      · intro i hi
        rw [hlen] at hi
        omega
      · intro i hi
        rw [hlen] at hi
        omega
      · intro i hi
        rw [hlen] at hi
        omega
      · intro j hj
        rw [hclen] at hj
        omega
      · intro v hh hv hhl
        rw [hclen] at hv
        omega
      · intro j hj
        rw [hclen] at hj
        omega
      · intro i hi
        rw [hlen] at hi
        omega
  | add b row col e hbuilt htrue ih =>
      have hok : add_island_ok b row col e := (add_island_fst b row col e).mp htrue
      rw [add_island_pos b row col e hok]
      exact SInv_fill_connections b row col e ih.1 ih.2 hok

theorem islandDegree_of_fresh (b : HBoard)
    (hfb : ∀ j < b.connections.length, refBridges b (some j) = 0) (i : Nat) :
    islandDegree b i = 0 := by
  unfold islandDegree
  refine Finset.sum_eq_zero ?_
  intro j hj
  rw [Finset.mem_range] at hj
  rw [hfb j hj]
  simp

theorem WF_of_SInv_Fresh (b : HBoard) (hs : SInv b) (hf : Fresh b) : WF b := by
  obtain ⟨hfb, hfp, hfpn, hfbn⟩ := hf
  have hdeg : ∀ i, islandDegree b i = 0 := islandDegree_of_fresh b hfb
  refine ⟨⟨hfpn, hfbn, hs.outCross⟩, ?_, ?_, ?_, ?_, ?_, ?_⟩
  · intro j hj
    rw [hfb j hj]
    omega
  · intro i hi
    rw [hfp i hi]
    have := hs.expectOK i hi
    omega
  · intro i hi
    rw [hfp i hi, hdeg i]
    omega
  · intro j hj r hr
    exact Or.inl (hfb j hj)
  · intro j hj
    obtain ⟨he1, he2, hor⟩ := hs.conn j hj
    refine ⟨?_, he1, he2⟩
    intro heq
    have heq2 : connE1 b j = connE2 b j := by injection heq
    rcases hor with hh | hv
    · have hcl := hh.2.1
      rw [heq2] at hcl
      exact lt_irrefl _ hcl
    · have hrl := hv.2.1
      rw [heq2] at hrl
      exact lt_irrefl _ hrl
  · intro j hj r hr
    obtain ⟨k, hrk, hkl, hmem, hgeo⟩ := hs.crossSound j hj r hr
    refine ⟨k, hrk, hkl, ?_, hmem⟩
    intro hkj
    subst hkj
    rcases hgeo with ⟨hv, hh, _⟩ | ⟨hh, hv, _⟩
    · have h1 := hv.2.1
      have h2 := hh.1
      rw [h2] at h1
      exact lt_irrefl _ h1
    · have h1 := hv.2.1
      have h2 := hh.1
      rw [h2] at h1
      exact lt_irrefl _ h1

theorem Built_WF (b : HBoard) (hb : Built b) : WF b :=
  WF_of_SInv_Fresh b (Built_SInv_Fresh b hb).1 (Built_SInv_Fresh b hb).2

/-- C2: after any sequence of add_bridge / del_bridge calls (on valid
connection references) starting from a board built by add_island calls,
every connection carries between 0 and 2 bridges, no two crossing
connections carry bridges at the same time, no pending count is negative,
and every pending count equals the expected count minus the incident
bridge sum, so pending is zero exactly when the incident bridges reach the
expected count. -/
theorem claim_C2 (b0 b : HBoard) (hb : Built b0) (hr : BridgeReach b0 b) :
    (∀ j < b.connections.length,
      refBridges b (some j) = 0 ∨ refBridges b (some j) = 1 ∨
      refBridges b (some j) = 2) ∧
    (∀ j < b.connections.length, ∀ r ∈ refCross b (some j),
      refBridges b (some j) = 0 ∨ refBridges b r = 0) ∧
    (∀ i < b.islands.length, 0 ≤ refPend b (some i)) ∧
    (∀ i < b.islands.length,
      refPend b (some i) = islandExpect b i - islandDegree b i ∧
      (refPend b (some i) = 0 ↔ islandDegree b i = islandExpect b i)) := by
  have hwf := WF_BridgeReach b0 b (Built_WF b0 hb) hr
  obtain ⟨hsen, hbr, hpn, hps, hex, hends, hsym⟩ := hwf
  refine ⟨?_, hex, hpn, ?_⟩
  · intro j hj
    have := hbr j hj
    omega
  · intro i hi
    have := hps i hi
    constructor
    · omega
    · constructor
      · intro h0
        omega
      · intro h0
        omega

/-- Witness for claim C2: a two-island board built by add_island with one
bridge added on its connection. -/
theorem claim_C2_witness :
    Built (add_island (add_island (init_board 4) 0 0 1).2 0 1 1).2 ∧
    BridgeReach (add_island (add_island (init_board 4) 0 0 1).2 0 1 1).2
      (add_bridge (add_island (add_island (init_board 4) 0 0 1).2 0 1 1).2 (some 0)).2 ∧
    ∀ i < (add_bridge (add_island (add_island (init_board 4) 0 0 1).2 0 1 1).2
        (some 0)).2.islands.length,
      0 ≤ refPend (add_bridge (add_island (add_island (init_board 4) 0 0 1).2 0 1 1).2
        (some 0)).2 (some i) :=
  ⟨Built.add _ 0 1 1 (Built.add _ 0 0 1 (Built.init 4) (by decide)) (by decide),
   BridgeReach.add (some 0) (BridgeReach.refl _) (by decide),
   (claim_C2 _ _
     (Built.add _ 0 1 1 (Built.add _ 0 0 1 (Built.init 4) (by decide)) (by decide))
     (BridgeReach.add (some 0) (BridgeReach.refl _) (by decide))).2.2.1⟩

/-- C7: on a board built by add_island calls, a vertical connection v and a
horizontal connection h are recorded as crossing each other, symmetrically
in both cross lists, exactly when the row of h lies strictly between the
rows of the endpoints of v and the column of v lies strictly between the
columns of the endpoints of h. -/
theorem claim_C7 (b : HBoard) (hb : Built b) (v h : Nat)
    (hvl : v < b.connections.length) (hhl : h < b.connections.length)
    (hvert : connVert b v) (hhorz : connHorz b h) :
    (some h ∈ refCross b (some v) ↔ geomCross b v h) ∧
    (some v ∈ refCross b (some h) ↔ geomCross b v h) := by
  have hs := (Built_SInv_Fresh b hb).1
  constructor
  · constructor
    · intro hmem
      obtain ⟨k, hrk, hkl, hmem2, hgeo⟩ := hs.crossSound v hvl (some h) hmem
      have hkh : k = h := by
        injection hrk with he
        exact he.symm
      subst hkh
      rcases hgeo with ⟨hv2, hh2, hg⟩ | ⟨hh2, hv2, hg⟩
      · exact hg
      · have h1 := hvert.2.1
        have h2 := hh2.1
        rw [h2] at h1
        exact absurd h1 (lt_irrefl _)
    · intro hg
      exact (hs.crossComplete v h hvl hhl hvert hhorz hg).1
  · constructor
    · intro hmem
      obtain ⟨k, hrk, hkl, hmem2, hgeo⟩ := hs.crossSound h hhl (some v) hmem
      have hkv : k = v := by
        injection hrk with he
        exact he.symm
      subst hkv
      rcases hgeo with ⟨hv2, hh2, hg⟩ | ⟨hh2, hv2, hg⟩
      · have h1 := hv2.2.1
        have h2 := hhorz.1
        rw [h2] at h1
        exact absurd h1 (lt_irrefl _)
      · exact hg
    · intro hg
      exact (hs.crossComplete v h hvl hhl hvert hhorz hg).2

/-- Witness for claim C7: a built board with a horizontal connection
between (1,0)-(1,2) crossed by a vertical connection between (0,1)-(2,1). -/
theorem claim_C7_witness :
    (connVert (add_island (add_island (add_island (add_island (init_board 9)
        0 1 1).2 1 0 1).2 1 2 2).2 2 1 1).2 1 ∧
     connHorz (add_island (add_island (add_island (add_island (init_board 9)
        0 1 1).2 1 0 1).2 1 2 2).2 2 1 1).2 0) ∧
    (some 0 ∈ refCross (add_island (add_island (add_island (add_island (init_board 9)
        0 1 1).2 1 0 1).2 1 2 2).2 2 1 1).2 (some 1) ↔
      geomCross (add_island (add_island (add_island (add_island (init_board 9)
        0 1 1).2 1 0 1).2 1 2 2).2 2 1 1).2 1 0) :=
  ⟨⟨by decide, by decide⟩,
   (claim_C7 _
     (Built.add _ 2 1 1 (Built.add _ 1 2 2 (Built.add _ 1 0 1
       (Built.add _ 0 1 1 (Built.init 9) (by decide)) (by decide)) (by decide))
       (by decide))
     1 0 (by decide) (by decide) (by decide) (by decide)).1⟩

/-- del_bridge right after a successful add_bridge restores the exact
previous board (the undo-exactness at the heart of the search backtracking). -/
theorem del_add_exact (b : HBoard) (c : ConnRef) (hv : validConnRef b c)
    (hb : 0 ≤ refBridges b c) (h : (add_bridge b c).1 = true) :
    del_bridge (add_bridge b c).2 c = (true, b) := by
  have hca : can_add b c := (add_bridge_fst b c).1 h
  rw [add_bridge_pos b c hca]
  dsimp only
  rw [decPend_setRefBridges, decPend_setRefBridges]
  have hW : refBridges (decPend (decPend b (connEnd1 b c)) (connEnd2 b c)) c
      = refBridges b c := by
    simp only [decPend]
    rw [refBridges_setRefPend, refBridges_setRefPend]
  have hWv : validConnRef (decPend (decPend b (connEnd1 b c)) (connEnd2 b c)) c := by
    apply validConnRef_of_length b _ c _ hv
    simp only [decPend]
    rw [connections_setRefPend, connections_setRefPend]
  rw [del_bridge_pos _ c (by rw [refBridges_setRefBridges_self _ c _ hWv]; omega)]
  rw [refBridges_setRefBridges_self _ c _ hWv]
  have hE1 : connEnd1 (setRefBridges (decPend (decPend b (connEnd1 b c)) (connEnd2 b c))
      c (refBridges b c + 1)) c = connEnd1 b c := by
    rw [connEnd1_setRefBridges]
    simp only [decPend]
    rw [connEnd1_setRefPend, connEnd1_setRefPend]
  have hE2 : connEnd2 (setRefBridges (decPend (decPend b (connEnd1 b c)) (connEnd2 b c))
      c (refBridges b c + 1)) c = connEnd2 b c := by
    rw [connEnd2_setRefBridges]
    simp only [decPend]
    rw [connEnd2_setRefPend, connEnd2_setRefPend]
  rw [hE1, hE2]
  congr 1
  rw [setRefBridges_setRefBridges]
  have hv1 : refBridges b c + 1 - 1 = refBridges b c := by omega
  rw [hv1, incPend_setRefBridges, incPend_setRefBridges]
  have hW2 : refBridges (incPend (incPend (decPend (decPend b (connEnd1 b c))
      (connEnd2 b c)) (connEnd1 b c)) (connEnd2 b c)) c = refBridges b c := by
    simp only [incPend, decPend]
    rw [refBridges_setRefPend, refBridges_setRefPend, refBridges_setRefPend,
        refBridges_setRefPend]
  rw [← hW2, setRefBridges_self]
  by_cases he : connEnd1 b c = connEnd2 b c
  · rw [he, incPend_decPend, incPend_decPend]
  · rw [incPend_decPend_comm (decPend b (connEnd1 b c)) (connEnd2 b c) (connEnd1 b c)
        (fun hx => he hx.symm),
      incPend_decPend, incPend_decPend]

theorem incPend_comm (b : HBoard) (r r2 : IslandRef) :
    incPend (incPend b r) r2 = incPend (incPend b r2) r := by
  by_cases h : r = r2
  · rw [h]
  · unfold incPend
    rw [refPend_setRefPend_ne b r r2 _ (Ne.symm h), refPend_setRefPend_ne b r2 r _ h,
        setRefPend_comm b r r2 _ _ h]

theorem getConn_setRefBridges_ne (b : HBoard) (c : ConnRef) (v : Int) (j : Nat)
    (h : c ≠ some j) : getConn (setRefBridges b c v) j = getConn b j := by
  cases c with
  | none => rfl
  | some k =>
      have hkj : k ≠ j := fun he => h (by rw [he])
      unfold setRefBridges getConn
      dsimp only
      rw [List.getD_eq_getElem?_getD, List.getD_eq_getElem?_getD,
          List.getElem?_set_ne hkj]
      exact (List.getD_eq_getElem?_getD _ _ _).symm

theorem setRefBridges_comm (b : HBoard) (c c2 : ConnRef) (v w : Int) (h : c ≠ c2) :
    setRefBridges (setRefBridges b c v) c2 w = setRefBridges (setRefBridges b c2 w) c v := by
  cases c with
  | none =>
      cases c2 with
      | none => exact absurd rfl h
      | some j2 => rfl
  | some j =>
      cases c2 with
      | none => rfl
      | some j2 =>
          have hjj : j ≠ j2 := fun he => h (by rw [he])
          show ({ b with connections := (b.connections.set j ({ getConn b j with bridges := v })).set j2 ({ getConn (setRefBridges b (some j) v) j2 with bridges := w }) } : HBoard) = { b with connections := (b.connections.set j2 ({ getConn b j2 with bridges := w })).set j ({ getConn (setRefBridges b (some j2) w) j with bridges := v }) }
          rw [getConn_setRefBridges_ne b (some j) v j2 (by simp [hjj]),
              getConn_setRefBridges_ne b (some j2) w j (fun he => hjj (by injection he.symm)),
              List.set_comm _ _ _ hjj]

theorem refBridges_del_bridge_frame (b : HBoard) (c c2 : ConnRef) (h : c2 ≠ c) :
    refBridges (del_bridge b c).2 c2 = refBridges b c2 := by
  by_cases hd : refBridges b c ≠ 0
  · exact refBridges_del_bridge_ne b c c2 hd h
  · rw [del_bridge_neg b c (not_not.mp hd)]

theorem refBridges_add_bridge_frame (b : HBoard) (c c2 : ConnRef) (h : c2 ≠ c) :
    refBridges (add_bridge b c).2 c2 = refBridges b c2 := by
  by_cases hca : can_add b c
  · exact refBridges_add_bridge_ne b c c2 hca h
  · rw [add_bridge_neg b c hca]

theorem del_del_comm (b : HBoard) (c c2 : ConnRef) (hne : c ≠ c2) :
    (del_bridge (del_bridge b c).2 c2).2 = (del_bridge (del_bridge b c2).2 c).2 := by
  by_cases h1 : refBridges b c = 0
  · rw [del_bridge_neg b c h1]
    by_cases h2 : refBridges b c2 = 0
    · rw [del_bridge_neg b c2 h2, del_bridge_neg b c h1]
    · rw [del_bridge_neg _ c (by
        rw [refBridges_del_bridge_frame b c2 c hne]
        exact h1)]
  · by_cases h2 : refBridges b c2 = 0
    · rw [del_bridge_neg b c2 h2]
      rw [del_bridge_neg _ c2 (by
        rw [refBridges_del_bridge_frame b c c2 (Ne.symm hne)]
        exact h2)]
    · rw [del_bridge_pos b c h1]
      dsimp only
      have hB1b : refBridges (incPend (incPend (setRefBridges b c (refBridges b c - 1))
          (connEnd1 b c)) (connEnd2 b c)) c2 = refBridges b c2 := by
        simp only [incPend]
        rw [refBridges_setRefPend, refBridges_setRefPend,
            refBridges_setRefBridges_ne b c c2 _ (Ne.symm hne)]
      have hBE1 : connEnd1 (incPend (incPend (setRefBridges b c (refBridges b c - 1))
          (connEnd1 b c)) (connEnd2 b c)) c2 = connEnd1 b c2 := by
        simp only [incPend]
        rw [connEnd1_setRefPend, connEnd1_setRefPend, connEnd1_setRefBridges]
      have hBE2 : connEnd2 (incPend (incPend (setRefBridges b c (refBridges b c - 1))
          (connEnd1 b c)) (connEnd2 b c)) c2 = connEnd2 b c2 := by
        simp only [incPend]
        rw [connEnd2_setRefPend, connEnd2_setRefPend, connEnd2_setRefBridges]
      rw [del_bridge_pos _ c2 (by rw [hB1b]; exact h2)]
      dsimp only
      rw [hB1b, hBE1, hBE2]
      rw [del_bridge_pos b c2 h2]
      dsimp only
      have hB2b : refBridges (incPend (incPend (setRefBridges b c2 (refBridges b c2 - 1))
          (connEnd1 b c2)) (connEnd2 b c2)) c = refBridges b c := by
        simp only [incPend]
        rw [refBridges_setRefPend, refBridges_setRefPend,
            refBridges_setRefBridges_ne b c2 c _ hne]
      have hCE1 : connEnd1 (incPend (incPend (setRefBridges b c2 (refBridges b c2 - 1))
          (connEnd1 b c2)) (connEnd2 b c2)) c = connEnd1 b c := by
        simp only [incPend]
        rw [connEnd1_setRefPend, connEnd1_setRefPend, connEnd1_setRefBridges]
      have hCE2 : connEnd2 (incPend (incPend (setRefBridges b c2 (refBridges b c2 - 1))
          (connEnd1 b c2)) (connEnd2 b c2)) c = connEnd2 b c := by
        simp only [incPend]
        rw [connEnd2_setRefPend, connEnd2_setRefPend, connEnd2_setRefBridges]
      rw [del_bridge_pos _ c (by rw [hB2b]; exact h1)]
      dsimp only
      rw [hB2b, hCE1, hCE2]
      simp only [incPend_setRefBridges]
      rw [setRefBridges_comm _ c c2 _ _ hne]
      rw [incPend_comm (incPend b (connEnd1 b c)) (connEnd2 b c) (connEnd1 b c2)]
      rw [incPend_comm b (connEnd1 b c) (connEnd1 b c2)]
      rw [incPend_comm (incPend (incPend b (connEnd1 b c2)) (connEnd1 b c))
          (connEnd2 b c) (connEnd2 b c2)]
      rw [incPend_comm (incPend b (connEnd1 b c2)) (connEnd1 b c) (connEnd2 b c2)]

theorem del_loop_pres {γ : Type _} (g : HBoard → γ) (c : ConnRef)
    (hg : ∀ b, g (del_bridge b c).2 = g b) :
    ∀ f b, g (del_loop f b c) = g b := by
  intro f
  induction f with
  | zero =>
      intro b
      rfl
  | succ f ih =>
      intro b
      unfold del_loop
      rcases hdb : del_bridge b c with ⟨fl, b1⟩
      cases fl
      · rfl
      · show g (del_loop f b1 c) = g b
        rw [ih b1]
        have hgb := hg b
        rw [hdb] at hgb
        exact hgb

theorem fill_loop_pres {γ : Type _} (g : HBoard → γ)
    (hg : ∀ b c, g (add_bridge b c).2 = g b) :
    ∀ f b i d, g (fill_loop f b i d) = g b := by
  intro f
  induction f with
  | zero =>
      intro b i d
      rfl
  | succ f ih =>
      intro b i d
      unfold fill_loop
      split
      · rcases hab : add_bridge b (islandConn b i d) with ⟨fl, b1⟩
        cases fl
        · dsimp only
          split
          · rfl
          · exact ih b i (d + 1)
        · show g (fill_loop f b1 i d) = g b
          rw [ih b1 i d]
          have hgb := hg b (islandConn b i d)
          rw [hab] at hgb
          exact hgb
      · rfl

theorem del_all_zero (b : HBoard) (c : ConnRef) (h : refBridges b c = 0) :
    del_all b c = b := by
  unfold del_all
  rw [h]
  show del_loop 1 b c = b
  unfold del_loop
  rw [del_bridge_neg b c h]

theorem del_loop_eq (c : ConnRef) :
    ∀ f1 f2 b, validConnRef b c → 0 ≤ refBridges b c →
      (refBridges b c).toNat < f1 → (refBridges b c).toNat < f2 →
      del_loop f1 b c = del_loop f2 b c := by
  intro f1
  induction f1 with
  | zero =>
      intro f2 b hv hb h1 h2
      omega
  | succ f1 ih =>
      intro f2 b hv hb h1 h2
      rcases f2 with _ | f2
      · omega
      · show del_loop (f1 + 1) b c = del_loop (f2 + 1) b c
        unfold del_loop
        rcases hdb : del_bridge b c with ⟨fl, b1⟩
        cases fl
        · rfl
        · show del_loop f1 b1 c = del_loop f2 b1 c
          have hd : refBridges b c ≠ 0 := by
            intro h0
            rw [del_bridge_neg b c h0] at hdb
            cases hdb
          have hb1 : refBridges b1 c = refBridges b c - 1 := by
            have := refBridges_del_bridge_self b c hd hv
            rw [hdb] at this
            exact this
          have hv1 : validConnRef b1 c := by
            apply validConnRef_of_length b _ c _ hv
            have := connections_length_del_bridge b c
            rw [hdb] at this
            exact this
          apply ih f2 b1 hv1 (by omega) (by omega) (by omega)

theorem del_all_step (b : HBoard) (c : ConnRef) (hv : validConnRef b c)
    (hb : 0 ≤ refBridges b c) (hd : refBridges b c ≠ 0) :
    del_all b c = del_all (del_bridge b c).2 c := by
  have hb1 : refBridges (del_bridge b c).2 c = refBridges b c - 1 :=
    refBridges_del_bridge_self b c hd hv
  have hv1 : validConnRef (del_bridge b c).2 c :=
    validConnRef_of_length b _ c (connections_length_del_bridge b c) hv
  show del_loop ((refBridges b c).toNat + 1) b c = _
  unfold del_loop
  rcases hdb : del_bridge b c with ⟨fl, b1⟩
  cases fl
  · exfalso
    rw [del_bridge_pos b c hd] at hdb
    cases hdb
  · show del_loop (refBridges b c).toNat b1 c = del_all b1 c
    rw [hdb] at hb1 hv1
    dsimp only at hb1 hv1
    exact del_loop_eq c _ _ b1 hv1 (by omega) (by omega) (by omega)

theorem refBridges_del_all_ne (b : HBoard) (c c2 : ConnRef) (h : c2 ≠ c) :
    refBridges (del_all b c) c2 = refBridges b c2 :=
  del_loop_pres (fun x => refBridges x c2) c
    (fun x => refBridges_del_bridge_frame x c c2 h) _ b

theorem connections_length_del_all (b : HBoard) (c : ConnRef) :
    (del_all b c).connections.length = b.connections.length :=
  del_loop_pres (fun x => x.connections.length) c
    (fun x => connections_length_del_bridge x c) _ b

theorem islandConn_del_all (b : HBoard) (c : ConnRef) (i d : Nat) :
    islandConn (del_all b c) i d = islandConn b i d :=
  del_loop_pres (fun x => islandConn x i d) c
    (fun x => islandConn_del_bridge x c i d) _ b

theorem del_all_add_cancel (b : HBoard) (c : ConnRef) (hv : validConnRef b c)
    (hb : 0 ≤ refBridges b c) (h : (add_bridge b c).1 = true) :
    del_all (add_bridge b c).2 c = del_all b c := by
  have hca : can_add b c := (add_bridge_fst b c).1 h
  have hbX : refBridges (add_bridge b c).2 c = refBridges b c + 1 :=
    refBridges_add_bridge_self b c hca hv
  have hvX : validConnRef (add_bridge b c).2 c :=
    validConnRef_of_length b _ c (connections_length_add_bridge b c) hv
  rw [del_all_step _ c hvX (by omega) (by omega), del_add_exact b c hv hb h]

theorem del_bridge_del_all_comm (c c2 : ConnRef) (hne : c ≠ c2) :
    ∀ n b, validConnRef b c → validConnRef b c2 → 0 ≤ refBridges b c →
    0 ≤ refBridges b c2 → (refBridges b c2).toNat = n → refBridges b c ≠ 0 →
    del_all (del_bridge b c).2 c2 = (del_bridge (del_all b c2) c).2 := by
  intro n
  induction n with
  | zero =>
      intro b hv1 hv2 hb1 hb2 hn hd
      have h20 : refBridges b c2 = 0 := by omega
      rw [del_all_zero b c2 h20, del_all_zero _ c2 (by
        rw [refBridges_del_bridge_frame b c c2 (Ne.symm hne)]
        exact h20)]
  | succ n ih =>
      intro b hv1 hv2 hb1 hb2 hn hd
      have h2d : refBridges b c2 ≠ 0 := by omega
      have hXv2 : validConnRef (del_bridge b c).2 c2 :=
        validConnRef_of_length b _ c2 (connections_length_del_bridge b c) hv2
      have hXb2 : refBridges (del_bridge b c).2 c2 = refBridges b c2 :=
        refBridges_del_bridge_frame b c c2 (Ne.symm hne)
      rw [del_all_step (del_bridge b c).2 c2 hXv2 (by omega) (by omega)]
      rw [del_del_comm b c c2 hne]
      have hBv1 : validConnRef (del_bridge b c2).2 c :=
        validConnRef_of_length b _ c (connections_length_del_bridge b c2) hv1
      have hBv2 : validConnRef (del_bridge b c2).2 c2 :=
        validConnRef_of_length b _ c2 (connections_length_del_bridge b c2) hv2
      have hBb1 : refBridges (del_bridge b c2).2 c = refBridges b c :=
        refBridges_del_bridge_frame b c2 c hne
      have hBb2 : refBridges (del_bridge b c2).2 c2 = refBridges b c2 - 1 :=
        refBridges_del_bridge_self b c2 h2d hv2
      rw [ih (del_bridge b c2).2 hBv1 hBv2 (by omega) (by omega) (by omega) (by omega)]
      rw [← del_all_step b c2 hv2 hb2 h2d]

theorem del_all_comm (c c2 : ConnRef) (hne : c ≠ c2) :
    ∀ n b, validConnRef b c → validConnRef b c2 → 0 ≤ refBridges b c →
    0 ≤ refBridges b c2 → (refBridges b c).toNat = n →
    del_all (del_all b c) c2 = del_all (del_all b c2) c := by
  intro n
  induction n with
  | zero =>
      intro b hv1 hv2 hb1 hb2 hn
      have h10 : refBridges b c = 0 := by omega
      rw [del_all_zero b c h10, del_all_zero _ c (by
        rw [refBridges_del_all_ne b c2 c hne]
        exact h10)]
  | succ n ih =>
      intro b hv1 hv2 hb1 hb2 hn
      have h1d : refBridges b c ≠ 0 := by omega
      have hBv1 : validConnRef (del_bridge b c).2 c :=
        validConnRef_of_length b _ c (connections_length_del_bridge b c) hv1
      have hBv2 : validConnRef (del_bridge b c).2 c2 :=
        validConnRef_of_length b _ c2 (connections_length_del_bridge b c) hv2
      have hBb1 : refBridges (del_bridge b c).2 c = refBridges b c - 1 :=
        refBridges_del_bridge_self b c h1d hv1
      have hBb2 : refBridges (del_bridge b c).2 c2 = refBridges b c2 :=
        refBridges_del_bridge_frame b c c2 (Ne.symm hne)
      rw [del_all_step b c hv1 hb1 h1d]
      rw [ih (del_bridge b c).2 hBv1 hBv2 (by omega) (by omega) (by omega)]
      rw [del_bridge_del_all_comm c c2 hne (refBridges b c2).toNat b hv1 hv2 hb1 hb2
        rfl h1d]
      have hYv1 : validConnRef (del_all b c2) c :=
        validConnRef_of_length b _ c (connections_length_del_all b c2) hv1
      have hYb1 : refBridges (del_all b c2) c = refBridges b c :=
        refBridges_del_all_ne b c2 c hne
      rw [← del_all_step (del_all b c2) c hYv1 (by omega) (by omega)]

theorem fill_loop_down_undo (i : Nat) (cR cD : ConnRef) (hne : cR ≠ cD) :
    ∀ fuel b, islandConn b i DOWN = cD →
    validConnRef b cR → validConnRef b cD →
    0 ≤ refBridges b cR → 0 ≤ refBridges b cD →
    del_all (del_all (fill_loop fuel b i DOWN) cR) cD = del_all (del_all b cR) cD := by
  intro fuel
  induction fuel with
  | zero =>
      intro b _ _ _ _ _
      rfl
  | succ fuel ih =>
      intro b hD hv1 hv2 hb1 hb2
      unfold fill_loop
      split
      · rw [hD]
        rcases hab : add_bridge b cD with ⟨fl, b1⟩
        cases fl
        · dsimp only
          rw [if_pos rfl]
        · show del_all (del_all (fill_loop fuel b1 i DOWN) cR) cD = _
          have hsucc : (add_bridge b cD).1 = true := by
            rw [hab]
          have hcan : can_add b cD := (add_bridge_fst b cD).1 hsucc
          have hb1e : b1 = (add_bridge b cD).2 := by
            rw [hab]
          have hD1 : islandConn b1 i DOWN = cD := by
            rw [hb1e, islandConn_add_bridge]
            exact hD
          have hlen1 : b1.connections.length = b.connections.length := by
            rw [hb1e]
            exact connections_length_add_bridge b cD
          have hv11 : validConnRef b1 cR := validConnRef_of_length b _ cR hlen1 hv1
          have hv21 : validConnRef b1 cD := validConnRef_of_length b _ cD hlen1 hv2
          have hbr1 : refBridges b1 cR = refBridges b cR := by
            rw [hb1e]
            exact refBridges_add_bridge_frame b cD cR hne
          have hbd1 : refBridges b1 cD = refBridges b cD + 1 := by
            rw [hb1e]
            exact refBridges_add_bridge_self b cD hcan hv2
          rw [ih b1 hD1 hv11 hv21 (by omega) (by omega)]
          rw [del_all_comm cR cD hne (refBridges b1 cR).toNat b1 hv11 hv21
            (by omega) (by omega) rfl]
          have hcancel : del_all b1 cD = del_all b cD := by
            rw [hb1e]
            exact del_all_add_cancel b cD hv2 hb2 hsucc
          rw [hcancel]
          rw [← del_all_comm cR cD hne (refBridges b cR).toNat b hv1 hv2 hb1 hb2 rfl]
      · rfl

theorem fill_loop_right_undo (i : Nat) (cR cD : ConnRef) (hne : cR ≠ cD) :
    ∀ fuel b, islandConn b i RIGHT = cR → islandConn b i DOWN = cD →
    validConnRef b cR → validConnRef b cD →
    0 ≤ refBridges b cR → 0 ≤ refBridges b cD →
    del_all (del_all (fill_loop fuel b i RIGHT) cR) cD = del_all (del_all b cR) cD := by
  intro fuel
  induction fuel with
  | zero =>
      intro b _ _ _ _ _ _
      rfl
  | succ fuel ih =>
      intro b hR hD hv1 hv2 hb1 hb2
      unfold fill_loop
      split
      · rw [hR]
        rcases hab : add_bridge b cR with ⟨fl, b1⟩
        cases fl
        · dsimp only
          rw [if_neg (by decide : ¬ RIGHT + 1 = DIRECTIONS)]
          exact fill_loop_down_undo i cR cD hne fuel b hD hv1 hv2 hb1 hb2
        · show del_all (del_all (fill_loop fuel b1 i RIGHT) cR) cD = _
          have hsucc : (add_bridge b cR).1 = true := by
            rw [hab]
          have hcan : can_add b cR := (add_bridge_fst b cR).1 hsucc
          have hb1e : b1 = (add_bridge b cR).2 := by
            rw [hab]
          have hR1 : islandConn b1 i RIGHT = cR := by
            rw [hb1e, islandConn_add_bridge]
            exact hR
          have hD1 : islandConn b1 i DOWN = cD := by
            rw [hb1e, islandConn_add_bridge]
            exact hD
          have hlen1 : b1.connections.length = b.connections.length := by
            rw [hb1e]
            exact connections_length_add_bridge b cR
          have hv11 : validConnRef b1 cR := validConnRef_of_length b _ cR hlen1 hv1
          have hv21 : validConnRef b1 cD := validConnRef_of_length b _ cD hlen1 hv2
          have hbr1 : refBridges b1 cR = refBridges b cR + 1 := by
            rw [hb1e]
            exact refBridges_add_bridge_self b cR hcan hv1
          have hbd1 : refBridges b1 cD = refBridges b cD := by
            rw [hb1e]
            exact refBridges_add_bridge_frame b cR cD (Ne.symm hne)
          rw [ih b1 hR1 hD1 hv11 hv21 (by omega) (by omega)]
          have hcancel : del_all b1 cR = del_all b cR := by
            rw [hb1e]
            exact del_all_add_cancel b cR hv1 hb1 hsucc
          rw [hcancel]
      · rfl

/-- C4: fill_bridges greedily adds bridges on the RIGHT connection of the
island and then on the DOWN connection; it succeeds exactly when the
island's pending count reaches zero, and on failure the undo loops delete
every bridge just added, restoring the board exactly to its state before
the call.  The hypotheses are facts of every state in which the solver
calls fill_bridges: valid forward connection references carrying no
bridges yet, a zeroed out-connection sentinel, and distinct forward
connections unless both are the sentinel. -/
theorem claim_C4 (b : HBoard) (i : Nat)
    (hvR : validConnRef b (islandConn b i RIGHT))
    (hvD : validConnRef b (islandConn b i DOWN))
    (hR0 : refBridges b (islandConn b i RIGHT) = 0)
    (hD0 : refBridges b (islandConn b i DOWN) = 0)
    (hPN : refPend b none = 0)
    (hRD : islandConn b i RIGHT = islandConn b i DOWN →
      islandConn b i RIGHT = none) :
    ((fill_bridges b i).1 = true ↔ refPend (fill_bridges b i).2 (some i) = 0) ∧
    ((fill_bridges b i).1 = false → (fill_bridges b i).2 = b) := by
  by_cases hne : islandConn b i RIGHT = islandConn b i DOWN
  · have hRn : islandConn b i RIGHT = none := hRD hne
    have hDn : islandConn b i DOWN = none := by
      rw [← hne]
      exact hRn
    have hnoadd : add_bridge b none = (false, b) :=
      add_bridge_neg b none (fun hca => hca.2.1 hPN)
    obtain ⟨f0, hf⟩ : ∃ f0, fillFuel b i = f0 + 2 :=
      ⟨fillFuel b i - 2, by unfold fillFuel; omega⟩
    have hX : fill_loop (fillFuel b i) b i RIGHT = b := by
      rw [hf]
      show fill_loop (f0 + 1 + 1) b i RIGHT = b
      by_cases hp : (getIsland b i).pendbridges ≠ 0
      · unfold fill_loop
        rw [if_pos hp, hRn, hnoadd]
        dsimp only
        rw [if_neg (by decide : ¬ RIGHT + 1 = DIRECTIONS)]
        unfold fill_loop
        rw [if_pos hp]
        have hDn2 : islandConn b i (RIGHT + 1) = none := hDn
        rw [hDn2, hnoadd]
        dsimp only
        rw [if_pos (by decide : RIGHT + 1 + 1 = DIRECTIONS)]
      · unfold fill_loop
        rw [if_neg hp]
    by_cases hp : (getIsland b i).pendbridges ≠ 0
    · have hFB : fill_bridges b i = (false, b) := by
        unfold fill_bridges
        dsimp only
        rw [hX, if_pos hp, del_all_zero b _ hR0, del_all_zero b _ hD0]
      rw [hFB]
      refine ⟨⟨fun hcs => Bool.noConfusion hcs, fun h0 => absurd h0 hp⟩, fun _ => rfl⟩
    · have hp0 : (getIsland b i).pendbridges = 0 := not_not.mp hp
      have hFB : fill_bridges b i = (true, b) := by
        unfold fill_bridges
        dsimp only
        rw [hX, if_neg hp]
      rw [hFB]
      refine ⟨⟨fun _ => hp0, fun _ => rfl⟩, fun hcs => Bool.noConfusion hcs⟩
  · have hundo : del_all (del_all (fill_loop (fillFuel b i) b i RIGHT)
        (islandConn b i RIGHT)) (islandConn b i DOWN) = b := by
      rw [fill_loop_right_undo i (islandConn b i RIGHT) (islandConn b i DOWN) hne
        (fillFuel b i) b rfl rfl hvR hvD (by omega) (by omega)]
      rw [del_all_zero b _ hR0, del_all_zero b _ hD0]
    have hXR : islandConn (fill_loop (fillFuel b i) b i RIGHT) i RIGHT =
        islandConn b i RIGHT :=
      fill_loop_pres (fun x => islandConn x i RIGHT)
        (fun x c => islandConn_add_bridge x c i RIGHT) _ b i RIGHT
    have hXD : islandConn (fill_loop (fillFuel b i) b i RIGHT) i DOWN =
        islandConn b i DOWN :=
      fill_loop_pres (fun x => islandConn x i DOWN)
        (fun x c => islandConn_add_bridge x c i DOWN) _ b i RIGHT
    have hXD2 : islandConn (del_all (fill_loop (fillFuel b i) b i RIGHT)
        (islandConn b i RIGHT)) i DOWN = islandConn b i DOWN := by
      rw [islandConn_del_all, hXD]
    by_cases hpX : (getIsland (fill_loop (fillFuel b i) b i RIGHT) i).pendbridges ≠ 0
    · have hFB : fill_bridges b i = (false, b) := by
        unfold fill_bridges
        dsimp only
        rw [if_pos hpX, hXR, hXD2, hundo]
      rw [hFB]
      have hpb : (getIsland b i).pendbridges ≠ 0 := by
        intro h0
        apply hpX
        obtain ⟨f1, hf1⟩ : ∃ f1, fillFuel b i = f1 + 1 :=
          ⟨fillFuel b i - 1, by unfold fillFuel; omega⟩
        rw [hf1]
        unfold fill_loop
        rw [if_neg (fun hcc => hcc h0)]
        exact h0
      refine ⟨⟨fun hcs => Bool.noConfusion hcs, fun h0 => absurd h0 hpb⟩, fun _ => rfl⟩
    · have hFB : fill_bridges b i =
          (true, fill_loop (fillFuel b i) b i RIGHT) := by
        unfold fill_bridges
        dsimp only
        rw [if_neg hpX]
      rw [hFB]
      refine ⟨⟨fun _ => not_not.mp hpX, fun _ => rfl⟩, fun hcs => Bool.noConfusion hcs⟩

/-- Witness for claim C4 on the two-island sample board, whose first island
fills its single pending bridge on the right connection and succeeds. -/
theorem claim_C4_witness :
    (validConnRef sampleA (islandConn sampleA 0 RIGHT) ∧
     refBridges sampleA (islandConn sampleA 0 RIGHT) = 0 ∧
     refPend sampleA none = 0) ∧
    ((fill_bridges sampleA 0).1 = true ↔
      refPend (fill_bridges sampleA 0).2 (some 0) = 0) :=
  ⟨⟨by decide, by decide, by decide⟩,
   (claim_C4 sampleA 0 (by decide) (by decide) (by decide) (by decide) (by decide)
     (by decide)).1⟩

/-- Forward adds do not move the connection slots of any island. -/
theorem FwdAdds_islandConn (i : Nat) (b0 b : HBoard) (h : FwdAdds i b0 b)
    (k d : Nat) : islandConn b k d = islandConn b0 k d := by
  induction h with
  | refl => rfl
  | addR h ht ih => rw [islandConn_add_bridge]; exact ih
  | addD h ht ih => rw [islandConn_add_bridge]; exact ih

theorem FwdAdds_conn_length (i : Nat) (b0 b : HBoard) (h : FwdAdds i b0 b) :
    b.connections.length = b0.connections.length := by
  induction h with
  | refl => rfl
  | addR h ht ih => rw [connections_length_add_bridge]; exact ih
  | addD h ht ih => rw [connections_length_add_bridge]; exact ih

theorem FwdAdds_bridges_nonneg (i : Nat) (b0 b : HBoard) (h : FwdAdds i b0 b)
    (c : ConnRef) (hvc : validConnRef b0 c) (hc : 0 ≤ refBridges b0 c) :
    0 ≤ refBridges b c := by
  induction h with
  | refl => exact hc
  | addR h ht ih =>
      rename_i bx
      have hca := (add_bridge_fst bx (islandConn bx i RIGHT)).1 ht
      by_cases he : c = islandConn bx i RIGHT
      · rw [he, refBridges_add_bridge_self bx _ hca (by
          rw [← he]
          exact validConnRef_of_length b0 bx c (FwdAdds_conn_length i b0 bx h) hvc)]
        rw [← he]
        omega
      · rw [refBridges_add_bridge_frame bx _ c he]
        exact ih
  | addD h ht ih =>
      rename_i bx
      have hca := (add_bridge_fst bx (islandConn bx i DOWN)).1 ht
      by_cases he : c = islandConn bx i DOWN
      · rw [he, refBridges_add_bridge_self bx _ hca (by
          rw [← he]
          exact validConnRef_of_length b0 bx c (FwdAdds_conn_length i b0 bx h) hvc)]
        rw [← he]
        omega
      · rw [refBridges_add_bridge_frame bx _ c he]
        exact ih

theorem FwdAdds_undo (i : Nat) (b0 b : HBoard)
    (hne : islandConn b0 i RIGHT ≠ islandConn b0 i DOWN)
    (hvR : validConnRef b0 (islandConn b0 i RIGHT))
    (hvD : validConnRef b0 (islandConn b0 i DOWN))
    (hR0 : refBridges b0 (islandConn b0 i RIGHT) = 0)
    (hD0 : refBridges b0 (islandConn b0 i DOWN) = 0)
    (h : FwdAdds i b0 b) :
    del_all (del_all b (islandConn b0 i RIGHT)) (islandConn b0 i DOWN) = b0 := by
  induction h with
  | refl =>
      rw [del_all_zero b0 _ hR0, del_all_zero b0 _ hD0]
  | addR h ht ih =>
      rename_i bx
      have hcR : islandConn bx i RIGHT = islandConn b0 i RIGHT :=
        FwdAdds_islandConn i b0 bx h i RIGHT
      rw [hcR] at ht ⊢
      have hvRx : validConnRef bx (islandConn b0 i RIGHT) :=
        validConnRef_of_length b0 bx _ (FwdAdds_conn_length i b0 bx h) hvR
      have hbRx : 0 ≤ refBridges bx (islandConn b0 i RIGHT) :=
        FwdAdds_bridges_nonneg i b0 bx h _ hvR (by omega)
      rw [del_all_add_cancel bx _ hvRx hbRx ht]
      exact ih
  | addD h ht ih =>
      rename_i bx
      have hcD : islandConn bx i DOWN = islandConn b0 i DOWN :=
        FwdAdds_islandConn i b0 bx h i DOWN
      rw [hcD] at ht ⊢
      have hlen := FwdAdds_conn_length i b0 bx h
      have hvRx : validConnRef bx (islandConn b0 i RIGHT) :=
        validConnRef_of_length b0 bx _ hlen hvR
      have hvDx : validConnRef bx (islandConn b0 i DOWN) :=
        validConnRef_of_length b0 bx _ hlen hvD
      have hbRx : 0 ≤ refBridges bx (islandConn b0 i RIGHT) :=
        FwdAdds_bridges_nonneg i b0 bx h _ hvR (by omega)
      have hbDx : 0 ≤ refBridges bx (islandConn b0 i DOWN) :=
        FwdAdds_bridges_nonneg i b0 bx h _ hvD (by omega)
      have hca := (add_bridge_fst bx (islandConn b0 i DOWN)).1 ht
      have hlenY : (add_bridge bx (islandConn b0 i DOWN)).2.connections.length =
          b0.connections.length := by
        rw [connections_length_add_bridge]
        exact hlen
      have hvRy : validConnRef (add_bridge bx (islandConn b0 i DOWN)).2
          (islandConn b0 i RIGHT) := validConnRef_of_length b0 _ _ hlenY hvR
      have hvDy : validConnRef (add_bridge bx (islandConn b0 i DOWN)).2
          (islandConn b0 i DOWN) := validConnRef_of_length b0 _ _ hlenY hvD
      have hbRy : refBridges (add_bridge bx (islandConn b0 i DOWN)).2
          (islandConn b0 i RIGHT) = refBridges bx (islandConn b0 i RIGHT) :=
        refBridges_add_bridge_frame bx _ _ hne
      have hbDy : refBridges (add_bridge bx (islandConn b0 i DOWN)).2
          (islandConn b0 i DOWN) = refBridges bx (islandConn b0 i DOWN) + 1 :=
        refBridges_add_bridge_self bx _ hca hvDx
      rw [del_all_comm _ _ hne _ _ hvRy hvDy (by omega) (by omega) rfl]
      rw [del_all_add_cancel bx _ hvDx hbDx ht]
      rw [← del_all_comm _ _ hne (refBridges bx (islandConn b0 i RIGHT)).toNat bx
        hvRx hvDx hbRx hbDx rfl]
      exact ih

theorem FwdAdds_id (i : Nat) (b0 b : HBoard)
    (hRn : islandConn b0 i RIGHT = none)
    (hDn : islandConn b0 i DOWN = none)
    (hPN : refPend b0 none = 0)
    (h : FwdAdds i b0 b) : b = b0 := by
  have hnoadd : add_bridge b0 none = (false, b0) :=
    add_bridge_neg b0 none (fun hca => hca.2.1 hPN)
  induction h with
  | refl => rfl
  | addR h ht ih =>
      rename_i bx
      rw [FwdAdds_islandConn i b0 bx h i RIGHT, hRn, ih, hnoadd] at ht
      cases ht
  | addD h ht ih =>
      rename_i bx
      rw [FwdAdds_islandConn i b0 bx h i DOWN, hDn, ih, hnoadd] at ht
      cases ht

/-- C5: on a board reached from an untouched island state b0 (no bridges on
the forward connections of island i) by forward adds at island i,
reorder_bridges either succeeds and moves exactly one bridge from the RIGHT
connection to the DOWN connection — producing the next split with one
fewer right bridge and one more down bridge — or fails, and then its undo
loops return the board exactly to the untouched state b0.  The hypotheses
are the call-site facts of the solver: valid forward references, bridge
counts starting at zero, a zeroed sentinel, and distinct forward
connections unless both are the sentinel. -/
theorem claim_C5 (b0 b : HBoard) (i : Nat)
    (hvR : validConnRef b0 (islandConn b0 i RIGHT))
    (hvD : validConnRef b0 (islandConn b0 i DOWN))
    (hR0 : refBridges b0 (islandConn b0 i RIGHT) = 0)
    (hD0 : refBridges b0 (islandConn b0 i DOWN) = 0)
    (hPN : refPend b0 none = 0)
    (hRD : islandConn b0 i RIGHT = islandConn b0 i DOWN →
      islandConn b0 i RIGHT = none)
    (hadds : FwdAdds i b0 b) :
    ((reorder_bridges b i).1 = true →
      refBridges (reorder_bridges b i).2 (islandConn b0 i RIGHT) =
        refBridges b (islandConn b0 i RIGHT) - 1 ∧
      refBridges (reorder_bridges b i).2 (islandConn b0 i DOWN) =
        refBridges b (islandConn b0 i DOWN) + 1) ∧
    ((reorder_bridges b i).1 = false → (reorder_bridges b i).2 = b0) := by
  have hcR : islandConn b i RIGHT = islandConn b0 i RIGHT :=
    FwdAdds_islandConn i b0 b hadds i RIGHT
  have hcD : islandConn b i DOWN = islandConn b0 i DOWN :=
    FwdAdds_islandConn i b0 b hadds i DOWN
  by_cases hne : islandConn b0 i RIGHT = islandConn b0 i DOWN
  · have hRn : islandConn b0 i RIGHT = none := hRD hne
    have hDn : islandConn b0 i DOWN = none := by
      rw [← hne]
      exact hRn
    have hb : b = b0 := FwdAdds_id i b0 b hRn hDn hPN hadds
    have hR0n : refBridges b0 none = 0 := by
      rw [← hRn]
      exact hR0
    have hRB : reorder_bridges b i = (false, b0) := by
      unfold reorder_bridges
      rw [hb, hRn, del_bridge_neg b0 none hR0n]
      dsimp only
      rw [hDn, del_all_zero b0 none hR0n]
    rw [hRB]
    exact ⟨fun hcs => Bool.noConfusion hcs, fun _ => rfl⟩
  · have hlen := FwdAdds_conn_length i b0 b hadds
    have hvRb : validConnRef b (islandConn b0 i RIGHT) :=
      validConnRef_of_length b0 b _ hlen hvR
    have hvDb : validConnRef b (islandConn b0 i DOWN) :=
      validConnRef_of_length b0 b _ hlen hvD
    have hbRb : 0 ≤ refBridges b (islandConn b0 i RIGHT) :=
      FwdAdds_bridges_nonneg i b0 b hadds _ hvR (by omega)
    have hbDb : 0 ≤ refBridges b (islandConn b0 i DOWN) :=
      FwdAdds_bridges_nonneg i b0 b hadds _ hvD (by omega)
    rcases hdel : del_bridge b (islandConn b i RIGHT) with ⟨fl1, b1⟩
    cases fl1
    · have h0 : refBridges b (islandConn b i RIGHT) = 0 := by
        by_contra hx
        rw [del_bridge_pos b _ hx] at hdel
        cases hdel
      have hRB : reorder_bridges b i =
          (false, del_all b (islandConn b i DOWN)) := by
        unfold reorder_bridges
        rw [hdel]
      rw [hRB]
      refine ⟨fun hcs => Bool.noConfusion hcs, fun _ => ?_⟩
      have hzero : del_all b (islandConn b0 i RIGHT) = b := by
        apply del_all_zero
        rw [← hcR]
        exact h0
      rw [hcD, ← hzero]
      exact FwdAdds_undo i b0 b hne hvR hvD hR0 hD0 hadds
    · have hd1 : refBridges b (islandConn b i RIGHT) ≠ 0 := by
        intro hx
        rw [del_bridge_neg b _ hx] at hdel
        cases hdel
      have hd1b : refBridges b (islandConn b0 i RIGHT) ≠ 0 := by
        rw [← hcR]
        exact hd1
      have hb1e : b1 = (del_bridge b (islandConn b0 i RIGHT)).2 := by
        rw [← hcR, hdel]
      have hlen1 : b1.connections.length = b0.connections.length := by
        rw [hb1e, connections_length_del_bridge]
        exact hlen
      have hcR1 : islandConn b1 i RIGHT = islandConn b0 i RIGHT := by
        rw [hb1e, islandConn_del_bridge]
        exact hcR
      have hcD1 : islandConn b1 i DOWN = islandConn b0 i DOWN := by
        rw [hb1e, islandConn_del_bridge]
        exact hcD
      have hvR1 : validConnRef b1 (islandConn b0 i RIGHT) :=
        validConnRef_of_length b0 b1 _ hlen1 hvR
      have hvD1 : validConnRef b1 (islandConn b0 i DOWN) :=
        validConnRef_of_length b0 b1 _ hlen1 hvD
      have hbR1 : refBridges b1 (islandConn b0 i RIGHT) =
          refBridges b (islandConn b0 i RIGHT) - 1 := by
        rw [hb1e]
        exact refBridges_del_bridge_self b (islandConn b0 i RIGHT) hd1b hvRb
      have hbD1 : refBridges b1 (islandConn b0 i DOWN) =
          refBridges b (islandConn b0 i DOWN) := by
        rw [hb1e]
        exact refBridges_del_bridge_frame b (islandConn b0 i RIGHT)
          (islandConn b0 i DOWN) (Ne.symm hne)
      rcases hadd : add_bridge b1 (islandConn b1 i DOWN) with ⟨fl2, b2⟩
      cases fl2
      · have hRB : reorder_bridges b i =
            (false, del_all (del_all b1 (islandConn b1 i RIGHT))
              (islandConn (del_all b1 (islandConn b1 i RIGHT)) i DOWN)) := by
          unfold reorder_bridges
          rw [hdel]
          dsimp only
          rw [hadd]
        rw [hRB]
        refine ⟨fun hcs => Bool.noConfusion hcs, fun _ => ?_⟩
        rw [hcR1, islandConn_del_all, hcD1]
        have hstep : del_all b1 (islandConn b0 i RIGHT) =
            del_all b (islandConn b0 i RIGHT) := by
          rw [hb1e]
          exact (del_all_step b (islandConn b0 i RIGHT) hvRb hbRb hd1b).symm
        rw [hstep]
        exact FwdAdds_undo i b0 b hne hvR hvD hR0 hD0 hadds
      · have hsucc2 : (add_bridge b1 (islandConn b1 i DOWN)).1 = true := by
          rw [hadd]
        have hca2 : can_add b1 (islandConn b1 i DOWN) :=
          (add_bridge_fst _ _).1 hsucc2
        have hb2e : b2 = (add_bridge b1 (islandConn b1 i DOWN)).2 := by
          rw [hadd]
        have hRB : reorder_bridges b i = (true, b2) := by
          unfold reorder_bridges
          rw [hdel]
          dsimp only
          rw [hadd]
        rw [hRB]
        refine ⟨fun _ => ⟨?_, ?_⟩, fun hcs => Bool.noConfusion hcs⟩
        · show refBridges b2 (islandConn b0 i RIGHT) = _
          rw [hb2e, hcD1]
          rw [refBridges_add_bridge_frame b1 _ _ hne]
          exact hbR1
        · show refBridges b2 (islandConn b0 i DOWN) = _
          rw [hb2e, hcD1]
          rw [refBridges_add_bridge_self b1 _ (by rw [hcD1] at hca2; exact hca2) hvD1]
          rw [hbD1]

/-- Witness for claim C5: after adding the single bridge of the two-island
sample board, reorder_bridges cannot move it down and restores the board. -/
theorem claim_C5_witness :
    (validConnRef sampleA (islandConn sampleA 0 RIGHT) ∧
     refBridges sampleA (islandConn sampleA 0 RIGHT) = 0 ∧
     refPend sampleA none = 0 ∧
     (add_bridge sampleA (islandConn sampleA 0 RIGHT)).1 = true) ∧
    ((reorder_bridges (add_bridge sampleA (islandConn sampleA 0 RIGHT)).2 0).1 =
        false →
      (reorder_bridges (add_bridge sampleA (islandConn sampleA 0 RIGHT)).2 0).2 =
        sampleA) :=
  ⟨⟨by decide, by decide, by decide, by decide⟩,
   (claim_C5 sampleA (add_bridge sampleA (islandConn sampleA 0 RIGHT)).2 0
     (by decide) (by decide) (by decide) (by decide) (by decide) (by decide)
     (FwdAdds.addR (FwdAdds.refl sampleA) (by decide))).2⟩

end Hashi
